import Mathlib

/-! Portfolio page script (`src/app.js`): a shallow embedding.

The script is a set of event handlers over the DOM.  Each handler is embedded
as a pure function on the part of the page state it reads and writes:
class lists are lists of class names, element collections are lists in
document order, `forEach` is a left fold, and timers are explicit deadlines.
Pixel offsets are integers (`Int`); numbers are binary64 values, each kept
as the rational it denotes, every arithmetic result being rounded to nearest,
ties to even.
-/

namespace Portfolio

/-! ## Class lists (`element.classList`) -/

/-- The method `classList.add(c)`: the token is appended unless already present. -/
def classAdd (c : String) (cl : List String) : List String :=
  if c ∈ cl then cl else cl ++ [c]

/-- The method `classList.remove(c)`: every occurrence of the token goes. -/
def classRemove (c : String) (cl : List String) : List String :=
  cl.filter (fun x => decide (x ≠ c))

/-- The method `classList.toggle(c)`. -/
def classToggle (c : String) (cl : List String) : List String :=
  if c ∈ cl then classRemove c cl else cl ++ [c]

/-- The method `classList.contains(c)`. -/
def classContains (c : String) (cl : List String) : Bool :=
  decide (c ∈ cl)

/-! ## Elements read by the scroll tracker -/

/-- A navigation link (`.nav__link`): its `href` attribute (`none` when the
attribute is absent, so that `getAttribute` yields `null`) and its class list. -/
structure NavLink where
  href : Option String
  classList : List String
deriving DecidableEq, Repr

/-- A page section (`.section, .hero`): its `id` attribute (`none` when
absent), its layout box and its class list. -/
structure Section where
  id : Option String
  offsetTop : Int
  offsetHeight : Int
  classList : List String
deriving DecidableEq, Repr

/-- The part of `window` and `document.documentElement` the handlers read.
`window.pageYOffset` is an alias of `window.scrollY`. -/
structure Window where
  scrollY : Int
  docScrollTop : Int
  innerWidth : Int
deriving DecidableEq, Repr

/-- The string built by `'#' + section.getAttribute('id')`; a missing attribute
is `null`, which concatenates as the text `null`. -/
def sectionHash (section_ : Section) : String :=
  "#" ++ section_.id.getD "null"

/-- Whether a link carries the class `active`. -/
def NavLink.isActive (link : NavLink) : Bool :=
  classContains "active" link.classList

/-! ## `navigation.updateActiveNavLink` (lines 124-131) -/

/-- The body of the `forEach` callback of `updateActiveNavLink`, for one link. -/
def updateLink (targetId : String) (link : NavLink) : NavLink :=
  let link := { link with classList := classRemove "active" link.classList }
  if link.href = some targetId then
    { link with classList := classAdd "active" link.classList }
  else link

/-- The function `navigation.updateActiveNavLink(targetId)` on `elements.navLinks`. -/
def updateActiveNavLink (targetId : String) (navLinks : List NavLink) : List NavLink :=
  navLinks.map (updateLink targetId)

/-! ## `scrollEffects` (lines 183-206) -/

/-- The test of line 202 for one section, at `scrollPosition = scrollY + 150`. -/
def sectionMatches (scrollPosition : Int) (section_ : Section) : Bool :=
  decide (scrollPosition ≥ section_.offsetTop) &&
    decide (scrollPosition < section_.offsetTop + section_.offsetHeight)

/-- The function `scrollEffects.handleNavLinkHighlight()`: the sections are
visited in document order and every matching one calls `updateActiveNavLink`. -/
def handleNavLinkHighlight (w : Window) (sections : List Section)
    (navLinks : List NavLink) : List NavLink :=
  let scrollPosition := w.scrollY + 150
  sections.foldl
    (fun links section_ =>
      if sectionMatches scrollPosition section_ then
        updateActiveNavLink (sectionHash section_) links
      else links)
    navLinks

/-- The value `window.pageYOffset || document.documentElement.scrollTop`
of line 184: the right operand is used when the left one is `0`. -/
def scrollTop (w : Window) : Int :=
  if w.scrollY ≠ 0 then w.scrollY else w.docScrollTop

/-- The function `scrollEffects.handleHeaderScroll()` on the header's class list. -/
def handleHeaderScroll (w : Window) (header : List String) : List String :=
  if scrollTop w > 50 then classAdd "scrolled" header
  else classRemove "scrolled" header

/-- The last section, in document order, whose range contains `scrollPosition`. -/
def lastMatching (scrollPosition : Int) (sections : List Section) : Option Section :=
  (sections.filter (sectionMatches scrollPosition)).getLast?

/-- The number of links that carry the class `active`. -/
def activeCount (navLinks : List NavLink) : Nat :=
  (navLinks.filter NavLink.isActive).length

/-! ## Strings as the script sees them

Form values are scalar-value strings (the entry list of a `FormData` holds
no lone surrogates), so a JavaScript string is a Lean `String`.  What differs
is `length`, which counts UTF-16 code units. -/

/-- The ECMAScript `WhiteSpace` and `LineTerminator` code points: what
`String.prototype.trim` strips and what `\s` matches in a regular expression. -/
def isJSWhiteSpace (c : Char) : Bool :=
  let n := c.toNat
  n == 0x09 || n == 0x0A || n == 0x0B || n == 0x0C || n == 0x0D || n == 0x20 ||
  n == 0xA0 || n == 0x1680 || (decide (0x2000 ≤ n) && decide (n ≤ 0x200A)) ||
  n == 0x2028 || n == 0x2029 || n == 0x202F || n == 0x205F || n == 0x3000 ||
  n == 0xFEFF

/-- The method `String.prototype.trim` on the list of code points. -/
def trimChars (cs : List Char) : List Char :=
  ((cs.dropWhile isJSWhiteSpace).reverse.dropWhile isJSWhiteSpace).reverse

/-- The method `String.prototype.trim`. -/
def jsTrim (s : String) : String :=
  ⟨trimChars s.data⟩

/-- The property `length` of a string: the number of UTF-16 code units, two
for a code point outside the Basic Multilingual Plane. -/
def jsLength (s : String) : Nat :=
  (s.data.map (fun c => if c.toNat < 0x10000 then 1 else 2)).sum

/-- Truthiness of `!x` for `x` a string or `undefined`/`null`: true when the
value is missing or the empty string. -/
def isFalsy (x : Option String) : Bool :=
  match x with
  | none => true
  | some s => decide (s = "")

/-! ## Regular expressions, matched by derivatives -/

/-- The regular expressions needed for the pattern of line 433: character
classes, concatenation, alternation and repetition. -/
inductive Rx where
  | empty : Rx
  | eps : Rx
  | cls : (Char → Bool) → Rx
  | cat : Rx → Rx → Rx
  | alt : Rx → Rx → Rx
  | star : Rx → Rx

/-- The quantifier `+`: one or more repetitions. -/
def Rx.plus (r : Rx) : Rx := Rx.cat r (Rx.star r)

/-- Whether the expression matches the empty string. -/
def Rx.nullable : Rx → Bool
  | Rx.empty => false
  | Rx.eps => true
  | Rx.cls _ => false
  | Rx.cat a b => a.nullable && b.nullable
  | Rx.alt a b => a.nullable || b.nullable
  | Rx.star _ => true

/-- The derivative of an expression by one character. -/
def Rx.deriv : Rx → Char → Rx
  | Rx.empty, _ => Rx.empty
  | Rx.eps, _ => Rx.empty
  | Rx.cls p, c => if p c then Rx.eps else Rx.empty
  | Rx.cat a b, c =>
    if a.nullable then Rx.alt (Rx.cat (a.deriv c) b) (b.deriv c)
    else Rx.cat (a.deriv c) b
  | Rx.alt a b, c => Rx.alt (a.deriv c) (b.deriv c)
  | Rx.star a, c => Rx.cat (a.deriv c) (Rx.star a)

/-- Whether the whole string matches the expression (a pattern anchored by
`^` and `$`, without flags). -/
def Rx.test (r : Rx) (cs : List Char) : Bool :=
  (cs.foldl Rx.deriv r).nullable

/-- The class `[^\s@]`. -/
def notSpaceOrAt (c : Char) : Bool :=
  !(isJSWhiteSpace c) && !(c == '@')

/-- The pattern `/^[^\s@]+@[^\s@]+\.[^\s@]+$/` of line 433. -/
def emailRegex : Rx :=
  Rx.cat (Rx.plus (Rx.cls notSpaceOrAt))
    (Rx.cat (Rx.cls (fun c => c == '@'))
      (Rx.cat (Rx.plus (Rx.cls notSpaceOrAt))
        (Rx.cat (Rx.cls (fun c => c == '.'))
          (Rx.plus (Rx.cls notSpaceOrAt)))))

/-! ## `formHandling.validateForm` (lines 419-446) -/

/-- The entry list of a `FormData`: field names with their string values. -/
abbrev FormData := List (String × String)

/-- The method `formData.get(name)`: the first value under that name, or `null`. -/
def FormData.get (formData : FormData) (name : String) : Option String :=
  (formData.find? (fun e => decide (e.1 = name))).map Prod.snd

/-- The function `formHandling.validateForm(formData)`. -/
def validateForm (formData : FormData) : List String :=
  let name := (formData.get "name").map jsTrim
  let email := (formData.get "email").map jsTrim
  let message := (formData.get "message").map jsTrim
  let errors : List String := []
  let errors := if isFalsy name then errors ++ ["Name is required"] else errors
  let errors :=
    match email with
    | none => errors ++ ["Email is required"]
    | some e =>
      if e = "" then errors ++ ["Email is required"]
      else if !(emailRegex.test e.data) then
        errors ++ ["Please enter a valid email address"]
      else errors
  let errors :=
    match message with
    | none => errors ++ ["Message is required"]
    | some m =>
      if m = "" then errors ++ ["Message is required"]
      else if jsLength m < 10 then
        errors ++ ["Message must be at least 10 characters long"]
      else errors
  errors

/-- The words of the specification for a well-formed address: a local part,
`@`, a domain, `.` and a top-level part, each non-empty and free of
whitespace and of `@`. -/
def ValidEmail (cs : List Char) : Prop :=
  ∃ loc dom tld : List Char,
    loc ≠ [] ∧ dom ≠ [] ∧ tld ≠ [] ∧
    (∀ c ∈ loc ++ dom ++ tld, isJSWhiteSpace c = false ∧ c ≠ '@') ∧
    cs = loc ++ '@' :: dom ++ '.' :: tld

/-- The language of an expression: the strings it matches. -/
def Rx.lang : Rx → Language Char
  | Rx.empty => 0
  | Rx.eps => 1
  | Rx.cls p => {x | ∃ c, p c = true ∧ x = [c]}
  | Rx.cat a b => a.lang * b.lang
  | Rx.alt a b => a.lang + b.lang
  | Rx.star a => KStar.kstar a.lang

/-- The errors pushed by the block of lines 426-428. -/
def nameErrors (name : Option String) : List String :=
  if isFalsy name then ["Name is required"] else []

/-- The errors pushed by the block of lines 430-437. -/
def emailErrors (email : Option String) : List String :=
  match email with
  | none => ["Email is required"]
  | some e =>
    if e = "" then ["Email is required"]
    else if !(emailRegex.test e.data) then ["Please enter a valid email address"]
    else []

/-- The errors pushed by the block of lines 439-443. -/
def messageErrors (message : Option String) : List String :=
  match message with
  | none => ["Message is required"]
  | some m =>
    if m = "" then ["Message is required"]
    else if jsLength m < 10 then ["Message must be at least 10 characters long"]
    else []

/-! ## `encodeURIComponent` and `formHandling.createMailtoLink` (lines 449-467) -/

/-- The characters `encodeURIComponent` leaves as they are: ASCII letters,
digits and the marks `- _ . ! ~ * ' ( )`. -/
def isUriUnescaped (c : Char) : Bool :=
  let n := c.toNat
  (decide (0x41 ≤ n) && decide (n ≤ 0x5A)) || (decide (0x61 ≤ n) && decide (n ≤ 0x7A)) ||
  (decide (0x30 ≤ n) && decide (n ≤ 0x39)) ||
  n == 0x2D || n == 0x5F || n == 0x2E || n == 0x21 || n == 0x7E || n == 0x2A ||
  n == 0x27 || n == 0x28 || n == 0x29

/-- The UTF-8 bytes of a code point. -/
def utf8Bytes (n : Nat) : List Nat :=
  if n < 0x80 then [n]
  else if n < 0x800 then [0xC0 + n / 64, 0x80 + n % 64]
  else if n < 0x10000 then [0xE0 + n / 4096, 0x80 + n / 64 % 64, 0x80 + n % 64]
  else [0xF0 + n / 262144, 0x80 + n / 4096 % 64, 0x80 + n / 64 % 64, 0x80 + n % 64]

/-- One upper-case hexadecimal digit. -/
def hexDigit (d : Nat) : Char :=
  if d < 10 then Char.ofNat (0x30 + d) else Char.ofNat (0x41 + (d - 10))

/-- The escape `%XX` of one byte. -/
def percentByte (b : Nat) : List Char :=
  ['%', hexDigit (b / 16), hexDigit (b % 16)]

/-- What `encodeURIComponent` writes for one code point. -/
def encodeChar (c : Char) : List Char :=
  if isUriUnescaped c then [c]
  else (utf8Bytes c.toNat).flatMap percentByte

/-- The function `encodeURIComponent` on a well-formed string. -/
def encodeURIComponent (s : String) : String :=
  ⟨s.data.flatMap encodeChar⟩

/-- A value interpolated in a template literal: `null` prints as `null`. -/
def interpolate (x : Option String) : String :=
  x.getD "null"

/-- The expression `formData.get('subject') || 'Portfolio Contact Form Submission'`. -/
def subjectOrDefault (subject : Option String) : String :=
  if isFalsy subject then "Portfolio Contact Form Submission" else interpolate subject

/-- The function `formHandling.createMailtoLink(formData)`; `now` is the text of
`new Date().toLocaleString()` at the time of the call. -/
def createMailtoLink (formData : FormData) (now : String) : String :=
  let name := formData.get "name"
  let email := formData.get "email"
  let subject := subjectOrDefault (formData.get "subject")
  let message := formData.get "message"
  let mailtoSubject := encodeURIComponent (subject ++ " - From " ++ interpolate name)
  let mailtoBody := encodeURIComponent (
    "Name: " ++ interpolate name ++ "\n" ++
    "Email: " ++ interpolate email ++ "\n" ++
    "Subject: " ++ subject ++ "\n\n" ++
    "Message:\n" ++ interpolate message ++ "\n\n" ++
    "---\n" ++
    "This message was sent from your portfolio website contact form.\n" ++
    "Sent at: " ++ now)
  "mailto:akshaymuthushankar@gmail.com?subject=" ++ mailtoSubject ++ "&body=" ++ mailtoBody

/-- The string `s` starts with `p`. -/
def StartsWith (s p : String) : Prop :=
  ∃ rest : String, s = p ++ rest

/-- The string `s` contains `x` as a substring. -/
def Contains (s x : String) : Prop :=
  ∃ before after : String, s = before ++ x ++ after

/-! ## Numbers and `animations.animateCounter` (lines 298-310)

A number is a binary64 value: `NaN`, an infinity, or a finite value, kept as
the rational it denotes.  Every arithmetic result is the exact result rounded
to the nearest binary64 value, ties to even; the sign of zero is left out
(no operation of the counter tells `-0` from `0`). -/

/-- The nearest integer to a rational, ties going to the even one. -/
def roundHalfEven (y : ℚ) : ℤ :=
  if y - ⌊y⌋ < 1 / 2 then ⌊y⌋
  else if 1 / 2 < y - ⌊y⌋ then ⌊y⌋ + 1
  else if ⌊y⌋ % 2 = 0 then ⌊y⌋ else ⌊y⌋ + 1

/-- The exponent of the unit in the last place of the binary64 values around
`x`: 52 below the binary exponent of `x`, and `-1074` in the subnormal range. -/
def ulpExponent (x : ℚ) : ℤ :=
  max (Int.log 2 |x| - 52) (-1074)

/-- The multiple of the unit in the last place nearest to `x`, ties to even:
the binary64 rounding of `x` before the overflow check. -/
def roundToDouble (x : ℚ) : ℚ :=
  (roundHalfEven (x / 2 ^ ulpExponent x) : ℚ) * 2 ^ ulpExponent x

/-- A JavaScript number: `NaN`, a finite binary64 value, or an infinity. -/
inductive JSNum where
  | nan : JSNum
  | fin : ℚ → JSNum
  | posInf : JSNum
  | negInf : JSNum
deriving DecidableEq

/-- The binary64 value of an exact result: the rounding, or an infinity when
the rounding reaches `2 ^ 1024`. -/
def toDouble (x : ℚ) : JSNum :=
  if 2 ^ 1024 ≤ roundToDouble x then JSNum.posInf
  else if roundToDouble x ≤ -2 ^ 1024 then JSNum.negInf
  else JSNum.fin (roundToDouble x)

/-- The operator `+` on numbers. -/
def JSNum.add : JSNum → JSNum → JSNum
  | JSNum.fin a, JSNum.fin b => toDouble (a + b)
  | JSNum.nan, _ => JSNum.nan
  | _, JSNum.nan => JSNum.nan
  | JSNum.posInf, JSNum.negInf => JSNum.nan
  | JSNum.negInf, JSNum.posInf => JSNum.nan
  | JSNum.posInf, _ => JSNum.posInf
  | _, JSNum.posInf => JSNum.posInf
  | JSNum.negInf, _ => JSNum.negInf
  | _, JSNum.negInf => JSNum.negInf

/-- The expression `x / 50`. -/
def JSNum.div50 : JSNum → JSNum
  | JSNum.fin a => toDouble (a / 50)
  | JSNum.nan => JSNum.nan
  | JSNum.posInf => JSNum.posInf
  | JSNum.negInf => JSNum.negInf

/-- The operator `>=` on numbers: false as soon as one side is `NaN`. -/
def JSNum.ge : JSNum → JSNum → Bool
  | JSNum.nan, _ => false
  | _, JSNum.nan => false
  | JSNum.posInf, _ => true
  | _, JSNum.negInf => true
  | JSNum.negInf, _ => false
  | _, JSNum.posInf => false
  | JSNum.fin a, JSNum.fin b => decide (a ≥ b)

/-- The function `Math.ceil`. -/
def JSNum.ceil : JSNum → JSNum
  | JSNum.fin a => JSNum.fin ((⌈a⌉ : ℤ) : ℚ)
  | x => x

/-- The state of one running counter: the variable `start`, the text of the
element (`some n` stands for the text of the number `n` followed by `%`,
`none` for the text the element had before the first tick) and whether the
interval timer is still registered. -/
structure CounterState where
  start : JSNum
  textContent : Option JSNum
  timerActive : Bool
deriving DecidableEq

/-- The state right after `animateCounter(element, target)` returns:
`start = 0` and the interval registered. -/
def animateCounter : CounterState :=
  { start := JSNum.fin 0, textContent := none, timerActive := true }

/-- One period of the interval timer: the callback of lines 301-309 runs if
the interval has not been cleared. -/
def tick (target : JSNum) (st : CounterState) : CounterState :=
  if st.timerActive then
    let increment := target.div50
    let start := st.start.add increment
    if start.ge target then
      { start := start, textContent := some target, timerActive := false }
    else
      { start := start, textContent := some start.ceil, timerActive := true }
  else st

/-- The counter after `k` periods of the interval. -/
def afterTicks (target : JSNum) (k : Nat) : CounterState :=
  (tick target)^[k] animateCounter

/-- The counter is running below the target `target`, its variable `start`
holding the finite value `s` and the element showing the ceiling of `s` (or
nothing yet). -/
def CounterRunning (target : ℚ) (st : CounterState) (s : ℚ) : Prop :=
  st.timerActive = true ∧ st.start = JSNum.fin s ∧ 0 ≤ s ∧ s < target ∧
    (st.textContent = none ∨ st.textContent = some (JSNum.fin ((⌈s⌉ : ℤ) : ℚ)))

/-- The counter has stopped: the running value has reached the target, the
element shows the target and the interval is cleared. -/
def CounterStopped (target : ℚ) (st : CounterState) : Prop :=
  st.timerActive = false ∧ st.textContent = some (JSNum.fin target) ∧
    st.start.ge (JSNum.fin target) = true

/-! ## `parseInt` and `animations.animateSkillBars` (lines 259-275) -/

/-- The value of a character as a digit, for any radix up to 36. -/
def digitValue (c : Char) : Option Nat :=
  let n := c.toNat
  if 0x30 ≤ n ∧ n ≤ 0x39 then some (n - 0x30)
  else if 0x61 ≤ n ∧ n ≤ 0x7A then some (n - 0x61 + 10)
  else if 0x41 ≤ n ∧ n ≤ 0x5A then some (n - 0x41 + 10)
  else none

/-- Whether a character is a digit of the given radix. -/
def isRadixDigit (radix : Nat) (c : Char) : Bool :=
  match digitValue c with
  | some d => decide (d < radix)
  | none => false

/-- The number written by a list of digits of the given radix. -/
def digitsValue (radix : Nat) (cs : List Char) : Nat :=
  cs.foldl (fun acc c => acc * radix + (digitValue c).getD 0) 0

/-- The digits part of `parseInt`, after the sign: an optional `0x`/`0X`
prefix selects radix 16, then the longest prefix of digits is read; no digit
gives `NaN`. -/
def parseDigits (cs : List Char) : Option Nat :=
  let (radix, cs) :=
    match cs with
    | '0' :: 'x' :: rest => (16, rest)
    | '0' :: 'X' :: rest => (16, rest)
    | _ => (10, cs)
  let z := cs.takeWhile (isRadixDigit radix)
  if z = [] then none else some (digitsValue radix z)

/-- The integer that `parseInt(string)`, with no radix argument, reads:
leading whitespace is dropped, a sign is read, then the digits; `none` when
there is no digit, where `parseInt` returns `NaN`. -/
def parseIntExact (s : String) : Option ℤ :=
  let cs := s.data.dropWhile isJSWhiteSpace
  match cs with
  | '-' :: rest => (parseDigits rest).map (fun n => -(n : ℤ))
  | '+' :: rest => (parseDigits rest).map (fun n => (n : ℤ))
  | _ => (parseDigits cs).map (fun n => (n : ℤ))

/-- The function `parseInt(string)` with no radix argument: the binary64
value of the integer read, or `NaN`. -/
def parseInt (s : String) : JSNum :=
  match parseIntExact s with
  | none => JSNum.nan
  | some n => toDouble (n : ℚ)

/-- A progress bar (`.skill-progress`): its `data-progress` attribute and
whether `bar.closest('.skill-item')?.querySelector('.skill-percentage')`
finds an element. -/
structure SkillBar where
  dataProgress : Option String
  hasPercentage : Bool
deriving DecidableEq, Repr

/-- A timer registered by `animateSkillBars`: its delay, the ordinal of the
bar, the width its callback sets, and the target of the counter the callback
starts (`none` when there is no percentage element). -/
structure SkillTimer where
  delay : Nat
  index : Nat
  width : String
  counterTarget : Option JSNum
deriving DecidableEq

/-- The body of the `forEach` callback of `animateSkillBars` for the bar at
ordinal `index`: the timer it registers, if any. -/
def skillBarTimer (index : Nat) (bar : SkillBar) : Option SkillTimer :=
  match bar.dataProgress with
  | none => none
  | some progress =>
    if progress = "" then none
    else some
      { delay := index * 200
        index := index
        width := progress ++ "%"
        counterTarget := if bar.hasPercentage then some (parseInt progress) else none }

/-- The function `animations.animateSkillBars()` on `elements.skillBars`: the
timers it registers, in order. -/
def animateSkillBars (skillBars : List SkillBar) : List SkillTimer :=
  skillBars.enum.filterMap (fun p => skillBarTimer p.1 p.2)

/-! ## The page state and the handlers that write class lists

Each element the script keeps in `elements` has its own fields; the elements
are distinct DOM nodes.  What handlers write to `element.style` of cards,
buttons and bars is not part of this state. -/

/-- The part of the page the class-writing handlers read and write.
`observed` lists the targets of `sectionObserver` (ordinals in
`elements.sections`), `lazyObserved` the sections among the `[data-lazy]`
targets of `lazyObserver`, and `animationCalls` logs every call of one of the
`animate…` functions made by the observer callback. -/
structure Page where
  window : Window
  header : List String
  navMenu : List String
  bodyClassList : List String
  bodyOverflow : String
  iconClassName : String
  navToggleTransform : String
  navLinks : List NavLink
  sections : List Section
  observed : List Nat
  lazyObserved : List Nat
  animationCalls : List String
deriving DecidableEq

/-- The function `navigation.toggleMobileMenu()` (lines 98-111). -/
def toggleMobileMenu (p : Page) : Page :=
  let navMenu := classToggle "show-menu" p.navMenu
  let p := { p with
    navMenu := navMenu
    bodyOverflow := if classContains "show-menu" navMenu then "hidden" else "" }
  if classContains "show-menu" p.navMenu then
    { p with iconClassName := "fas fa-times", navToggleTransform := "rotate(90deg)" }
  else
    { p with iconClassName := "fas fa-bars", navToggleTransform := "rotate(0deg)" }

/-- The function `navigation.closeMobileMenu()` (lines 114-121). -/
def closeMobileMenu (p : Page) : Page :=
  { p with
    navMenu := classRemove "show-menu" p.navMenu
    bodyOverflow := ""
    iconClassName := "fas fa-bars"
    navToggleTransform := "rotate(0deg)" }

/-- The function `navigation.handleNavLinkClick` (lines 134-144) for the link
at ordinal `i`; `targetFound` tells whether `document.querySelector(targetId)`
finds an element. -/
def handleNavLinkClick (i : Nat) (targetFound : Bool) (p : Page) : Page :=
  match p.navLinks[i]? with
  | none => p
  | some link =>
    match link.href with
    | none => p
    | some targetId =>
      if targetFound then
        closeMobileMenu { p with navLinks := updateActiveNavLink targetId p.navLinks }
      else p

/-- The scroll listener body (lines 211-212 and 616-617): `handleHeaderScroll`
then `handleNavLinkHighlight`, at the current scroll offset. -/
def handleScroll (p : Page) : Page :=
  { p with
    header := handleHeaderScroll p.window p.header
    navLinks := handleNavLinkHighlight p.window p.sections p.navLinks }

/-- An `IntersectionObserverEntry`: the target (ordinal of the section in
`elements.sections`) and its `isIntersecting` flag. -/
structure Entry where
  target : Nat
  isIntersecting : Bool
deriving DecidableEq, Repr

/-- The `switch` of lines 238-248 on `entry.target.id`. -/
def animationFor (sectionId : String) : Option String :=
  if sectionId = "projects" then some "animateSkillBars"
  else if sectionId = "interests" then some "animateInterestCards"
  else if sectionId = "experience" then some "animateExperienceCards"
  else none

/-- The body of the `entries.forEach` callback of lines 232-250, for one entry. -/
def handleEntry (p : Page) (entry : Entry) : Page :=
  if entry.isIntersecting then
    match p.sections[entry.target]? with
    | none => p
    | some target =>
      let p := { p with
        sections := p.sections.set entry.target
          { target with classList := classAdd "fade-in-up" target.classList } }
      match animationFor (target.id.getD "") with
      | some call => { p with animationCalls := p.animationCalls ++ [call] }
      | none => p
  else p

/-- The callback given to `new IntersectionObserver` on line 231. -/
def sectionObserverCallback (entries : List Entry) (p : Page) : Page :=
  entries.foldl handleEntry p

/-- The function `animations.initSectionAnimations()`: every section is
observed (lines 253-255). -/
def initSectionAnimations (p : Page) : Page :=
  { p with observed := List.range p.sections.length }

/-- A batch of intersection notifications as the browser delivers it: only
entries of observed targets reach the callback. -/
def deliverIntersections (entries : List Entry) (p : Page) : Page :=
  sectionObserverCallback (entries.filter (fun e => decide (e.target ∈ p.observed))) p

/-- The body of the `entries.forEach` callback of `lazyObserver` (lines
598-604) for one entry whose target is a section: the class `loaded` is added
and the target is unobserved. -/
def handleLazyEntry (p : Page) (entry : Entry) : Page :=
  if entry.isIntersecting then
    match p.sections[entry.target]? with
    | none => p
    | some element =>
      { p with
        sections := p.sections.set entry.target
          { element with classList := classAdd "loaded" element.classList }
        lazyObserved := p.lazyObserved.filter (fun t => decide (t ≠ entry.target)) }
  else p

/-- A batch of notifications of `lazyObserver` as the browser delivers it. -/
def deliverLazyIntersections (entries : List Entry) (p : Page) : Page :=
  (entries.filter (fun e => decide (e.target ∈ p.lazyObserved))).foldl handleLazyEntry p

/-- The resize action of lines 841-846, the function given to `utils.debounce`. -/
def resizeAction (p : Page) : Page :=
  if decide (p.window.innerWidth ≥ 768) && classContains "show-menu" p.navMenu then
    closeMobileMenu p
  else p

/-- The events the script handles.  The last one stands for every listener
and timer callback that writes no class list of an existing element: hover
and focus effects, the stagger timers and counters, form submission with its
banner, the analytics clicks. -/
inductive PageEvent where
  | scroll (scrollY : Int)
  | windowResize (innerWidth : Int)
  | intersections (entries : List Entry)
  | lazyIntersections (entries : List Entry)
  | toggleClick
  | closeClick
  | menuClick (onMenuItself : Bool)
  | keydown (key : String)
  | navLinkClick (i : Nat) (targetFound : Bool)
  | resizeTimer
  | loadingComplete
  | other

/-- The effect of one event on the page, through the listener registered
for it. -/
def step (p : Page) : PageEvent → Page
  | PageEvent.scroll scrollY =>
    handleScroll { p with window := { p.window with scrollY := scrollY, docScrollTop := scrollY } }
  | PageEvent.windowResize innerWidth =>
    { p with window := { p.window with innerWidth := innerWidth } }
  | PageEvent.intersections entries => deliverIntersections entries p
  | PageEvent.lazyIntersections entries => deliverLazyIntersections entries p
  | PageEvent.toggleClick => toggleMobileMenu p
  | PageEvent.closeClick => closeMobileMenu p
  | PageEvent.menuClick onMenuItself => if onMenuItself then closeMobileMenu p else p
  | PageEvent.keydown key =>
    if decide (key = "Escape") && classContains "show-menu" p.navMenu then closeMobileMenu p
    else p
  | PageEvent.navLinkClick i targetFound => handleNavLinkClick i targetFound p
  | PageEvent.resizeTimer => resizeAction p
  | PageEvent.loadingComplete =>
    { p with bodyClassList := classRemove "loading" p.bodyClassList }
  | PageEvent.other => p

/-- The page after a sequence of events. -/
def runEvents (p : Page) (events : List PageEvent) : Page :=
  events.foldl step p

/-- A page with a hero section and the `projects` section, menu closed,
before `initSectionAnimations`. -/
def twoSectionPage : Page :=
  { window := { scrollY := 0, docScrollTop := 0, innerWidth := 1024 }
    header := ["header"]
    navMenu := ["nav__menu"]
    bodyClassList := []
    bodyOverflow := ""
    iconClassName := "fas fa-bars"
    navToggleTransform := ""
    navLinks := [⟨some "#home", ["nav__link"]⟩, ⟨some "#projects", ["nav__link"]⟩]
    sections := [⟨some "home", 0, 800, ["hero"]⟩, ⟨some "projects", 800, 900, ["section"]⟩]
    observed := []
    lazyObserved := []
    animationCalls := [] }

/-- The section at ordinal `i` carries the reveal class `fade-in-up`. -/
def Revealed (p : Page) (i : Nat) : Prop :=
  ∃ section_, p.sections[i]? = some section_ ∧ "fade-in-up" ∈ section_.classList

/-! ## `utils.debounce` (lines 37-49) and `app.handleResize` (lines 840-849)

Time is a natural number of time units.  A timer set at time `t` with delay
`wait` runs its callback at time `t + wait` unless cleared before. -/

/-- The closure state of a debounced function over a world `σ`: the variable
`timeout` (`some deadline` while a timer is registered, `none` when it is
`undefined` or `null`), the times at which `func` has run so far, and the
world `func` acts on. -/
structure Debounced (σ : Type) where
  timeout : Option Nat
  calls : List Nat
  world : σ

/-- The inner function `later` of `debounce`, run by the timer at time `now`. -/
def debounceLater {σ : Type} (func : σ → σ) (immediate : Bool) (now : Nat)
    (d : Debounced σ) : Debounced σ :=
  let d := { d with timeout := none }
  if !immediate then { d with calls := d.calls ++ [now], world := func d.world }
  else d

/-- The function `executedFunction` returned by `debounce(func, wait, immediate)`,
called at time `now`: `clearTimeout(timeout)` drops the registered timer and
`setTimeout(later, wait)` registers a new one. -/
def debounceCall {σ : Type} (func : σ → σ) (wait : Nat) (immediate : Bool) (now : Nat)
    (d : Debounced σ) : Debounced σ :=
  let callNow := immediate && d.timeout.isNone
  let d := { d with timeout := some (now + wait) }
  if callNow then { d with calls := d.calls ++ [now], world := func d.world }
  else d

/-- Time passes up to `now`: a registered timer whose deadline has come runs. -/
def debounceAdvance {σ : Type} (func : σ → σ) (immediate : Bool) (now : Nat)
    (d : Debounced σ) : Debounced σ :=
  match d.timeout with
  | some deadline => if deadline ≤ now then debounceLater func immediate deadline d else d
  | none => d

/-- The debounced function called at each of the given times, in order. -/
def debounceRun {σ : Type} (func : σ → σ) (wait : Nat) (immediate : Bool)
    (events : List Nat) (d : Debounced σ) : Debounced σ :=
  events.foldl
    (fun d now => debounceCall func wait immediate now (debounceAdvance func immediate now d))
    d

/-- Time passes with no further call: the registered timer, if any, runs at
its deadline. -/
def debounceSettle {σ : Type} (func : σ → σ) (immediate : Bool)
    (d : Debounced σ) : Debounced σ :=
  match d.timeout with
  | some deadline => debounceLater func immediate deadline d
  | none => d

/-- The listener `debouncedResize` of `app.handleResize`, built by
`utils.debounce(resizeAction, 250)`, right after `handleResize` returns. -/
def handleResize (p : Page) : Debounced Page :=
  { timeout := none, calls := [], world := p }

/-- The resize listener handling resize events at the given times. -/
def resizeBurst (events : List Nat) (p : Page) : Debounced Page :=
  debounceRun resizeAction 250 false events (handleResize p)

/-- The first section, in document order, whose range contains `scrollPosition`. -/
def firstMatching (scrollPosition : Int) (sections : List Section) : Option Section :=
  (sections.filter (sectionMatches scrollPosition)).head?

/-- The number of sections whose range contains `scrollPosition`. -/
def matchCount (scrollPosition : Int) (sections : List Section) : Nat :=
  (sections.filter (sectionMatches scrollPosition)).length

/-! ## The card groups (lines 278-295) -/

/-- The inline style of a card that the animations write: `opacity` and
`transform`. -/
structure Card where
  opacity : String
  transform : String
deriving DecidableEq, Repr

/-- A timer registered for a card: its delay and the ordinal of the card
whose style its callback writes. -/
structure CardTimer where
  delay : Nat
  index : Nat
deriving DecidableEq, Repr

/-- The callback of a card timer (lines 281-282 and 291-292): the card at the
timer's ordinal becomes visible. -/
def revealCard (timer : CardTimer) (cards : List Card) : List Card :=
  match cards[timer.index]? with
  | none => cards
  | some _ =>
    cards.set timer.index { opacity := "1", transform := "translateY(0) scale(1)" }

/-- The function `animations.animateInterestCards()` on `elements.interestCards`:
the timers it registers, in order. -/
def animateInterestCards (interestCards : List Card) : List CardTimer :=
  interestCards.enum.map (fun p => { delay := p.1 * 100, index := p.1 })

/-- The function `animations.animateExperienceCards()` on
`elements.experienceCards`: the timers it registers, in order. -/
def animateExperienceCards (experienceCards : List Card) : List CardTimer :=
  experienceCards.enum.map (fun p => { delay := p.1 * 150, index := p.1 })

/-- The callback of a progress-bar timer, as far as the bars' inline styles
go (line 264): `bar.style.width = progress + '%'` for the bar at the timer's
ordinal.  `widths` lists `style.width` of the bars in order. -/
def applySkillTimer (widths : List String) (timer : SkillTimer) : List String :=
  widths.set timer.index timer.width

/-- The inline widths of the bars once all the given timers have run. -/
def runSkillTimers (timers : List SkillTimer) (widths : List String) : List String :=
  timers.foldl applySkillTimer widths

/-! ## `utils.throttle` (lines 52-63) and the scroll listener of `scrollEffects.init` -/

/-- The closure state of a throttled function over a world `σ`: the flag
`inThrottle` (`some deadline` while it is true, the deadline being the time
at which the timer of line 60 sets it back to false; `none` while it is false
or `undefined`), the times at which `func` has run so far, and the world. -/
structure Throttled (σ : Type) where
  inThrottle : Option Nat
  calls : List Nat
  world : σ

/-- The function returned by `throttle(func, limit)`, called at time `now`. -/
def throttleCall {σ : Type} (func : σ → σ) (limit : Nat) (now : Nat)
    (d : Throttled σ) : Throttled σ :=
  if d.inThrottle.isNone then
    { inThrottle := some (now + limit), calls := d.calls ++ [now], world := func d.world }
  else d

/-- Time passes up to `now`: the timer of line 60, once due, sets `inThrottle`
to false and does nothing else. -/
def throttleAdvance {σ : Type} (now : Nat) (d : Throttled σ) : Throttled σ :=
  match d.inThrottle with
  | some deadline => if deadline ≤ now then { d with inThrottle := none } else d
  | none => d

/-- A scroll event: its time and the scroll offset the window has when the
event is dispatched. -/
structure ScrollEvent where
  time : Nat
  scrollY : Int
deriving DecidableEq, Repr

/-- The browser scrolls the window to offset `scrollY`. -/
def setScrollOffset (scrollY : Int) (p : Page) : Page :=
  { p with window := { p.window with scrollY := scrollY, docScrollTop := scrollY } }

/-- The listener `handleScroll` of `scrollEffects.init`, built by
`utils.throttle(…, 16)`, right after `init` returns. -/
def scrollEffectsInit (p : Page) : Throttled Page :=
  { inThrottle := none, calls := [], world := p }

/-- One scroll event reaching the throttled listener. -/
def scrollStep (d : Throttled Page) (e : ScrollEvent) : Throttled Page :=
  let d := throttleAdvance e.time d
  let d := { d with world := setScrollOffset e.scrollY d.world }
  throttleCall handleScroll 16 e.time d

/-- The throttled listener handling the given scroll events, in order. -/
def scrollBurst (events : List ScrollEvent) (d : Throttled Page) : Throttled Page :=
  events.foldl scrollStep d

/-- What the burst invariant records at time `now`: successive runs of the
throttled function are at least 16 apart, and the flag is set exactly while
less than 16 has passed since the last run. -/
def ThrottleInv (d : Throttled Page) (now : Nat) : Prop :=
  List.Chain' (fun a b => a + 16 ≤ b) d.calls ∧
  (∀ c ∈ d.calls.getLast?,
    d.inThrottle = some (c + 16) ∨ (d.inThrottle = none ∧ c + 16 ≤ now)) ∧
  (d.calls = [] → d.inThrottle = none)

/-! ## The scroll listeners of the initialised application

`app.init` (lines 817-828) calls the `init` of each module.  Two functions of
the script register a `scroll` listener: `scrollEffects.init` (line 215) and
`performance.optimizeScrolling` (line 628). -/

/-- The two `scroll` listeners defined by the script. -/
inductive ScrollListener where
  | throttledHandleScroll
  | requestScrollUpdate
deriving DecidableEq, Repr

/-- The `scroll` listeners registered by `scrollEffects.init()` (lines 209-216). -/
def scrollEffectsInitListeners : List ScrollListener :=
  [ScrollListener.throttledHandleScroll]

/-- The `scroll` listeners registered by `performance.optimizeScrolling()`
(lines 612-629). -/
def optimizeScrollingListeners : List ScrollListener :=
  [ScrollListener.requestScrollUpdate]

/-- The `scroll` listeners registered by `performance.init()` (lines 647-650),
which calls `initLazyLoading()` and `preloadResources()` and nothing else;
neither registers a `scroll` listener. -/
def performanceInitListeners : List ScrollListener :=
  [] ++ []

/-- The `scroll` listeners registered by `app.init()`, module by module in the
order of lines 820-827: `navigation`, `scrollEffects`, `animations`,
`microInteractions`, `formHandling`, `performance`, `accessibility`,
`analytics`. -/
def appInitListeners : List ScrollListener :=
  [] ++ scrollEffectsInitListeners ++ [] ++ [] ++ [] ++ performanceInitListeners ++ [] ++ []

/-- The closure state of `optimizeScrolling`: the flag `ticking` (a frame
callback is requested exactly while it is true), the times at which
`updateScrollElements` has run, and the page. -/
structure FrameGate where
  ticking : Bool
  calls : List Nat
  world : Page

/-- The function `requestScrollUpdate` (lines 621-626). -/
def requestScrollUpdate (g : FrameGate) : FrameGate :=
  if !g.ticking then { g with ticking := true } else g

/-- The function `updateScrollElements` (lines 615-619), run at time `now`. -/
def updateScrollElements (now : Nat) (g : FrameGate) : FrameGate :=
  { ticking := false, calls := g.calls ++ [now], world := handleScroll g.world }

/-- What reaches the scroll code over time: scroll events and the browser's
animation frames. -/
inductive TimelineEvent where
  | scroll (e : ScrollEvent)
  | frame (time : Nat)
deriving DecidableEq, Repr

/-- The times of the animation frames of a timeline. -/
def frameTimes : List TimelineEvent → List Nat
  | [] => []
  | TimelineEvent.scroll _ :: rest => frameTimes rest
  | TimelineEvent.frame t :: rest => t :: frameTimes rest

/-- One timeline event for the gate of `optimizeScrolling`, were its listener
registered: a scroll event calls `requestScrollUpdate`, a frame runs the
requested callback. -/
def gateStep (g : FrameGate) : TimelineEvent → FrameGate
  | TimelineEvent.scroll e =>
    requestScrollUpdate { g with world := setScrollOffset e.scrollY g.world }
  | TimelineEvent.frame t => if g.ticking then updateScrollElements t g else g

/-- One timeline event for the initialised application, whose only scroll
listener is the throttled one: the scroll code has no frame callback, so a
frame only lets time pass. -/
def appStep (d : Throttled Page) : TimelineEvent → Throttled Page
  | TimelineEvent.scroll e => scrollStep d e
  | TimelineEvent.frame t => throttleAdvance t d

/-- The recomputations that ran from the frame at `frameStart` up to, not
including, the next frame at `frameEnd`. -/
def recomputationsBetween (frameStart frameEnd : Nat) (calls : List Nat) : List Nat :=
  calls.filter (fun c => decide (frameStart ≤ c) && decide (c < frameEnd))

/-! ## The toggle button: `navigation.init` and `accessibility.initARIA` -/

/-- The function values that the property `navigation.toggleMobileMenu` can
hold: the function of lines 98-111, and the wrapper assigned by `initARIA`
on lines 717-721. -/
inductive ToggleFn where
  | original
  | ariaWrapper
deriving DecidableEq, Repr

/-- The page with what the toggle button needs: its `aria-expanded`
attribute, the current value of the property `navigation.toggleMobileMenu`,
and the functions registered as `click` listeners of the button, in order. -/
structure App where
  page : Page
  ariaExpanded : Option String
  toggleMobileMenuProperty : ToggleFn
  toggleClickListeners : List ToggleFn
deriving DecidableEq

/-- The text of `isOpen.toString()`. -/
def boolToString (b : Bool) : String :=
  if b then "true" else "false"

/-- Calling one of the two function values.  The wrapper calls
`originalToggleMenu`, the function of lines 98-111 captured on line 716, and
then writes `aria-expanded`. -/
def ToggleFn.call : ToggleFn → App → App
  | ToggleFn.original, a => { a with page := toggleMobileMenu a.page }
  | ToggleFn.ariaWrapper, a =>
    let a := { a with page := toggleMobileMenu a.page }
    let isOpen := classContains "show-menu" a.page.navMenu
    { a with ariaExpanded := some (boolToString isOpen) }

/-- The part of `navigation.init()` on lines 149-151: the current value of
`this.toggleMobileMenu` is registered as a `click` listener. -/
def navigationInit (a : App) : App :=
  { a with toggleClickListeners := a.toggleClickListeners ++ [a.toggleMobileMenuProperty] }

/-- The function `accessibility.initARIA()` (lines 706-722): the attribute is
initialised and the property `navigation.toggleMobileMenu` is replaced by the
wrapper. -/
def initARIA (a : App) : App :=
  { a with ariaExpanded := some "false", toggleMobileMenuProperty := ToggleFn.ariaWrapper }

/-- The application before `app.init()`: no attribute, the property holding
the function of lines 98-111, no listener. -/
def appBeforeInit (p : Page) : App :=
  { page := p, ariaExpanded := none, toggleMobileMenuProperty := ToggleFn.original,
    toggleClickListeners := [] }

/-- The function `app.init()` as far as the toggle button goes:
`navigation.init()` on line 820 runs before `accessibility.init()` on
line 826. -/
def appInit (p : Page) : App :=
  initARIA (navigationInit (appBeforeInit p))

/-- A click on the toggle button: the registered listeners run in order. -/
def toggleButtonClick (a : App) : App :=
  a.toggleClickListeners.foldl (fun a f => f.call a) a

/-- The application after `n` clicks on the toggle button. -/
def afterClicks (a : App) (n : Nat) : App :=
  toggleButtonClick^[n] a

/-! ## `formHandling.showMessage` and `formHandling.handleSubmit` (lines 470-555) -/

/-- A status banner (`.form-message`): its variant and its message. -/
structure Banner where
  variant : String
  message : String
deriving DecidableEq, Repr

/-- A send scheduled by `handleSubmit` (the timer of line 525): the
`FormData` read at submission and the label of the button to restore. -/
structure PendingSend where
  formData : FormData
  originalText : String
deriving DecidableEq, Repr

/-- The contact form and what `handleSubmit` touches: the field values, the
fields the browser marks `:invalid` (in document order), the focused field,
the submit button, `window.location.href`, the banners on the page with the
durations of their dismiss timers, and the scheduled sends. -/
structure ContactForm where
  formData : FormData
  defaultData : FormData
  invalidFields : List String
  focused : Option String
  submitInnerHTML : String
  submitDisabled : Bool
  locationHref : String
  banners : List Banner
  dismissTimers : List Nat
  pendingSends : List PendingSend
deriving DecidableEq, Repr

/-- The function `formHandling.showMessage(message, type, duration)`: the
existing banners are removed, the new one is inserted and its dismiss timer
set. -/
def showMessage (message : String) (variant : String) (duration : Nat)
    (f : ContactForm) : ContactForm :=
  { f with
    banners := [{ variant := variant, message := message }]
    dismissTimers := f.dismissTimers ++ [duration] }

/-- The message of line 508 for a list of errors. -/
def errorMessage (errors : List String) : String :=
  "Please fix the following errors:<br>â€¢ " ++ "<br>â€¢ ".intercalate errors

/-- The function `formHandling.handleSubmit(e)` (lines 501-555), up to its
return: with errors, the banner and the focus; without, the loading state of
the button and the timer of the send. -/
def handleSubmit (f : ContactForm) : ContactForm :=
  let formData := f.formData
  let errors := validateForm formData
  if errors.length > 0 then
    let f := showMessage (errorMessage errors) "error" 5000 f
    match f.invalidFields.head? with
    | some firstInvalidField => { f with focused := some firstInvalidField }
    | none => f
  else
    { f with
      submitInnerHTML := "<i class=\"fas fa-spinner fa-spin\"></i> Sending..."
      submitDisabled := true
      pendingSends := f.pendingSends ++
        [{ formData := formData, originalText := f.submitInnerHTML }] }

/-- The callback of the timer of line 525, run for a scheduled send at a
moment whose `toLocaleString()` is `now`: the link is built and opened, the
success banner shown and the form reset. -/
def sendCallback (send : PendingSend) (now : String) (f : ContactForm) : ContactForm :=
  let mailtoLink := createMailtoLink send.formData now
  let f := { f with locationHref := mailtoLink }
  let f := showMessage
    ("Thank you for your message! Your email client should open now. " ++
      "If it doesn't, please copy the email address and reach out directly.")
    "success" 8000 f
  { f with formData := f.defaultData }

/-- The callback of the timer of line 549: the button is restored. -/
def restoreButton (send : PendingSend) (f : ContactForm) : ContactForm :=
  { f with submitInnerHTML := send.originalText, submitDisabled := false }

/-- A form with an empty name that the browser marks invalid, the focus being
on the message field. -/
def emptyNameForm : ContactForm :=
  { formData := [("name", ""), ("email", "ada@mail.org"), ("subject", ""),
      ("message", "Hello, world!")]
    defaultData := [("name", ""), ("email", ""), ("subject", ""), ("message", "")]
    invalidFields := ["name"]
    focused := some "message"
    submitInnerHTML := "Send Message"
    submitDisabled := false
    locationHref := "https://example.org/"
    banners := []
    dismissTimers := []
    pendingSends := [] }

/-! # Theorems -/

/-! ## Class lists -/

theorem mem_classAdd (x c : String) (cl : List String) :
    x ∈ classAdd c cl ↔ x = c ∨ x ∈ cl := by
  unfold classAdd
  split
  · constructor
    · intro h; exact Or.inr h
    · rintro (h | h)
      · subst h; assumption
      · exact h
  · simp [or_comm]

theorem mem_classRemove (x c : String) (cl : List String) :
    x ∈ classRemove c cl ↔ x ∈ cl ∧ x ≠ c := by
  simp [classRemove]

theorem classRemove_classAdd (c : String) (cl : List String) :
    classRemove c (classAdd c cl) = classRemove c cl := by
  unfold classAdd
  split
  · rfl
  · simp [classRemove, List.filter_append]

theorem classRemove_idem (c : String) (cl : List String) :
    classRemove c (classRemove c cl) = classRemove c cl := by
  simp [classRemove, List.filter_filter]

theorem classAdd_of_mem {c : String} {cl : List String} (h : c ∈ cl) :
    classAdd c cl = cl := by
  simp [classAdd, h]

theorem classAdd_idem (c : String) (cl : List String) :
    classAdd c (classAdd c cl) = classAdd c cl :=
  classAdd_of_mem ((mem_classAdd c c cl).2 (Or.inl rfl))

/-! ## The scroll tracker -/

theorem updateLink_href (t : String) (link : NavLink) :
    (updateLink t link).href = link.href := by
  unfold updateLink
  dsimp only
  split <;> rfl

theorem updateLink_isActive (t : String) (link : NavLink) :
    (updateLink t link).isActive = true ↔ link.href = some t := by
  unfold updateLink NavLink.isActive classContains
  dsimp only
  split
  · rename_i h
    simp [mem_classAdd, h]
  · rename_i h
    simp [mem_classRemove, h]

theorem updateLink_absorb (t u : String) (link : NavLink) :
    updateLink u (updateLink t link) = updateLink u link := by
  have key : classRemove "active" (updateLink t link).classList
      = classRemove "active" link.classList := by
    unfold updateLink
    dsimp only
    split
    · simp [classRemove_classAdd, classRemove_idem]
    · simp [classRemove_idem]
  have hh := updateLink_href t link
  unfold updateLink at *
  dsimp only at *
  rw [key, hh]

theorem updateActiveNavLink_absorb (t u : String) (navLinks : List NavLink) :
    updateActiveNavLink u (updateActiveNavLink t navLinks)
      = updateActiveNavLink u navLinks := by
  simp [updateActiveNavLink, List.map_map, Function.comp_def, updateLink_absorb]

theorem foldl_highlight (p : Int) (sections : List Section) (navLinks : List NavLink) :
    sections.foldl
        (fun links section_ =>
          if sectionMatches p section_ then
            updateActiveNavLink (sectionHash section_) links
          else links)
        navLinks
      = match lastMatching p sections with
        | none => navLinks
        | some sec => updateActiveNavLink (sectionHash sec) navLinks := by
  induction sections generalizing navLinks with
  | nil => simp [lastMatching]
  | cons sec rest ih =>
    rw [List.foldl_cons, ih]
    unfold lastMatching
    by_cases hm : sectionMatches p sec = true
    · rw [List.filter_cons_of_pos hm, if_pos hm]
      cases hr : List.filter (sectionMatches p) rest with
      | nil => simp
      | cons a l =>
        rw [List.getLast?_cons_cons]
        cases hl : (a :: l).getLast? with
        | none => simp at hl
        | some s => simp [updateActiveNavLink_absorb]
    · rw [List.filter_cons_of_neg hm, if_neg hm]

/-- What `handleNavLinkHighlight` computes: nothing when no section matches,
and otherwise one `updateActiveNavLink` for the last matching section. -/
theorem handleNavLinkHighlight_eq (w : Window) (sections : List Section)
    (navLinks : List NavLink) :
    handleNavLinkHighlight w sections navLinks
      = match lastMatching (w.scrollY + 150) sections with
        | none => navLinks
        | some sec => updateActiveNavLink (sectionHash sec) navLinks := by
  unfold handleNavLinkHighlight
  exact foldl_highlight _ _ _

theorem lastMatching_eq_none {p : Int} {sections : List Section}
    (h : ∀ sec ∈ sections, sectionMatches p sec = false) :
    lastMatching p sections = none := by
  unfold lastMatching
  have : sections.filter (sectionMatches p) = [] := by
    rw [List.filter_eq_nil_iff]
    intro a ha
    simp [h a ha]
  rw [this]; rfl

theorem activeCount_update_le_one (t : String) (navLinks : List NavLink)
    (hnd : (navLinks.filterMap NavLink.href).Nodup) :
    activeCount (updateActiveNavLink t navLinks) ≤ 1 := by
  unfold activeCount updateActiveNavLink
  induction navLinks with
  | nil => simp
  | cons link rest ih =>
    rw [List.map_cons, List.filter_cons]
    cases hh : link.href with
    | none =>
      have hna : (updateLink t link).isActive = false := by
        rw [Bool.eq_false_iff]
        intro h; rw [updateLink_isActive, hh] at h; cases h
      rw [List.filterMap_cons, hh] at hnd
      simp only [hna]
      exact ih hnd
    | some u =>
      rw [List.filterMap_cons, hh] at hnd
      simp only at hnd
      rw [List.nodup_cons] at hnd
      by_cases hu : u = t
      · subst hu
        have hz : (rest.map (updateLink u)).filter NavLink.isActive = [] := by
          rw [List.filter_eq_nil_iff]
          intro a ha
          obtain ⟨b, hb, rfl⟩ := List.mem_map.1 ha
          rw [updateLink_isActive]
          intro hbu
          exact hnd.1 (List.mem_filterMap.2 ⟨b, hb, hbu⟩)
        rw [hz]
        split <;> simp
      · have hna : (updateLink t link).isActive = false := by
          rw [Bool.eq_false_iff]
          intro h; rw [updateLink_isActive, hh] at h
          exact hu (Option.some.inj h)
        simp only [hna]
        exact ih hnd.2

theorem lastMatching_mem {p : Int} {sections : List Section} {sec : Section}
    (h : lastMatching p sections = some sec) :
    sec ∈ sections ∧ sectionMatches p sec = true := by
  unfold lastMatching at h
  have hm := List.mem_of_getLast?_eq_some h
  exact List.mem_filter.1 hm

/-! ### Claims C1 and C10: which links are active after `handleNavLinkHighlight` -/

/-- C1 (as stated, refuted): three runs of `handleNavLinkHighlight` at scroll
offset `0`.  Two links that share the href of the matching section are both
active afterwards; with no matching section two links active beforehand are
both still active; and with two nested sections around `150` the link of the
first one is not active although its range contains `150`. -/
theorem handleNavLinkHighlight_not_at_most_one :
    activeCount (handleNavLinkHighlight ⟨0, 0, 1024⟩
        [⟨some "about", 0, 600, []⟩]
        [⟨some "#about", []⟩, ⟨some "#about", []⟩]) = 2 ∧
    activeCount (handleNavLinkHighlight ⟨0, 0, 1024⟩
        [⟨some "about", 400, 600, []⟩]
        [⟨some "#about", ["active"]⟩, ⟨some "#contact", ["active"]⟩]) = 2 ∧
    (sectionMatches (0 + 150) ⟨some "hero", 0, 1000, []⟩ = true ∧
      handleNavLinkHighlight ⟨0, 0, 1024⟩
        [⟨some "hero", 0, 1000, []⟩, ⟨some "about", 100, 500, []⟩]
        [⟨some "#hero", []⟩, ⟨some "#about", []⟩]
      = [⟨some "#hero", []⟩, ⟨some "#about", ["active"]⟩]) := by
  decide

/-- C1 (amended): when at least one section's range contains `scrollY + 150`,
then after `handleNavLinkHighlight` the links keep their hrefs, a link is
active exactly when its href is `'#' + id` of the last section in document
order whose range contains `scrollY + 150`, and, when no two links share an
href, the number of active links is 0 or 1. -/
theorem handleNavLinkHighlight_last_match (w : Window) (sections : List Section)
    (navLinks : List NavLink) (sec : Section)
    (hsec : lastMatching (w.scrollY + 150) sections = some sec) :
    (sec ∈ sections ∧ sectionMatches (w.scrollY + 150) sec = true) ∧
    (handleNavLinkHighlight w sections navLinks).map NavLink.href
        = navLinks.map NavLink.href ∧
    (∀ link ∈ handleNavLinkHighlight w sections navLinks,
        link.isActive = true ↔ link.href = some (sectionHash sec)) ∧
    ((navLinks.filterMap NavLink.href).Nodup →
        activeCount (handleNavLinkHighlight w sections navLinks) ≤ 1) := by
  rw [handleNavLinkHighlight_eq, hsec]
  refine ⟨lastMatching_mem hsec, ?_, ?_, ?_⟩
  · simp [updateActiveNavLink, List.map_map, Function.comp_def, updateLink_href]
  · intro link hl
    obtain ⟨b, _, rfl⟩ := List.mem_map.1 hl
    rw [updateLink_isActive, updateLink_href]
  · exact activeCount_update_le_one _ _

theorem handleNavLinkHighlight_last_match_witness :
    lastMatching ((⟨0, 0, 1024⟩ : Window).scrollY + 150)
        [⟨some "hero", 0, 1000, []⟩, ⟨some "about", 100, 500, []⟩]
      = some ⟨some "about", 100, 500, []⟩ ∧
    activeCount (handleNavLinkHighlight ⟨0, 0, 1024⟩
        [⟨some "hero", 0, 1000, []⟩, ⟨some "about", 100, 500, []⟩]
        [⟨some "#hero", ["active"]⟩, ⟨some "#about", []⟩]) ≤ 1 :=
  ⟨by decide,
   (handleNavLinkHighlight_last_match ⟨0, 0, 1024⟩
      [⟨some "hero", 0, 1000, []⟩, ⟨some "about", 100, 500, []⟩]
      [⟨some "#hero", ["active"]⟩, ⟨some "#about", []⟩]
      ⟨some "about", 100, 500, []⟩ (by decide)).2.2.2 (by decide)⟩

/-- C10 (as stated, refuted): at scroll offset `0` the position `150` lies
above the only section, and the link that was active before the run is
still active after it. -/
theorem handleNavLinkHighlight_no_match_keeps_active :
    (∀ sec ∈ [(⟨some "about", 400, 600, []⟩ : Section)],
        sectionMatches ((⟨0, 0, 1024⟩ : Window).scrollY + 150) sec = false) ∧
    ∃ link ∈ handleNavLinkHighlight ⟨0, 0, 1024⟩
        [⟨some "about", 400, 600, []⟩]
        [⟨some "#about", ["nav__link", "active"]⟩, ⟨some "#skills", ["nav__link"]⟩],
      link.isActive = true := by
  decide

/-- C10 (amended): when `scrollY + 150` lies in the range of no section,
`handleNavLinkHighlight` leaves every link as it was; so no link is active
afterwards provided none was active before. -/
theorem handleNavLinkHighlight_no_match (w : Window) (sections : List Section)
    (navLinks : List NavLink)
    (hno : ∀ sec ∈ sections, sectionMatches (w.scrollY + 150) sec = false) :
    handleNavLinkHighlight w sections navLinks = navLinks ∧
    ((∀ link ∈ navLinks, link.isActive = false) →
      ∀ link ∈ handleNavLinkHighlight w sections navLinks, link.isActive = false) := by
  have h : handleNavLinkHighlight w sections navLinks = navLinks := by
    rw [handleNavLinkHighlight_eq, lastMatching_eq_none hno]
  rw [h]
  exact ⟨rfl, fun hp => hp⟩

theorem handleNavLinkHighlight_no_match_witness :
    handleNavLinkHighlight ⟨0, 0, 1024⟩
        [⟨some "about", 400, 600, []⟩]
        [⟨some "#about", ["nav__link"]⟩]
      = [⟨some "#about", ["nav__link"]⟩] :=
  (handleNavLinkHighlight_no_match ⟨0, 0, 1024⟩
      [⟨some "about", 400, 600, []⟩]
      [⟨some "#about", ["nav__link"]⟩] (by decide)).1

/-! ### Claim C2: the header flag -/

/-- C2: after `handleHeaderScroll` the header carries `scrolled` exactly when
the offset read on line 184 is greater than 50; at offset 50 the class is
absent; a second run at the same offset changes nothing; and the offset read
is `window.pageYOffset` whenever the fallback operand agrees with it at 0. -/
theorem handleHeaderScroll_scrolled_iff (w : Window) (header : List String) :
    ("scrolled" ∈ handleHeaderScroll w header ↔ 50 < scrollTop w) ∧
    (scrollTop w = 50 → "scrolled" ∉ handleHeaderScroll w header) ∧
    handleHeaderScroll w (handleHeaderScroll w header) = handleHeaderScroll w header ∧
    ((w.scrollY = 0 → w.docScrollTop = 0) → scrollTop w = w.scrollY) := by
  have hiff : "scrolled" ∈ handleHeaderScroll w header ↔ 50 < scrollTop w := by
    unfold handleHeaderScroll
    split
    · rename_i h
      simp [mem_classAdd]
      exact h
    · rename_i h
      simp [mem_classRemove]
      exact not_lt.1 h
  refine ⟨hiff, ?_, ?_, ?_⟩
  · intro h50 hmem
    have := hiff.1 hmem
    omega
  · unfold handleHeaderScroll
    split
    · exact classAdd_idem _ _
    · exact classRemove_idem _ _
  · intro h0
    unfold scrollTop
    split
    · rfl
    · rename_i hne
      have hz : w.scrollY = 0 := not_not.1 hne
      rw [h0 hz, hz]

theorem handleHeaderScroll_scrolled_iff_witness :
    "scrolled" ∉ handleHeaderScroll ⟨50, 50, 1024⟩ ["header", "scrolled"] ∧
    "scrolled" ∈ handleHeaderScroll ⟨51, 51, 1024⟩ ["header"] ∧
    scrollTop ⟨51, 51, 1024⟩ = 51 :=
  ⟨(handleHeaderScroll_scrolled_iff ⟨50, 50, 1024⟩ ["header", "scrolled"]).2.1 (by decide),
   (handleHeaderScroll_scrolled_iff ⟨51, 51, 1024⟩ ["header"]).1.2 (by decide),
   (handleHeaderScroll_scrolled_iff ⟨51, 51, 1024⟩ ["header"]).2.2.2 (by decide)⟩

/-! ## Regular expressions: the derivative matcher decides the language -/

theorem Rx.nullable_iff (r : Rx) : r.nullable = true ↔ [] ∈ r.lang := by
  induction r with
  | empty => simp [Rx.nullable, Rx.lang, Language.not_mem_zero]
  | eps => simp [Rx.nullable, Rx.lang, Language.mem_one]
  | cls p =>
    simp only [Rx.nullable, Rx.lang]
    constructor
    · intro h; cases h
    · rintro ⟨c, _, h⟩; cases h
  | cat a b iha ihb =>
    simp only [Rx.nullable, Rx.lang, Bool.and_eq_true, iha, ihb, Language.mem_mul]
    constructor
    · rintro ⟨ha, hb⟩
      exact ⟨[], ha, [], hb, rfl⟩
    · rintro ⟨x, hx, y, hy, hxy⟩
      obtain ⟨rfl, rfl⟩ := List.append_eq_nil.1 hxy
      exact ⟨hx, hy⟩
  | alt a b iha ihb =>
    simp only [Rx.nullable, Rx.lang, Bool.or_eq_true, iha, ihb, Language.mem_add]
  | star a _ =>
    simp only [Rx.nullable, Rx.lang]
    exact ⟨fun _ => Language.nil_mem_kstar _, fun _ => trivial⟩

theorem Rx.cons_mem_kstar (l : Language Char) (c : Char) (s : List Char) :
    c :: s ∈ KStar.kstar l ↔
      ∃ t u, c :: t ∈ l ∧ u ∈ KStar.kstar l ∧ s = t ++ u := by
  constructor
  · intro h
    obtain ⟨S, hS, hne⟩ := Language.mem_kstar_iff_exists_nonempty.1 h
    cases S with
    | nil => simp at hS
    | cons y S' =>
      have hy := hne y (List.mem_cons_self _ _)
      cases y with
      | nil => exact absurd rfl hy.2
      | cons d t =>
        simp only [List.flatten_cons, List.cons_append, List.cons.injEq] at hS
        obtain ⟨rfl, rfl⟩ := hS
        refine ⟨t, S'.flatten, hy.1, ?_, rfl⟩
        exact Language.join_mem_kstar
          (fun z hz => (hne z (List.mem_cons_of_mem _ hz)).1)
  · rintro ⟨t, u, ht, hu, rfl⟩
    obtain ⟨S, rfl, hS⟩ := Language.mem_kstar.1 hu
    have : c :: (t ++ S.flatten) = ((c :: t) :: S).flatten := by simp
    rw [this]
    apply Language.join_mem_kstar
    intro y hy
    rcases List.mem_cons.1 hy with rfl | hy
    · exact ht
    · exact hS y hy

theorem Rx.deriv_iff (r : Rx) (c : Char) (s : List Char) :
    s ∈ (r.deriv c).lang ↔ c :: s ∈ r.lang := by
  induction r generalizing s with
  | empty => simp [Rx.deriv, Rx.lang, Language.not_mem_zero]
  | eps => simp [Rx.deriv, Rx.lang, Language.not_mem_zero, Language.mem_one]
  | cls p =>
    simp only [Rx.deriv]
    by_cases hp : p c = true
    · rw [if_pos hp]
      simp only [Rx.lang, Language.mem_one]
      constructor
      · rintro rfl; exact ⟨c, hp, rfl⟩
      · rintro ⟨d, _, h⟩
        simp only [List.cons.injEq] at h
        exact h.2
    · rw [if_neg hp]
      simp only [Rx.lang]
      constructor
      · intro h; exact absurd h (Language.not_mem_zero _)
      · rintro ⟨d, hd, h⟩
        simp only [List.cons.injEq] at h
        rw [h.1] at hp
        exact absurd hd hp
  | cat a b iha ihb =>
    have hcat : ∀ s, s ∈ (Rx.cat (a.deriv c) b).lang ↔
        ∃ x y, c :: x ∈ a.lang ∧ y ∈ b.lang ∧ x ++ y = s := by
      intro s
      simp only [Rx.lang, Language.mem_mul]
      constructor
      · rintro ⟨x, hx, y, hy, h⟩; exact ⟨x, y, (iha x).1 hx, hy, h⟩
      · rintro ⟨x, y, hx, hy, h⟩; exact ⟨x, (iha x).2 hx, y, hy, h⟩
    have hmul : c :: s ∈ (Rx.cat a b).lang ↔
        ([] ∈ a.lang ∧ c :: s ∈ b.lang) ∨
          ∃ x y, c :: x ∈ a.lang ∧ y ∈ b.lang ∧ x ++ y = s := by
      simp only [Rx.lang, Language.mem_mul]
      constructor
      · rintro ⟨x, hx, y, hy, h⟩
        cases x with
        | nil =>
          simp only [List.nil_append] at h
          subst h
          exact Or.inl ⟨hx, hy⟩
        | cons d x' =>
          simp only [List.cons_append, List.cons.injEq] at h
          obtain ⟨rfl, rfl⟩ := h
          exact Or.inr ⟨x', y, hx, hy, rfl⟩
      · rintro (⟨ha, hb⟩ | ⟨x, y, hx, hy, rfl⟩)
        · exact ⟨[], ha, c :: s, hb, rfl⟩
        · exact ⟨c :: x, hx, y, hy, rfl⟩
    rw [hmul]
    simp only [Rx.deriv]
    by_cases hn : a.nullable = true
    · rw [if_pos hn]
      have hnil := (Rx.nullable_iff a).1 hn
      have halt : s ∈ (Rx.alt (Rx.cat (a.deriv c) b) (b.deriv c)).lang ↔
          s ∈ (Rx.cat (a.deriv c) b).lang ∨ s ∈ (b.deriv c).lang := by
        simp only [Rx.lang, Language.mem_add]
      rw [halt, hcat, ihb]
      constructor
      · rintro (h | h)
        · exact Or.inr h
        · exact Or.inl ⟨hnil, h⟩
      · rintro (h | h)
        · exact Or.inr h.2
        · exact Or.inl h
    · rw [if_neg hn, hcat]
      have hnil : [] ∉ a.lang := fun h => hn ((Rx.nullable_iff a).2 h)
      constructor
      · intro h; exact Or.inr h
      · rintro (h | h)
        · exact absurd h.1 hnil
        · exact h
  | alt a b iha ihb =>
    simp only [Rx.deriv, Rx.lang, Language.mem_add, iha, ihb]
  | star a iha =>
    simp only [Rx.deriv, Rx.lang]
    rw [Rx.cons_mem_kstar, Language.mem_mul]
    constructor
    · rintro ⟨x, hx, y, hy, h⟩
      exact ⟨x, y, (iha x).1 hx, hy, h.symm⟩
    · rintro ⟨t, u, ht, hu, h⟩
      exact ⟨t, (iha t).2 ht, u, hu, h.symm⟩

theorem Rx.test_iff (r : Rx) (cs : List Char) :
    r.test cs = true ↔ cs ∈ r.lang := by
  unfold Rx.test
  induction cs generalizing r with
  | nil => simpa using Rx.nullable_iff r
  | cons c cs ih =>
    rw [List.foldl_cons, ih, Rx.deriv_iff]

theorem Rx.mem_cls_kstar (p : Char → Bool) (x : List Char) :
    x ∈ KStar.kstar (Rx.cls p).lang ↔ ∀ c ∈ x, p c = true := by
  constructor
  · intro h
    obtain ⟨L, rfl, hL⟩ := Language.mem_kstar.1 h
    intro c hc
    obtain ⟨y, hy, hcy⟩ := List.mem_flatten.1 hc
    obtain ⟨d, hd, rfl⟩ := hL y hy
    rw [List.mem_singleton] at hcy
    rw [hcy]; exact hd
  · intro h
    induction x with
    | nil => exact Language.nil_mem_kstar _
    | cons c x ih =>
      rw [Rx.cons_mem_kstar]
      refine ⟨[], x, ⟨c, h c (List.mem_cons_self _ _), rfl⟩, ?_, rfl⟩
      exact ih (fun d hd => h d (List.mem_cons_of_mem _ hd))

theorem Rx.mem_plus_cls (p : Char → Bool) (x : List Char) :
    x ∈ (Rx.plus (Rx.cls p)).lang ↔ x ≠ [] ∧ ∀ c ∈ x, p c = true := by
  unfold Rx.plus
  simp only [Rx.lang, Language.mem_mul]
  constructor
  · rintro ⟨a, ⟨c, hc, rfl⟩, b, hb, rfl⟩
    refine ⟨by simp, ?_⟩
    intro d hd
    rcases List.mem_cons.1 hd with rfl | hd
    · exact hc
    · exact (Rx.mem_cls_kstar p b).1 hb d hd
  · rintro ⟨hne, h⟩
    cases x with
    | nil => exact absurd rfl hne
    | cons c x =>
      exact ⟨[c], ⟨c, h c (List.mem_cons_self _ _), rfl⟩, x,
        (Rx.mem_cls_kstar p x).2 (fun d hd => h d (List.mem_cons_of_mem _ hd)), rfl⟩

theorem Rx.mem_cls_char (a : Char) (x : List Char) :
    x ∈ (Rx.cls (fun c => c == a)).lang ↔ x = [a] := by
  simp only [Rx.lang]
  constructor
  · rintro ⟨c, hc, rfl⟩
    rw [beq_iff_eq] at hc
    rw [hc]
  · rintro rfl
    exact ⟨a, by simp, rfl⟩

theorem notSpaceOrAt_iff (c : Char) :
    notSpaceOrAt c = true ↔ isJSWhiteSpace c = false ∧ c ≠ '@' := by
  simp [notSpaceOrAt]

/-- The pattern of line 433 accepts exactly the addresses of the form
`local@domain.tld` with non-empty parts free of whitespace and `@`. -/
theorem emailRegex_test_iff (cs : List Char) :
    emailRegex.test cs = true ↔ ValidEmail cs := by
  rw [Rx.test_iff]
  unfold emailRegex ValidEmail
  simp only [Rx.lang, Language.mem_mul]
  constructor
  · rintro ⟨loc, hloc, r1, ⟨at_, hat, r2, ⟨dom, hdom, r3, ⟨dot, hdot, tld, htld, rfl⟩, rfl⟩,
      rfl⟩, rfl⟩
    have hloc' := (Rx.mem_plus_cls _ _).1 hloc
    have hdom' := (Rx.mem_plus_cls _ _).1 hdom
    have htld' := (Rx.mem_plus_cls _ _).1 htld
    have hat' := (Rx.mem_cls_char _ _).1 hat
    have hdot' := (Rx.mem_cls_char _ _).1 hdot
    subst hat' hdot'
    refine ⟨loc, dom, tld, hloc'.1, hdom'.1, htld'.1, ?_, by simp⟩
    intro c hc
    rw [← notSpaceOrAt_iff]
    rcases List.mem_append.1 hc with hc | hc
    · rcases List.mem_append.1 hc with hc | hc
      · exact hloc'.2 c hc
      · exact hdom'.2 c hc
    · exact htld'.2 c hc
  · rintro ⟨loc, dom, tld, hl, hd, ht, hall, rfl⟩
    have hp : ∀ c ∈ loc ++ dom ++ tld, notSpaceOrAt c = true :=
      fun c hc => (notSpaceOrAt_iff c).2 (hall c hc)
    refine ⟨loc, (Rx.mem_plus_cls _ _).2 ⟨hl, fun c hc => hp c (by simp [hc])⟩,
      '@' :: (dom ++ '.' :: tld), ?_, by simp⟩
    refine ⟨['@'], (Rx.mem_cls_char _ _).2 rfl, dom ++ '.' :: tld, ?_, rfl⟩
    refine ⟨dom, (Rx.mem_plus_cls _ _).2 ⟨hd, fun c hc => hp c (by simp [hc])⟩,
      '.' :: tld, ?_, rfl⟩
    exact ⟨['.'], (Rx.mem_cls_char _ _).2 rfl, tld,
      (Rx.mem_plus_cls _ _).2 ⟨ht, fun c hc => hp c (by simp [hc])⟩, rfl⟩

theorem jsLength_empty : jsLength "" = 0 := by decide

theorem validateForm_eq (formData : FormData) :
    validateForm formData
      = nameErrors ((formData.get "name").map jsTrim)
        ++ emailErrors ((formData.get "email").map jsTrim)
        ++ messageErrors ((formData.get "message").map jsTrim) := by
  unfold validateForm nameErrors emailErrors messageErrors
  generalize (formData.get "name").map jsTrim = name
  generalize (formData.get "email").map jsTrim = email
  generalize (formData.get "message").map jsTrim = message
  cases name <;> cases email <;> cases message <;>
    simp only [List.nil_append] <;> (repeat' split) <;> simp

theorem nameErrors_eq_nil (name : Option String) :
    nameErrors name = [] ↔ ∃ n, name = some n ∧ n ≠ "" := by
  cases name with
  | none => simp [nameErrors, isFalsy]
  | some n =>
    by_cases hn : n = "" <;> simp [nameErrors, isFalsy, hn]

theorem validEmail_ne_empty (e : String) (h : ValidEmail e.data) : e ≠ "" := by
  obtain ⟨loc, dom, tld, hl, _, _, _, h⟩ := h
  rintro rfl
  cases loc with
  | nil => exact hl rfl
  | cons c l => cases h

theorem emailErrors_eq_nil (email : Option String) :
    emailErrors email = [] ↔ ∃ e, email = some e ∧ ValidEmail e.data := by
  cases email with
  | none => simp [emailErrors]
  | some e =>
    by_cases he : e = ""
    · have : ¬ ValidEmail e.data := fun hv => validEmail_ne_empty e hv he
      simp [emailErrors, he]
      rw [he] at this
      exact this
    · by_cases ht : emailRegex.test e.data = true
      · simp [emailErrors, he, ht, (emailRegex_test_iff e.data).1 ht]
      · have hv : ¬ ValidEmail e.data := fun hv => ht ((emailRegex_test_iff e.data).2 hv)
        simp [emailErrors, he, ht, hv]

theorem messageErrors_eq_nil (message : Option String) :
    messageErrors message = [] ↔ ∃ m, message = some m ∧ 10 ≤ jsLength m := by
  cases message with
  | none => simp [messageErrors]
  | some m =>
    by_cases hm : m = ""
    · subst hm
      simp [messageErrors, jsLength_empty]
    · by_cases hl : jsLength m < 10
      · simp [messageErrors, hm, hl]
      · simp [messageErrors, hm, hl, not_lt.1 hl]

/-- No error is reported exactly when the three trimmed fields are valid. -/
theorem validateForm_eq_nil_iff (formData : FormData) :
    validateForm formData = [] ↔
      (∃ n, (formData.get "name").map jsTrim = some n ∧ n ≠ "") ∧
      (∃ e, (formData.get "email").map jsTrim = some e ∧ ValidEmail e.data) ∧
      (∃ m, (formData.get "message").map jsTrim = some m ∧ 10 ≤ jsLength m) := by
  rw [validateForm_eq, List.append_eq_nil, List.append_eq_nil, nameErrors_eq_nil,
    emailErrors_eq_nil, messageErrors_eq_nil, and_assoc]

/-! ### Claim C3: the error list of `validateForm` -/

/-- C3: `validateForm` returns the errors of the name, then of the email, then
of the message: `Name is required` when the trimmed name is missing or empty;
`Email is required` when the trimmed email is missing or empty and otherwise
`Please enter a valid email address` exactly when it is not of the form
`local@domain.tld`; `Message is required` when the trimmed message is missing
or empty and otherwise the length error exactly when its length is below 10.
The list is empty exactly when all three fields are valid, and `a@b` is not a
valid address. -/
theorem validateForm_errors (formData : FormData) :
    (∃ nameErrs emailErrs messageErrs : List String,
      validateForm formData = nameErrs ++ emailErrs ++ messageErrs ∧
      (nameErrs =
        if isFalsy ((formData.get "name").map jsTrim) then ["Name is required"] else []) ∧
      (isFalsy ((formData.get "email").map jsTrim) = true →
        emailErrs = ["Email is required"]) ∧
      (∀ e, (formData.get "email").map jsTrim = some e → e ≠ "" →
        (ValidEmail e.data → emailErrs = []) ∧
        (¬ ValidEmail e.data → emailErrs = ["Please enter a valid email address"])) ∧
      (isFalsy ((formData.get "message").map jsTrim) = true →
        messageErrs = ["Message is required"]) ∧
      (∀ m, (formData.get "message").map jsTrim = some m → m ≠ "" →
        (10 ≤ jsLength m → messageErrs = []) ∧
        (jsLength m < 10 →
          messageErrs = ["Message must be at least 10 characters long"]))) ∧
    (validateForm formData = [] ↔
      (∃ n, (formData.get "name").map jsTrim = some n ∧ n ≠ "") ∧
      (∃ e, (formData.get "email").map jsTrim = some e ∧ ValidEmail e.data) ∧
      (∃ m, (formData.get "message").map jsTrim = some m ∧ 10 ≤ jsLength m)) ∧
    ¬ ValidEmail "a@b".data := by
  have hab : ¬ ValidEmail "a@b".data := by
    rw [← emailRegex_test_iff]
    decide
  refine ⟨?_, ?_, hab⟩
  · refine ⟨_, _, _, validateForm_eq formData, rfl, ?_, ?_, ?_, ?_⟩
    · generalize (formData.get "email").map jsTrim = email
      intro h
      cases email with
      | none => rfl
      | some e =>
        have : e = "" := by simpa [isFalsy] using h
        simp [emailErrors, this]
    · intro e he hne
      rw [he]
      constructor
      · intro hv
        exact (emailErrors_eq_nil _).2 ⟨e, rfl, hv⟩
      · intro hv
        have : emailRegex.test e.data = false := by
          rw [Bool.eq_false_iff]
          exact fun h => hv ((emailRegex_test_iff e.data).1 h)
        simp [emailErrors, hne, this]
    · generalize (formData.get "message").map jsTrim = message
      intro h
      cases message with
      | none => rfl
      | some m =>
        have : m = "" := by simpa [isFalsy] using h
        simp [messageErrors, this]
    · intro m hm hne
      rw [hm]
      constructor
      · intro h10
        exact (messageErrors_eq_nil _).2 ⟨m, rfl, h10⟩
      · intro h10
        simp [messageErrors, hne, h10]
  · exact validateForm_eq_nil_iff formData

theorem validateForm_errors_witness :
    validateForm [("name", " Ada "), ("email", "ada@mail.org"), ("message", "0123456789")]
      = [] :=
  (validateForm_errors
      [("name", " Ada "), ("email", "ada@mail.org"), ("message", "0123456789")]).2.1.2
    ⟨⟨"Ada", by decide, by decide⟩,
     ⟨"ada@mail.org", by decide,
       ⟨"ada".data, "mail".data, "org".data, by decide, by decide, by decide,
         by decide, by decide⟩⟩,
     ⟨"0123456789", by decide, by decide⟩⟩

/-! ## The mailto link -/

theorem encodeURIComponent_append (a b : String) :
    encodeURIComponent (a ++ b) = encodeURIComponent a ++ encodeURIComponent b := by
  apply String.ext
  simp [encodeURIComponent, List.flatMap_append]

theorem get_of_trim_eq_some {formData : FormData} {field t : String}
    (h : (formData.get field).map jsTrim = some t) :
    ∃ v, formData.get field = some v := by
  cases hg : formData.get field with
  | none => rw [hg] at h; cases h
  | some v => exact ⟨v, rfl⟩

theorem get_cons_subject (formData : FormData) (v : String) :
    FormData.get (("subject", v) :: formData) "subject" = some v ∧
    FormData.get (("subject", v) :: formData) "name" = formData.get "name" ∧
    FormData.get (("subject", v) :: formData) "email" = formData.get "email" ∧
    FormData.get (("subject", v) :: formData) "message" = formData.get "message" := by
  refine ⟨?_, ?_, ?_, ?_⟩ <;> simp [FormData.get, List.find?_cons]

theorem contains_head (x t : String) : Contains (x ++ t) x :=
  ⟨"", t, by simp⟩

theorem contains_right {s t x : String} (h : Contains t x) : Contains (s ++ t) x := by
  obtain ⟨a, b, rfl⟩ := h
  exact ⟨s ++ a, b, by simp only [String.append_assoc]⟩

theorem startsWith_append_left {a s p : String} (h : StartsWith s p) :
    StartsWith (a ++ s) (a ++ p) := by
  obtain ⟨r, rfl⟩ := h
  exact ⟨r, by simp only [String.append_assoc]⟩

/-! ### Claim C4: what the mailto link contains -/

/-- C4: for a form that passes `validateForm` the three fields are present,
and the link of `createMailtoLink` starts with
`mailto:akshaymuthushankar@gmail.com?subject=` and contains the
`encodeURIComponent` encoding of the submitted name, email and message; when
the subject field is missing or empty the link is the one of the same form
with subject `Portfolio Contact Form Submission`, whose encoding (followed by
the encoded ` - From ` and name) comes right after `?subject=`. -/
theorem createMailtoLink_contains (formData : FormData) (now : String)
    (hvalid : validateForm formData = []) :
    ∃ name email message : String,
      formData.get "name" = some name ∧ formData.get "email" = some email ∧
      formData.get "message" = some message ∧
      StartsWith (createMailtoLink formData now)
        "mailto:akshaymuthushankar@gmail.com?subject=" ∧
      Contains (createMailtoLink formData now) (encodeURIComponent name) ∧
      Contains (createMailtoLink formData now) (encodeURIComponent email) ∧
      Contains (createMailtoLink formData now) (encodeURIComponent message) ∧
      (isFalsy (formData.get "subject") = true →
        createMailtoLink formData now
          = createMailtoLink (("subject", "Portfolio Contact Form Submission") :: formData)
              now ∧
        StartsWith (createMailtoLink formData now)
          ("mailto:akshaymuthushankar@gmail.com?subject=" ++
            encodeURIComponent "Portfolio Contact Form Submission" ++
            encodeURIComponent " - From " ++ encodeURIComponent name ++ "&body=")) := by
  obtain ⟨⟨n, hn, _⟩, ⟨e, he, _⟩, ⟨m, hm, _⟩⟩ := (validateForm_eq_nil_iff formData).1 hvalid
  obtain ⟨name, hname⟩ := get_of_trim_eq_some hn
  obtain ⟨email, hemail⟩ := get_of_trim_eq_some he
  obtain ⟨message, hmessage⟩ := get_of_trim_eq_some hm
  refine ⟨name, email, message, hname, hemail, hmessage, ?_, ?_, ?_, ?_, ?_⟩
  · unfold createMailtoLink
    simp only [String.append_assoc]
    exact ⟨_, rfl⟩
  · unfold createMailtoLink
    simp only [hname, hemail, hmessage, interpolate, Option.getD_some,
      encodeURIComponent_append, String.append_assoc]
    repeat (first | exact contains_head _ _ | apply contains_right)
  · unfold createMailtoLink
    simp only [hname, hemail, hmessage, interpolate, Option.getD_some,
      encodeURIComponent_append, String.append_assoc]
    repeat (first | exact contains_head _ _ | apply contains_right)
  · unfold createMailtoLink
    simp only [hname, hemail, hmessage, interpolate, Option.getD_some,
      encodeURIComponent_append, String.append_assoc]
    repeat (first | exact contains_head _ _ | apply contains_right)
  · intro hs
    obtain ⟨g1, g2, g3, g4⟩ := get_cons_subject formData "Portfolio Contact Form Submission"
    have hd : subjectOrDefault (formData.get "subject")
        = "Portfolio Contact Form Submission" := by
      simp [subjectOrDefault, hs]
    have hd2 : subjectOrDefault (some "Portfolio Contact Form Submission")
        = "Portfolio Contact Form Submission" := by decide
    constructor
    · unfold createMailtoLink
      simp only [g1, g2, g3, g4, hd, hd2]
    · unfold createMailtoLink
      simp only [hd, hname, interpolate, Option.getD_some, encodeURIComponent_append,
        String.append_assoc]
      iterate 4 apply startsWith_append_left
      exact ⟨_, rfl⟩

theorem createMailtoLink_contains_witness :
    validateForm [("name", "Ada"), ("email", "ada@mail.org"), ("message", "Hello, world!")]
      = [] ∧
    StartsWith
      (createMailtoLink
        [("name", "Ada"), ("email", "ada@mail.org"), ("message", "Hello, world!")]
        "1/2/2026, 10:00:00 AM")
      "mailto:akshaymuthushankar@gmail.com?subject=" :=
  ⟨by decide,
   Exists.elim
     (createMailtoLink_contains
       [("name", "Ada"), ("email", "ada@mail.org"), ("message", "Hello, world!")]
       "1/2/2026, 10:00:00 AM" (by decide))
     (fun _ h => Exists.elim h (fun _ h => Exists.elim h (fun _ h => h.2.2.2.1)))⟩

/-! ## Rounding to binary64 -/

theorem roundHalfEven_abs_sub_le (y : ℚ) : |(roundHalfEven y : ℚ) - y| ≤ 1 / 2 := by
  have h1 := Int.floor_le y
  have h2 := Int.lt_floor_add_one y
  unfold roundHalfEven
  split
  · rw [abs_le]; constructor <;> linarith
  · rename_i hlt
    split
    · push_cast; rw [abs_le]; constructor <;> linarith
    · rename_i hgt
      have hr : y - ⌊y⌋ = 1 / 2 := le_antisymm (not_lt.1 hgt) (not_lt.1 hlt)
      split
      · rw [abs_le]; constructor <;> linarith
      · push_cast; rw [abs_le]; constructor <;> linarith

theorem roundHalfEven_eq_of_lt (y : ℚ) (m : ℤ) (h1 : (m : ℚ) - 1 / 2 < y)
    (h2 : y < (m : ℚ) + 1 / 2) : roundHalfEven y = m := by
  unfold roundHalfEven
  by_cases hy : (m : ℚ) ≤ y
  · have hf : ⌊y⌋ = m := by
      rw [Int.floor_eq_iff]
      constructor
      · exact hy
      · linarith
    rw [hf]
    have : y - (m : ℚ) < 1 / 2 := by linarith
    rw [if_pos this]
  · have hf : ⌊y⌋ = m - 1 := by
      rw [Int.floor_eq_iff]
      push_cast
      constructor
      · linarith
      · linarith [not_le.1 hy]
    rw [hf]
    push_cast
    have h3 : ¬ (y - ((m : ℚ) - 1) < 1 / 2) := by
      intro h; linarith
    have h4 : 1 / 2 < y - ((m : ℚ) - 1) := by linarith
    rw [if_neg h3, if_pos h4]
    ring

theorem roundHalfEven_zero : roundHalfEven 0 = 0 :=
  roundHalfEven_eq_of_lt 0 0 (by norm_num) (by norm_num)

theorem log_two_eq (x : ℚ) (n : ℤ) (h1 : (2 : ℚ) ^ n ≤ x) (h2 : x < (2 : ℚ) ^ (n + 1)) :
    Int.log 2 x = n := by
  have hpos : 0 < x := lt_of_lt_of_le (zpow_pos (by norm_num) n) h1
  have hle : n ≤ Int.log 2 x := by
    rw [← Int.zpow_le_iff_le_log (by norm_num) hpos]
    exact_mod_cast h1
  have hlt : Int.log 2 x < n + 1 := by
    rw [← Int.lt_zpow_iff_log_lt (by norm_num) hpos]
    exact_mod_cast h2
  omega

theorem ulpExponent_eq (x : ℚ) (e : ℤ) (he : -1074 ≤ e) (h1 : (2 : ℚ) ^ (e + 52) ≤ |x|)
    (h2 : |x| < (2 : ℚ) ^ (e + 53)) : ulpExponent x = e := by
  unfold ulpExponent
  have h2' : |x| < (2 : ℚ) ^ (e + 52 + 1) := by
    have : e + 52 + 1 = e + 53 := by ring
    rw [this]; exact h2
  rw [log_two_eq |x| (e + 52) h1 h2']
  have : e + 52 - 52 = e := by ring
  rw [this]
  exact max_eq_left he

/-- In the normal range the rounding error is at most `2 ^ -53` of the value. -/
theorem roundToDouble_abs_sub_le (x : ℚ) (hx : (2 : ℚ) ^ (-1022 : ℤ) ≤ |x|) :
    |roundToDouble x - x| ≤ |x| / 2 ^ 53 := by
  have hpos : 0 < |x| := lt_of_lt_of_le (zpow_pos (by norm_num) _) hx
  have hL : (-1022 : ℤ) ≤ Int.log 2 |x| := by
    rw [← Int.zpow_le_iff_le_log (by norm_num) hpos]
    exact_mod_cast hx
  have he : ulpExponent x = Int.log 2 |x| - 52 := by
    unfold ulpExponent
    apply max_eq_left
    omega
  have hpow : (2 : ℚ) ^ (Int.log 2 |x|) ≤ |x| := by
    have := Int.zpow_log_le_self (b := 2) (r := |x|) (by norm_num) hpos
    exact_mod_cast this
  have h2e : (2 : ℚ) ^ ulpExponent x = (2 : ℚ) ^ (Int.log 2 |x|) / 2 ^ 52 := by
    rw [he, zpow_sub₀ (by norm_num : (2 : ℚ) ≠ 0)]
    norm_num
  have hepos : (0 : ℚ) < 2 ^ ulpExponent x := zpow_pos (by norm_num) _
  have hsplit : roundToDouble x - x
      = ((roundHalfEven (x / 2 ^ ulpExponent x) : ℚ) - x / 2 ^ ulpExponent x)
        * 2 ^ ulpExponent x := by
    unfold roundToDouble
    field_simp
  rw [hsplit, abs_mul, abs_of_pos hepos]
  have hrh := roundHalfEven_abs_sub_le (x / 2 ^ ulpExponent x)
  calc |(roundHalfEven (x / 2 ^ ulpExponent x) : ℚ) - x / 2 ^ ulpExponent x|
        * 2 ^ ulpExponent x
      ≤ 1 / 2 * 2 ^ ulpExponent x := mul_le_mul_of_nonneg_right hrh hepos.le
    _ = (2 : ℚ) ^ (Int.log 2 |x|) / 2 ^ 53 := by rw [h2e]; ring
    _ ≤ |x| / 2 ^ 53 := div_le_div_of_nonneg_right hpow (by positivity)

theorem toDouble_zero : toDouble 0 = JSNum.fin 0 := by
  have hr : roundToDouble 0 = 0 := by
    unfold roundToDouble
    rw [zero_div, roundHalfEven_zero]
    simp
  unfold toDouble
  rw [hr]
  norm_num

/-- A positive value of the normal range rounds to `+Infinity` or to a
finite value within `2 ^ -53` of it, relatively. -/
theorem toDouble_pos_cases (x : ℚ) (hx : (2 : ℚ) ^ (-1022 : ℤ) ≤ x) :
    (toDouble x = JSNum.posInf ∧ 2 ^ 1024 ≤ x * (1 + 1 / 2 ^ 53)) ∨
    ∃ q, toDouble x = JSNum.fin q ∧ q < 2 ^ 1024 ∧
      x * (1 - 1 / 2 ^ 53) ≤ q ∧ q ≤ x * (1 + 1 / 2 ^ 53) := by
  have hpos : 0 < x := lt_of_lt_of_le (zpow_pos (by norm_num) _) hx
  have habs : |x| = x := abs_of_pos hpos
  have herr := roundToDouble_abs_sub_le x (by rw [habs]; exact hx)
  rw [habs, abs_le] at herr
  obtain ⟨hlo, hhi⟩ := herr
  have hlo' : x * (1 - 1 / 2 ^ 53) ≤ roundToDouble x := by linarith
  have hhi' : roundToDouble x ≤ x * (1 + 1 / 2 ^ 53) := by linarith
  unfold toDouble
  by_cases hov : (2 : ℚ) ^ 1024 ≤ roundToDouble x
  · left
    rw [if_pos hov]
    exact ⟨rfl, le_trans hov hhi'⟩
  · right
    have hneg : ¬ (roundToDouble x ≤ -(2 : ℚ) ^ 1024) := by
      intro h
      have h0 : 0 ≤ x * (1 - 1 / 2 ^ 53) := mul_nonneg hpos.le (by norm_num)
      have : (0 : ℚ) < 2 ^ 1024 := by positivity
      linarith
    rw [if_neg hov, if_neg hneg]
    exact ⟨_, rfl, not_le.1 hov, hlo', hhi'⟩

/-- A negative value of the normal range, away from overflow, rounds to a
finite value within `2 ^ -53` of it, relatively. -/
theorem toDouble_neg_fin (x : ℚ) (hx : x ≤ -(2 : ℚ) ^ (-1022 : ℤ))
    (hov : -(2 : ℚ) ^ 1024 < x * (1 + 1 / 2 ^ 53)) :
    ∃ q, toDouble x = JSNum.fin q ∧
      x * (1 + 1 / 2 ^ 53) ≤ q ∧ q ≤ x * (1 - 1 / 2 ^ 53) := by
  have hp : (0 : ℚ) < 2 ^ (-1022 : ℤ) := zpow_pos (by norm_num) _
  have hneg : x < 0 := by linarith
  have habs : |x| = -x := abs_of_neg hneg
  have herr := roundToDouble_abs_sub_le x (by rw [habs]; linarith)
  rw [habs, abs_le] at herr
  obtain ⟨hlo, hhi⟩ := herr
  have hlo' : x * (1 + 1 / 2 ^ 53) ≤ roundToDouble x := by linarith
  have hhi' : roundToDouble x ≤ x * (1 - 1 / 2 ^ 53) := by linarith
  have hq0 : roundToDouble x ≤ 0 := by
    have : x * (1 - 1 / 2 ^ 53) ≤ 0 :=
      mul_nonpos_of_nonpos_of_nonneg hneg.le (by norm_num)
    linarith
  unfold toDouble
  have h1 : ¬ ((2 : ℚ) ^ 1024 ≤ roundToDouble x) := by
    intro h
    have : (0 : ℚ) < 2 ^ 1024 := by positivity
    linarith
  have h2 : ¬ (roundToDouble x ≤ -(2 : ℚ) ^ 1024) := by
    intro h; linarith
  rw [if_neg h1, if_neg h2]
  exact ⟨_, rfl, hlo', hhi'⟩

/-! ## The counter -/

theorem afterTicks_succ (target : JSNum) (k : Nat) :
    afterTicks target (k + 1) = tick target (afterTicks target k) := by
  unfold afterTicks
  exact Function.iterate_succ_apply' _ _ _

theorem tick_of_inactive (target : JSNum) (st : CounterState)
    (h : st.timerActive = false) : tick target st = st := by
  simp [tick, h]

theorem afterTicks_stable (target : JSNum) (k : Nat)
    (h : (afterTicks target k).timerActive = false) (j : Nat) (hj : k ≤ j) :
    afterTicks target j = afterTicks target k := by
  induction j with
  | zero =>
    have : k = 0 := by omega
    rw [this]
  | succ j ih =>
    rcases Nat.eq_or_lt_of_le hj with heq | hlt
    · rw [heq]
    · have hkj : k ≤ j := by omega
      rw [afterTicks_succ, ih hkj]
      exact tick_of_inactive _ _ h

theorem tiny_le : (2 : ℚ) ^ (-1022 : ℤ) ≤ 1 / 200 := by
  rw [zpow_neg, inv_eq_one_div]
  have h : (200 : ℚ) ≤ 2 ^ (1022 : ℤ) := by
    have h1 : (2 : ℚ) ^ (1022 : ℤ) = 2 ^ (1022 : ℕ) := zpow_ofNat 2 1022
    have h2 : (2 : ℚ) ^ (8 : ℕ) ≤ 2 ^ (1022 : ℕ) :=
      pow_le_pow_right₀ (by norm_num) (by norm_num)
    have h3 : (200 : ℚ) ≤ 2 ^ (8 : ℕ) := by norm_num
    rw [h1]
    exact le_trans h3 h2
  exact one_div_le_one_div_of_le (by norm_num) h

/-- The increment `target / 50` of a target between `1/2` and `2 ^ 1024`. -/
theorem increment_bounds (T : ℚ) (hT : 1 / 2 ≤ T) (hT2 : T < 2 ^ 1024) :
    ∃ i, toDouble (T / 50) = JSNum.fin i ∧
      T / 50 * (1 - 1 / 2 ^ 53) ≤ i ∧ i ≤ T / 50 * (1 + 1 / 2 ^ 53) := by
  have hx : (2 : ℚ) ^ (-1022 : ℤ) ≤ T / 50 :=
    le_trans tiny_le (by linarith)
  rcases toDouble_pos_cases (T / 50) hx with ⟨_, hov⟩ | ⟨q, hq, _, hlo, hhi⟩
  · exfalso
    have : T / 50 * (1 + 1 / 2 ^ 53) < T := by
      have h1 : (1 : ℚ) + 1 / 2 ^ 53 < 50 := by norm_num
      have hTpos : 0 < T := by linarith
      calc T / 50 * (1 + 1 / 2 ^ 53) < T / 50 * 50 :=
            mul_lt_mul_of_pos_left h1 (by positivity)
        _ = T := by ring
    linarith
  · exact ⟨q, hq, hlo, hhi⟩

theorem tick_running (T i s : ℚ) (txt : Option JSNum)
    (hi : toDouble (T / 50) = JSNum.fin i) :
    tick (JSNum.fin T) { start := JSNum.fin s, textContent := txt, timerActive := true }
      = if (toDouble (s + i)).ge (JSNum.fin T) = true then
          { start := toDouble (s + i), textContent := some (JSNum.fin T),
            timerActive := false }
        else
          { start := toDouble (s + i), textContent := some (toDouble (s + i)).ceil,
            timerActive := true } := by
  simp [tick, JSNum.div50, JSNum.add, hi]

/-- One tick from a running state: the counter stops, by overflow or by
reaching the target, or runs on with a value that is not smaller. -/
theorem tick_of_running (T i s : ℚ) (st : CounterState) (hT : 1 / 2 ≤ T)
    (hi : toDouble (T / 50) = JSNum.fin i) (hilo : T / 50 * (1 - 1 / 2 ^ 53) ≤ i)
    (hrun : CounterRunning T st s) :
    (CounterStopped T (tick (JSNum.fin T) st) ∧ 2 ^ 1024 ≤ (s + i) * (1 + 1 / 2 ^ 53)) ∨
    ∃ q, (s + i) * (1 - 1 / 2 ^ 53) ≤ q ∧ q ≤ (s + i) * (1 + 1 / 2 ^ 53) ∧ s ≤ q ∧
      ((T ≤ q ∧ CounterStopped T (tick (JSNum.fin T) st)) ∨
       (q < T ∧ CounterRunning T (tick (JSNum.fin T) st) q ∧
          (tick (JSNum.fin T) st).textContent = some (JSNum.fin ((⌈q⌉ : ℤ) : ℚ)))) := by
  obtain ⟨start, txt, act⟩ := st
  obtain ⟨hact, hstart, hs0, hsT, _⟩ := hrun
  simp only at hact hstart
  subst hact hstart
  rw [tick_running T i s txt hi]
  have hTpos : 0 < T := by linarith
  have hipos : 0 < i := by
    have : 0 < T / 50 * (1 - 1 / 2 ^ 53) := by
      apply mul_pos (by positivity) (by norm_num)
    linarith
  have hi200 : 1 / 200 ≤ i := by
    have h1 : (1 : ℚ) / 200 ≤ T / 50 * (1 - 1 / 2 ^ 53) := by
      have : (1 : ℚ) / 2 ≤ 1 - 1 / 2 ^ 53 := by norm_num
      nlinarith
    linarith
  have hx : (2 : ℚ) ^ (-1022 : ℤ) ≤ s + i :=
    le_trans tiny_le (by linarith)
  rcases toDouble_pos_cases (s + i) hx with ⟨hinf, hov⟩ | ⟨q, hq, _, hlo, hhi⟩
  · left
    rw [hinf]
    exact ⟨⟨rfl, rfl, rfl⟩, hov⟩
  · right
    have hsq : s ≤ q := by
      have hn3 : (1 : ℚ) / 2 ^ 53 ≤ 1 / 50 * (1 - 1 / 2 ^ 53) * (1 - 1 / 2 ^ 53) := by
        norm_num
      have h1 : s * (1 / 2 ^ 53) ≤ T * (1 / 2 ^ 53) :=
        mul_le_mul_of_nonneg_right hsT.le (by norm_num)
      have h2 : T * (1 / 2 ^ 53)
          ≤ T * (1 / 50 * (1 - 1 / 2 ^ 53) * (1 - 1 / 2 ^ 53)) :=
        mul_le_mul_of_nonneg_left hn3 hTpos.le
      have h3 : T / 50 * (1 - 1 / 2 ^ 53) * (1 - 1 / 2 ^ 53)
          ≤ i * (1 - 1 / 2 ^ 53) :=
        mul_le_mul_of_nonneg_right hilo (by norm_num)
      nlinarith
    refine ⟨q, hlo, hhi, hsq, ?_⟩
    rw [hq]
    by_cases hge : T ≤ q
    · left
      have : JSNum.ge (JSNum.fin q) (JSNum.fin T) = true := by
        simp [JSNum.ge, hge]
      rw [if_pos this]
      exact ⟨hge, rfl, rfl, this⟩
    · right
      have : ¬ (JSNum.ge (JSNum.fin q) (JSNum.fin T) = true) := by
        simp [JSNum.ge, hge]
      rw [if_neg this]
      exact ⟨not_le.1 hge, ⟨rfl, rfl, le_trans hs0 hsq, not_le.1 hge, Or.inr rfl⟩, rfl⟩

/-- At every tick the counter is running below the target, showing the
ceiling of the running value once a tick has run, or has stopped. -/
theorem counter_running_or_stopped (T : ℚ) (hT : 1 / 2 ≤ T) (hT2 : T < 2 ^ 1024)
    (k : Nat) :
    CounterStopped T (afterTicks (JSNum.fin T) k) ∨
      ∃ s, CounterRunning T (afterTicks (JSNum.fin T) k) s ∧
        (1 ≤ k → (afterTicks (JSNum.fin T) k).textContent
          = some (JSNum.fin ((⌈s⌉ : ℤ) : ℚ))) := by
  obtain ⟨i, hi, hilo, _⟩ := increment_bounds T hT hT2
  induction k with
  | zero =>
    right
    exact ⟨0, ⟨rfl, rfl, le_refl _, by linarith, Or.inl rfl⟩, fun h => absurd h (by decide)⟩
  | succ k ih =>
    rw [afterTicks_succ]
    rcases ih with hstop | ⟨s, hrun, _⟩
    · left
      rw [tick_of_inactive _ _ hstop.1]
      exact hstop
    · rcases tick_of_running T i s _ hT hi hilo hrun with ⟨h, _⟩ | ⟨q, _, _, _, h⟩
      · exact Or.inl h
      · rcases h with ⟨_, h⟩ | ⟨_, h, htxt⟩
        · exact Or.inl h
        · exact Or.inr ⟨q, h, fun _ => htxt⟩

theorem running_not_ge (T s : ℚ) (st : CounterState) (h : CounterRunning T st s) :
    st.timerActive = true ∧ st.start.ge (JSNum.fin T) = false := by
  obtain ⟨ha, hs, _, hlt, _⟩ := h
  refine ⟨ha, ?_⟩
  rw [hs]
  simp [JSNum.ge, hlt]

theorem upper_step (a c s i : ℚ) (k : ℕ) (hc : 0 ≤ c) (ha : 1 ≤ a)
    (hs : s ≤ (k : ℚ) * c * a ^ (k + 1)) (hi : i ≤ c * a) :
    (s + i) * a ≤ ((k + 1 : ℕ) : ℚ) * c * a ^ (k + 2) := by
  have ha0 : 0 ≤ a := by linarith
  have hpow : a ^ 2 ≤ a ^ (k + 2) := pow_le_pow_right₀ ha (by omega)
  have h1 : (s + i) * a ≤ ((k : ℚ) * c * a ^ (k + 1) + c * a) * a :=
    mul_le_mul_of_nonneg_right (by linarith) ha0
  have h2 : ((k : ℚ) * c * a ^ (k + 1) + c * a) * a
      = (k : ℚ) * c * a ^ (k + 2) + c * a ^ 2 := by ring
  have h3 : c * a ^ 2 ≤ c * a ^ (k + 2) := mul_le_mul_of_nonneg_left hpow hc
  push_cast
  nlinarith

theorem lower_step (b c s i : ℚ) (k : ℕ) (hc : 0 ≤ c) (hb0 : 0 ≤ b) (hb1 : b ≤ 1)
    (hs : (k : ℚ) * c * b ^ (k + 1) ≤ s) (hi : c * b ≤ i) :
    ((k + 1 : ℕ) : ℚ) * c * b ^ (k + 2) ≤ (s + i) * b := by
  have hpow : b ^ (k + 2) ≤ b ^ 2 := pow_le_pow_of_le_one hb0 hb1 (by omega)
  have h1 : ((k : ℚ) * c * b ^ (k + 1) + c * b) * b ≤ (s + i) * b :=
    mul_le_mul_of_nonneg_right (by linarith) hb0
  have h2 : ((k : ℚ) * c * b ^ (k + 1) + c * b) * b
      = (k : ℚ) * c * b ^ (k + 2) + c * b ^ 2 := by ring
  have h3 : c * b ^ (k + 2) ≤ c * b ^ 2 := mul_le_mul_of_nonneg_left hpow hc
  push_cast
  nlinarith

theorem upper_lt_target (T : ℚ) (hT : 0 < T) (k : ℕ) (hk : k ≤ 49) :
    (k : ℚ) * (T / 50) * (1 + 1 / 2 ^ 53) ^ (k + 1) < T := by
  have ha : (1 : ℚ) ≤ 1 + 1 / 2 ^ 53 := by norm_num
  have hpow : ((1 : ℚ) + 1 / 2 ^ 53) ^ (k + 1) ≤ (1 + 1 / 2 ^ 53) ^ 51 :=
    pow_le_pow_right₀ ha (by omega)
  have hk' : (k : ℚ) ≤ 49 := by exact_mod_cast hk
  have hn1 : (49 : ℚ) * (1 + 1 / 2 ^ 53) ^ 51 < 50 := by norm_num
  have hp0 : (0 : ℚ) ≤ (1 + 1 / 2 ^ 53) ^ (k + 1) := by positivity
  have h1 : (k : ℚ) * (1 + 1 / 2 ^ 53) ^ (k + 1) ≤ 49 * (1 + 1 / 2 ^ 53) ^ 51 := by
    calc (k : ℚ) * (1 + 1 / 2 ^ 53) ^ (k + 1)
        ≤ 49 * (1 + 1 / 2 ^ 53) ^ (k + 1) := mul_le_mul_of_nonneg_right hk' hp0
      _ ≤ 49 * (1 + 1 / 2 ^ 53) ^ 51 := mul_le_mul_of_nonneg_left hpow (by norm_num)
  have h2 : (k : ℚ) * (T / 50) * (1 + 1 / 2 ^ 53) ^ (k + 1)
      = T / 50 * ((k : ℚ) * (1 + 1 / 2 ^ 53) ^ (k + 1)) := by ring
  rw [h2]
  calc T / 50 * ((k : ℚ) * (1 + 1 / 2 ^ 53) ^ (k + 1))
      ≤ T / 50 * (49 * (1 + 1 / 2 ^ 53) ^ 51) :=
        mul_le_mul_of_nonneg_left h1 (by positivity)
    _ < T / 50 * 50 := mul_lt_mul_of_pos_left hn1 (by positivity)
    _ = T := by ring

/-- Through the first 49 ticks the counter runs below the target, the running
value staying within the accumulated rounding error of `k * target / 50`. -/
theorem counter_runs_to_49 (T : ℚ) (hT : 1 / 2 ≤ T) (hT2 : T < 2 ^ 1024) (k : Nat)
    (hk : k ≤ 49) :
    ∃ s, CounterRunning T (afterTicks (JSNum.fin T) k) s ∧
      (k : ℚ) * (T / 50) * (1 - 1 / 2 ^ 53) ^ (k + 1) ≤ s ∧
      s ≤ (k : ℚ) * (T / 50) * (1 + 1 / 2 ^ 53) ^ (k + 1) := by
  obtain ⟨i, hi, hilo, hihi⟩ := increment_bounds T hT hT2
  have hTpos : 0 < T := by linarith
  induction k with
  | zero =>
    exact ⟨0, ⟨rfl, rfl, le_refl _, hTpos, Or.inl rfl⟩, by simp, by simp⟩
  | succ k ih =>
    obtain ⟨s, hrun, hlo, hhi⟩ := ih (by omega)
    have hup := upper_step (1 + 1 / 2 ^ 53) (T / 50) s i k (by positivity) (by norm_num)
      hhi hihi
    have hdown := lower_step (1 - 1 / 2 ^ 53) (T / 50) s i k (by positivity) (by norm_num)
      (by norm_num) hlo hilo
    have hlt := upper_lt_target T hTpos (k + 1) hk
    rw [afterTicks_succ]
    rcases tick_of_running T i s _ hT hi hilo hrun with ⟨_, hov⟩ | ⟨q, hqlo, hqhi, _, h⟩
    · exfalso
      linarith
    · rcases h with ⟨hge, _⟩ | ⟨_, hrun', _⟩
      · exfalso
        linarith
      · exact ⟨q, hrun', le_trans hdown hqlo, le_trans hqhi hup⟩

/-- The counter stops at tick 50 or at tick 51, and not before. -/
theorem counter_stops (T : ℚ) (hT : 1 / 2 ≤ T) (hT2 : T < 2 ^ 1024) :
    ∃ K, (K = 50 ∨ K = 51) ∧
      (∀ k, k < K →
        (afterTicks (JSNum.fin T) k).timerActive = true ∧
        (afterTicks (JSNum.fin T) k).start.ge (JSNum.fin T) = false) ∧
      CounterStopped T (afterTicks (JSNum.fin T) K) ∧
      ∀ k, K ≤ k → afterTicks (JSNum.fin T) k = afterTicks (JSNum.fin T) K := by
  obtain ⟨i, hi, hilo, _⟩ := increment_bounds T hT hT2
  have hTpos : 0 < T := by linarith
  have hbefore : ∀ k, k < 50 →
      (afterTicks (JSNum.fin T) k).timerActive = true ∧
      (afterTicks (JSNum.fin T) k).start.ge (JSNum.fin T) = false := by
    intro k hk
    obtain ⟨s, hrun, _, _⟩ := counter_runs_to_49 T hT hT2 k (by omega)
    exact running_not_ge T s _ hrun
  obtain ⟨s, hrun, hlo, _⟩ := counter_runs_to_49 T hT hT2 49 (le_refl _)
  have hdown := lower_step (1 - 1 / 2 ^ 53) (T / 50) s i 49 (by positivity) (by norm_num)
    (by norm_num) hlo hilo
  have h50 : afterTicks (JSNum.fin T) 50 = tick (JSNum.fin T) (afterTicks (JSNum.fin T) 49) :=
    afterTicks_succ _ 49
  have hstop50 : CounterStopped T (afterTicks (JSNum.fin T) 50) →
      ∃ K, (K = 50 ∨ K = 51) ∧
        (∀ k, k < K →
          (afterTicks (JSNum.fin T) k).timerActive = true ∧
          (afterTicks (JSNum.fin T) k).start.ge (JSNum.fin T) = false) ∧
        CounterStopped T (afterTicks (JSNum.fin T) K) ∧
        ∀ k, K ≤ k → afterTicks (JSNum.fin T) k = afterTicks (JSNum.fin T) K :=
    fun h => ⟨50, Or.inl rfl, hbefore, h, fun k hk => afterTicks_stable _ 50 h.1 k hk⟩
  rcases tick_of_running T i s _ hT hi hilo hrun with ⟨h, _⟩ | ⟨q, hqlo, _, _, h⟩
  · rw [← h50] at h
    exact hstop50 h
  · rcases h with ⟨_, h⟩ | ⟨_, hrun50, _⟩
    · rw [← h50] at h
      exact hstop50 h
    · rw [← h50] at hrun50
      have hlo50 : ((49 + 1 : ℕ) : ℚ) * (T / 50) * (1 - 1 / 2 ^ 53) ^ (49 + 2) ≤ q :=
        le_trans hdown hqlo
      have hdown51 := lower_step (1 - 1 / 2 ^ 53) (T / 50) q i 50 (by positivity)
        (by norm_num) (by norm_num) (by exact_mod_cast hlo50) hilo
      have hn2 : (50 : ℚ) ≤ 51 * (1 - 1 / 2 ^ 53) ^ 52 := by norm_num
      have hreach : T ≤ (q + i) * (1 - 1 / 2 ^ 53) := by
        have h1 : T = T / 50 * 50 := by ring
        have h2 : T / 50 * 50 ≤ T / 50 * (51 * (1 - 1 / 2 ^ 53) ^ 52) :=
          mul_le_mul_of_nonneg_left hn2 (by positivity)
        have h3 : ((50 + 1 : ℕ) : ℚ) * (T / 50) * (1 - 1 / 2 ^ 53) ^ (50 + 2)
            = T / 50 * (51 * (1 - 1 / 2 ^ 53) ^ 52) := by
          push_cast; ring
        linarith
      have h51 : afterTicks (JSNum.fin T) 51
          = tick (JSNum.fin T) (afterTicks (JSNum.fin T) 50) := afterTicks_succ _ 50
      have hstop51 : CounterStopped T (afterTicks (JSNum.fin T) 51) := by
        rw [h51]
        rcases tick_of_running T i q _ hT hi hilo hrun50 with ⟨h, _⟩ | ⟨q', hq'lo, _, _, h⟩
        · exact h
        · rcases h with ⟨_, h⟩ | ⟨hlt, _, _⟩
          · exact h
          · exfalso
            linarith
      refine ⟨51, Or.inr rfl, ?_, hstop51, fun k hk => afterTicks_stable _ 51 hstop51.1 k hk⟩
      intro k hk
      rcases Nat.lt_or_ge k 50 with hlt | hge
      · exact hbefore k hlt
      · have : k = 50 := by omega
        subst this
        exact running_not_ge T q _ hrun50

theorem roundHalfEven_eq_of_tie (y : ℚ) (m : ℤ) (hm : m % 2 = 0)
    (h : y = (m : ℚ) + 1 / 2 ∨ y = (m : ℚ) - 1 / 2) : roundHalfEven y = m := by
  unfold roundHalfEven
  rcases h with h | h
  · have hf : ⌊y⌋ = m := by
      rw [Int.floor_eq_iff, h]
      constructor <;> linarith
    rw [hf, h]
    have h1 : ¬ ((m : ℚ) + 1 / 2 - (m : ℚ) < 1 / 2) := by
      intro h'; linarith
    have h2 : ¬ ((1 : ℚ) / 2 < (m : ℚ) + 1 / 2 - (m : ℚ)) := by
      intro h'; linarith
    rw [if_neg h1, if_neg h2, if_pos hm]
  · have hf : ⌊y⌋ = m - 1 := by
      rw [Int.floor_eq_iff, h]
      push_cast
      constructor <;> linarith
    rw [hf, h]
    push_cast
    have h1 : ¬ ((m : ℚ) - 1 / 2 - ((m : ℚ) - 1) < 1 / 2) := by
      intro h'; linarith
    have h2 : ¬ ((1 : ℚ) / 2 < (m : ℚ) - 1 / 2 - ((m : ℚ) - 1)) := by
      intro h'; linarith
    have h3 : ¬ ((m - 1) % 2 = 0) := by omega
    rw [if_neg h1, if_neg h2, if_neg h3]
    ring

/-- A certificate for the rounding of a positive value: the number `p` of
fraction bits and the mantissa `m`. -/
theorem toDouble_eq_of_scaled (x : ℚ) (p : ℕ) (m : ℤ) (hp : p ≤ 1074)
    (h1 : (2 : ℚ) ^ 52 ≤ x * 2 ^ p) (h2 : x * 2 ^ p < 2 ^ 53)
    (hm : roundHalfEven (x * 2 ^ p) = m) :
    toDouble x = JSNum.fin ((m : ℚ) / 2 ^ p) := by
  have hp2 : (0 : ℚ) < 2 ^ p := by positivity
  have hxpos : 0 < x := by
    by_contra hneg
    have : x * 2 ^ p ≤ 0 := mul_nonpos_of_nonpos_of_nonneg (not_lt.1 hneg) hp2.le
    have : (0 : ℚ) < 2 ^ 52 := by positivity
    linarith
  have hz : (2 : ℚ) ^ (-(p : ℤ)) = (2 ^ p)⁻¹ := by
    rw [zpow_neg, zpow_natCast]
  have hz52 : (2 : ℚ) ^ (-(p : ℤ) + 52) = 2 ^ 52 / 2 ^ p := by
    rw [zpow_add₀ (by norm_num : (2 : ℚ) ≠ 0), hz]
    have : (2 : ℚ) ^ (52 : ℤ) = 2 ^ 52 := by norm_cast
    rw [this]; field_simp
  have hz53 : (2 : ℚ) ^ (-(p : ℤ) + 53) = 2 ^ 53 / 2 ^ p := by
    rw [zpow_add₀ (by norm_num : (2 : ℚ) ≠ 0), hz]
    have : (2 : ℚ) ^ (53 : ℤ) = 2 ^ 53 := by norm_cast
    rw [this]; field_simp
  have he : ulpExponent x = -(p : ℤ) := by
    apply ulpExponent_eq x (-(p : ℤ)) (by omega)
    · rw [hz52, abs_of_pos hxpos, div_le_iff₀ hp2]
      exact h1
    · rw [hz53, abs_of_pos hxpos, lt_div_iff₀ hp2]
      exact h2
  have hr : roundToDouble x = (m : ℚ) / 2 ^ p := by
    unfold roundToDouble
    rw [he, hz, div_inv_eq_mul, hm]
    rfl
  have herr := roundHalfEven_abs_sub_le (x * 2 ^ p)
  rw [hm, abs_le] at herr
  have hmpos : (0 : ℚ) ≤ (m : ℚ) := by
    have : (0 : ℚ) < 2 ^ 52 := by positivity
    linarith
  have hmlt : (m : ℚ) < 2 ^ 54 := by
    have : (2 : ℚ) ^ 54 = 2 * 2 ^ 53 := by norm_num
    have : (0 : ℚ) < 2 ^ 53 := by positivity
    linarith
  have hq0 : (0 : ℚ) ≤ (m : ℚ) / 2 ^ p := div_nonneg hmpos hp2.le
  have hqle : (m : ℚ) / 2 ^ p ≤ (m : ℚ) := by
    apply div_le_self hmpos
    exact one_le_pow₀ (by norm_num)
  have hbig : (2 : ℚ) ^ 54 ≤ 2 ^ 1024 := pow_le_pow_right₀ (by norm_num) (by norm_num)
  unfold toDouble
  rw [hr, if_neg (by intro h; linarith), if_neg (by intro h; linarith)]

/-- One tick of a running counter whose next running value is known and
below the target. -/
theorem tick_chain (T i s q : ℚ) (st : CounterState)
    (hs : st.start = JSNum.fin s ∧ st.timerActive = true)
    (hi : toDouble (T / 50) = JSNum.fin i) (hq : toDouble (s + i) = JSNum.fin q)
    (hlt : q < T) :
    ((tick (JSNum.fin T) st).start = JSNum.fin q ∧
      (tick (JSNum.fin T) st).timerActive = true) ∧
    (tick (JSNum.fin T) st).textContent = some (JSNum.fin ((⌈q⌉ : ℤ) : ℚ)) := by
  obtain ⟨start, txt, act⟩ := st
  obtain ⟨h1, h2⟩ := hs
  simp only at h1 h2
  subst h1 h2
  rw [tick_running T i s txt hi, hq]
  have : ¬ (JSNum.ge (JSNum.fin q) (JSNum.fin T) = true) := by
    simp [JSNum.ge, hlt]
  rw [if_neg this]
  exact ⟨⟨rfl, rfl⟩, rfl⟩

/-- The increment of the counter with target 80: the binary64 value of `80 / 50`. -/
theorem increment_eighty : toDouble (80 / 50) = JSNum.fin (((7205759403792794 : ℤ) : ℚ) / 2 ^ 52) :=
  (toDouble_eq_of_scaled _ 52 (7205759403792794) (by norm_num) (by norm_num) (by norm_num) (roundHalfEven_eq_of_lt _ (7205759403792794) (by norm_num) (by norm_num)))

/-- The running value of the counter with target 80 after ticks 15 and 50,
rounding by rounding. -/
theorem eighty_chain :
    ((afterTicks (JSNum.fin 80) 15).textContent
        = some (JSNum.fin ((⌈(((6755399441055745 : ℤ) : ℚ) / 2 ^ 48)⌉ : ℤ) : ℚ))) ∧
    (afterTicks (JSNum.fin 80) 50).start = JSNum.fin (((5629499534213118 : ℤ) : ℚ) / 2 ^ 46) ∧
    (afterTicks (JSNum.fin 80) 50).timerActive = true := by
  have h0 : (afterTicks (JSNum.fin 80) 0).start = JSNum.fin (((0 : ℤ) : ℚ) / 2 ^ 0) ∧
      (afterTicks (JSNum.fin 80) 0).timerActive = true := by
    refine ⟨?_, rfl⟩
    show JSNum.fin 0 = _
    norm_num
  have h1 := tick_chain 80 (((7205759403792794 : ℤ) : ℚ) / 2 ^ 52) (((0 : ℤ) : ℚ) / 2 ^ 0) (((7205759403792794 : ℤ) : ℚ) / 2 ^ 52) _ h0
    increment_eighty (toDouble_eq_of_scaled _ 52 (7205759403792794) (by norm_num) (by norm_num) (by norm_num) (roundHalfEven_eq_of_lt _ (7205759403792794) (by norm_num) (by norm_num))) (by norm_num)
  rw [← afterTicks_succ] at h1
  have h2 := tick_chain 80 (((7205759403792794 : ℤ) : ℚ) / 2 ^ 52) (((7205759403792794 : ℤ) : ℚ) / 2 ^ 52) (((7205759403792794 : ℤ) : ℚ) / 2 ^ 51) _ h1.1
    increment_eighty (toDouble_eq_of_scaled _ 51 (7205759403792794) (by norm_num) (by norm_num) (by norm_num) (roundHalfEven_eq_of_lt _ (7205759403792794) (by norm_num) (by norm_num))) (by norm_num)
  rw [← afterTicks_succ] at h2
  have h3 := tick_chain 80 (((7205759403792794 : ℤ) : ℚ) / 2 ^ 52) (((7205759403792794 : ℤ) : ℚ) / 2 ^ 51) (((5404319552844596 : ℤ) : ℚ) / 2 ^ 50) _ h2.1
    increment_eighty (toDouble_eq_of_scaled _ 50 (5404319552844596) (by norm_num) (by norm_num) (by norm_num) (roundHalfEven_eq_of_tie _ (5404319552844596) (by decide) (Or.inr (by norm_num)))) (by norm_num)
  rw [← afterTicks_succ] at h3
  have h4 := tick_chain 80 (((7205759403792794 : ℤ) : ℚ) / 2 ^ 52) (((5404319552844596 : ℤ) : ℚ) / 2 ^ 50) (((7205759403792794 : ℤ) : ℚ) / 2 ^ 50) _ h3.1
    increment_eighty (toDouble_eq_of_scaled _ 50 (7205759403792794) (by norm_num) (by norm_num) (by norm_num) (roundHalfEven_eq_of_tie _ (7205759403792794) (by decide) (Or.inl (by norm_num)))) (by norm_num)
  rw [← afterTicks_succ] at h4
  have h5 := tick_chain 80 (((7205759403792794 : ℤ) : ℚ) / 2 ^ 52) (((7205759403792794 : ℤ) : ℚ) / 2 ^ 50) (((4503599627370496 : ℤ) : ℚ) / 2 ^ 49) _ h4.1
    increment_eighty (toDouble_eq_of_scaled _ 49 (4503599627370496) (by norm_num) (by norm_num) (by norm_num) (roundHalfEven_eq_of_lt _ (4503599627370496) (by norm_num) (by norm_num))) (by norm_num)
  rw [← afterTicks_succ] at h5
  have h6 := tick_chain 80 (((7205759403792794 : ℤ) : ℚ) / 2 ^ 52) (((4503599627370496 : ℤ) : ℚ) / 2 ^ 49) (((5404319552844595 : ℤ) : ℚ) / 2 ^ 49) _ h5.1
    increment_eighty (toDouble_eq_of_scaled _ 49 (5404319552844595) (by norm_num) (by norm_num) (by norm_num) (roundHalfEven_eq_of_lt _ (5404319552844595) (by norm_num) (by norm_num))) (by norm_num)
  rw [← afterTicks_succ] at h6
  have h7 := tick_chain 80 (((7205759403792794 : ℤ) : ℚ) / 2 ^ 52) (((5404319552844595 : ℤ) : ℚ) / 2 ^ 49) (((6305039478318694 : ℤ) : ℚ) / 2 ^ 49) _ h6.1
    increment_eighty (toDouble_eq_of_scaled _ 49 (6305039478318694) (by norm_num) (by norm_num) (by norm_num) (roundHalfEven_eq_of_lt _ (6305039478318694) (by norm_num) (by norm_num))) (by norm_num)
  rw [← afterTicks_succ] at h7
  have h8 := tick_chain 80 (((7205759403792794 : ℤ) : ℚ) / 2 ^ 52) (((6305039478318694 : ℤ) : ℚ) / 2 ^ 49) (((7205759403792793 : ℤ) : ℚ) / 2 ^ 49) _ h7.1
    increment_eighty (toDouble_eq_of_scaled _ 49 (7205759403792793) (by norm_num) (by norm_num) (by norm_num) (roundHalfEven_eq_of_lt _ (7205759403792793) (by norm_num) (by norm_num))) (by norm_num)
  rw [← afterTicks_succ] at h8
  have h9 := tick_chain 80 (((7205759403792794 : ℤ) : ℚ) / 2 ^ 52) (((7205759403792793 : ℤ) : ℚ) / 2 ^ 49) (((8106479329266892 : ℤ) : ℚ) / 2 ^ 49) _ h8.1
    increment_eighty (toDouble_eq_of_scaled _ 49 (8106479329266892) (by norm_num) (by norm_num) (by norm_num) (roundHalfEven_eq_of_lt _ (8106479329266892) (by norm_num) (by norm_num))) (by norm_num)
  rw [← afterTicks_succ] at h9
  have h10 := tick_chain 80 (((7205759403792794 : ℤ) : ℚ) / 2 ^ 52) (((8106479329266892 : ℤ) : ℚ) / 2 ^ 49) (((9007199254740991 : ℤ) : ℚ) / 2 ^ 49) _ h9.1
    increment_eighty (toDouble_eq_of_scaled _ 49 (9007199254740991) (by norm_num) (by norm_num) (by norm_num) (roundHalfEven_eq_of_lt _ (9007199254740991) (by norm_num) (by norm_num))) (by norm_num)
  rw [← afterTicks_succ] at h10
  have h11 := tick_chain 80 (((7205759403792794 : ℤ) : ℚ) / 2 ^ 52) (((9007199254740991 : ℤ) : ℚ) / 2 ^ 49) (((4953959590107545 : ℤ) : ℚ) / 2 ^ 48) _ h10.1
    increment_eighty (toDouble_eq_of_scaled _ 48 (4953959590107545) (by norm_num) (by norm_num) (by norm_num) (roundHalfEven_eq_of_lt _ (4953959590107545) (by norm_num) (by norm_num))) (by norm_num)
  rw [← afterTicks_succ] at h11
  have h12 := tick_chain 80 (((7205759403792794 : ℤ) : ℚ) / 2 ^ 52) (((4953959590107545 : ℤ) : ℚ) / 2 ^ 48) (((5404319552844595 : ℤ) : ℚ) / 2 ^ 48) _ h11.1
    increment_eighty (toDouble_eq_of_scaled _ 48 (5404319552844595) (by norm_num) (by norm_num) (by norm_num) (roundHalfEven_eq_of_lt _ (5404319552844595) (by norm_num) (by norm_num))) (by norm_num)
  rw [← afterTicks_succ] at h12
  have h13 := tick_chain 80 (((7205759403792794 : ℤ) : ℚ) / 2 ^ 52) (((5404319552844595 : ℤ) : ℚ) / 2 ^ 48) (((5854679515581645 : ℤ) : ℚ) / 2 ^ 48) _ h12.1
    increment_eighty (toDouble_eq_of_scaled _ 48 (5854679515581645) (by norm_num) (by norm_num) (by norm_num) (roundHalfEven_eq_of_lt _ (5854679515581645) (by norm_num) (by norm_num))) (by norm_num)
  rw [← afterTicks_succ] at h13
  have h14 := tick_chain 80 (((7205759403792794 : ℤ) : ℚ) / 2 ^ 52) (((5854679515581645 : ℤ) : ℚ) / 2 ^ 48) (((6305039478318695 : ℤ) : ℚ) / 2 ^ 48) _ h13.1
    increment_eighty (toDouble_eq_of_scaled _ 48 (6305039478318695) (by norm_num) (by norm_num) (by norm_num) (roundHalfEven_eq_of_lt _ (6305039478318695) (by norm_num) (by norm_num))) (by norm_num)
  rw [← afterTicks_succ] at h14
  have h15 := tick_chain 80 (((7205759403792794 : ℤ) : ℚ) / 2 ^ 52) (((6305039478318695 : ℤ) : ℚ) / 2 ^ 48) (((6755399441055745 : ℤ) : ℚ) / 2 ^ 48) _ h14.1
    increment_eighty (toDouble_eq_of_scaled _ 48 (6755399441055745) (by norm_num) (by norm_num) (by norm_num) (roundHalfEven_eq_of_lt _ (6755399441055745) (by norm_num) (by norm_num))) (by norm_num)
  rw [← afterTicks_succ] at h15
  have h16 := tick_chain 80 (((7205759403792794 : ℤ) : ℚ) / 2 ^ 52) (((6755399441055745 : ℤ) : ℚ) / 2 ^ 48) (((7205759403792795 : ℤ) : ℚ) / 2 ^ 48) _ h15.1
    increment_eighty (toDouble_eq_of_scaled _ 48 (7205759403792795) (by norm_num) (by norm_num) (by norm_num) (roundHalfEven_eq_of_lt _ (7205759403792795) (by norm_num) (by norm_num))) (by norm_num)
  rw [← afterTicks_succ] at h16
  have h17 := tick_chain 80 (((7205759403792794 : ℤ) : ℚ) / 2 ^ 52) (((7205759403792795 : ℤ) : ℚ) / 2 ^ 48) (((7656119366529845 : ℤ) : ℚ) / 2 ^ 48) _ h16.1
    increment_eighty (toDouble_eq_of_scaled _ 48 (7656119366529845) (by norm_num) (by norm_num) (by norm_num) (roundHalfEven_eq_of_lt _ (7656119366529845) (by norm_num) (by norm_num))) (by norm_num)
  rw [← afterTicks_succ] at h17
  have h18 := tick_chain 80 (((7205759403792794 : ℤ) : ℚ) / 2 ^ 52) (((7656119366529845 : ℤ) : ℚ) / 2 ^ 48) (((8106479329266895 : ℤ) : ℚ) / 2 ^ 48) _ h17.1
    increment_eighty (toDouble_eq_of_scaled _ 48 (8106479329266895) (by norm_num) (by norm_num) (by norm_num) (roundHalfEven_eq_of_lt _ (8106479329266895) (by norm_num) (by norm_num))) (by norm_num)
  rw [← afterTicks_succ] at h18
  have h19 := tick_chain 80 (((7205759403792794 : ℤ) : ℚ) / 2 ^ 52) (((8106479329266895 : ℤ) : ℚ) / 2 ^ 48) (((8556839292003945 : ℤ) : ℚ) / 2 ^ 48) _ h18.1
    increment_eighty (toDouble_eq_of_scaled _ 48 (8556839292003945) (by norm_num) (by norm_num) (by norm_num) (roundHalfEven_eq_of_lt _ (8556839292003945) (by norm_num) (by norm_num))) (by norm_num)
  rw [← afterTicks_succ] at h19
  have h20 := tick_chain 80 (((7205759403792794 : ℤ) : ℚ) / 2 ^ 52) (((8556839292003945 : ℤ) : ℚ) / 2 ^ 48) (((4503599627370497 : ℤ) : ℚ) / 2 ^ 47) _ h19.1
    increment_eighty (toDouble_eq_of_scaled _ 47 (4503599627370497) (by norm_num) (by norm_num) (by norm_num) (roundHalfEven_eq_of_lt _ (4503599627370497) (by norm_num) (by norm_num))) (by norm_num)
  rw [← afterTicks_succ] at h20
  have h21 := tick_chain 80 (((7205759403792794 : ℤ) : ℚ) / 2 ^ 52) (((4503599627370497 : ℤ) : ℚ) / 2 ^ 47) (((4728779608739022 : ℤ) : ℚ) / 2 ^ 47) _ h20.1
    increment_eighty (toDouble_eq_of_scaled _ 47 (4728779608739022) (by norm_num) (by norm_num) (by norm_num) (roundHalfEven_eq_of_lt _ (4728779608739022) (by norm_num) (by norm_num))) (by norm_num)
  rw [← afterTicks_succ] at h21
  have h22 := tick_chain 80 (((7205759403792794 : ℤ) : ℚ) / 2 ^ 52) (((4728779608739022 : ℤ) : ℚ) / 2 ^ 47) (((4953959590107547 : ℤ) : ℚ) / 2 ^ 47) _ h21.1
    increment_eighty (toDouble_eq_of_scaled _ 47 (4953959590107547) (by norm_num) (by norm_num) (by norm_num) (roundHalfEven_eq_of_lt _ (4953959590107547) (by norm_num) (by norm_num))) (by norm_num)
  rw [← afterTicks_succ] at h22
  have h23 := tick_chain 80 (((7205759403792794 : ℤ) : ℚ) / 2 ^ 52) (((4953959590107547 : ℤ) : ℚ) / 2 ^ 47) (((5179139571476072 : ℤ) : ℚ) / 2 ^ 47) _ h22.1
    increment_eighty (toDouble_eq_of_scaled _ 47 (5179139571476072) (by norm_num) (by norm_num) (by norm_num) (roundHalfEven_eq_of_lt _ (5179139571476072) (by norm_num) (by norm_num))) (by norm_num)
  rw [← afterTicks_succ] at h23
  have h24 := tick_chain 80 (((7205759403792794 : ℤ) : ℚ) / 2 ^ 52) (((5179139571476072 : ℤ) : ℚ) / 2 ^ 47) (((5404319552844597 : ℤ) : ℚ) / 2 ^ 47) _ h23.1
    increment_eighty (toDouble_eq_of_scaled _ 47 (5404319552844597) (by norm_num) (by norm_num) (by norm_num) (roundHalfEven_eq_of_lt _ (5404319552844597) (by norm_num) (by norm_num))) (by norm_num)
  rw [← afterTicks_succ] at h24
  have h25 := tick_chain 80 (((7205759403792794 : ℤ) : ℚ) / 2 ^ 52) (((5404319552844597 : ℤ) : ℚ) / 2 ^ 47) (((5629499534213122 : ℤ) : ℚ) / 2 ^ 47) _ h24.1
    increment_eighty (toDouble_eq_of_scaled _ 47 (5629499534213122) (by norm_num) (by norm_num) (by norm_num) (roundHalfEven_eq_of_lt _ (5629499534213122) (by norm_num) (by norm_num))) (by norm_num)
  rw [← afterTicks_succ] at h25
  have h26 := tick_chain 80 (((7205759403792794 : ℤ) : ℚ) / 2 ^ 52) (((5629499534213122 : ℤ) : ℚ) / 2 ^ 47) (((5854679515581647 : ℤ) : ℚ) / 2 ^ 47) _ h25.1
    increment_eighty (toDouble_eq_of_scaled _ 47 (5854679515581647) (by norm_num) (by norm_num) (by norm_num) (roundHalfEven_eq_of_lt _ (5854679515581647) (by norm_num) (by norm_num))) (by norm_num)
  rw [← afterTicks_succ] at h26
  have h27 := tick_chain 80 (((7205759403792794 : ℤ) : ℚ) / 2 ^ 52) (((5854679515581647 : ℤ) : ℚ) / 2 ^ 47) (((6079859496950172 : ℤ) : ℚ) / 2 ^ 47) _ h26.1
    increment_eighty (toDouble_eq_of_scaled _ 47 (6079859496950172) (by norm_num) (by norm_num) (by norm_num) (roundHalfEven_eq_of_lt _ (6079859496950172) (by norm_num) (by norm_num))) (by norm_num)
  rw [← afterTicks_succ] at h27
  have h28 := tick_chain 80 (((7205759403792794 : ℤ) : ℚ) / 2 ^ 52) (((6079859496950172 : ℤ) : ℚ) / 2 ^ 47) (((6305039478318697 : ℤ) : ℚ) / 2 ^ 47) _ h27.1
    increment_eighty (toDouble_eq_of_scaled _ 47 (6305039478318697) (by norm_num) (by norm_num) (by norm_num) (roundHalfEven_eq_of_lt _ (6305039478318697) (by norm_num) (by norm_num))) (by norm_num)
  rw [← afterTicks_succ] at h28
  have h29 := tick_chain 80 (((7205759403792794 : ℤ) : ℚ) / 2 ^ 52) (((6305039478318697 : ℤ) : ℚ) / 2 ^ 47) (((6530219459687222 : ℤ) : ℚ) / 2 ^ 47) _ h28.1
    increment_eighty (toDouble_eq_of_scaled _ 47 (6530219459687222) (by norm_num) (by norm_num) (by norm_num) (roundHalfEven_eq_of_lt _ (6530219459687222) (by norm_num) (by norm_num))) (by norm_num)
  rw [← afterTicks_succ] at h29
  have h30 := tick_chain 80 (((7205759403792794 : ℤ) : ℚ) / 2 ^ 52) (((6530219459687222 : ℤ) : ℚ) / 2 ^ 47) (((6755399441055747 : ℤ) : ℚ) / 2 ^ 47) _ h29.1
    increment_eighty (toDouble_eq_of_scaled _ 47 (6755399441055747) (by norm_num) (by norm_num) (by norm_num) (roundHalfEven_eq_of_lt _ (6755399441055747) (by norm_num) (by norm_num))) (by norm_num)
  rw [← afterTicks_succ] at h30
  have h31 := tick_chain 80 (((7205759403792794 : ℤ) : ℚ) / 2 ^ 52) (((6755399441055747 : ℤ) : ℚ) / 2 ^ 47) (((6980579422424272 : ℤ) : ℚ) / 2 ^ 47) _ h30.1
    increment_eighty (toDouble_eq_of_scaled _ 47 (6980579422424272) (by norm_num) (by norm_num) (by norm_num) (roundHalfEven_eq_of_lt _ (6980579422424272) (by norm_num) (by norm_num))) (by norm_num)
  rw [← afterTicks_succ] at h31
  have h32 := tick_chain 80 (((7205759403792794 : ℤ) : ℚ) / 2 ^ 52) (((6980579422424272 : ℤ) : ℚ) / 2 ^ 47) (((7205759403792797 : ℤ) : ℚ) / 2 ^ 47) _ h31.1
    increment_eighty (toDouble_eq_of_scaled _ 47 (7205759403792797) (by norm_num) (by norm_num) (by norm_num) (roundHalfEven_eq_of_lt _ (7205759403792797) (by norm_num) (by norm_num))) (by norm_num)
  rw [← afterTicks_succ] at h32
  have h33 := tick_chain 80 (((7205759403792794 : ℤ) : ℚ) / 2 ^ 52) (((7205759403792797 : ℤ) : ℚ) / 2 ^ 47) (((7430939385161322 : ℤ) : ℚ) / 2 ^ 47) _ h32.1
    increment_eighty (toDouble_eq_of_scaled _ 47 (7430939385161322) (by norm_num) (by norm_num) (by norm_num) (roundHalfEven_eq_of_lt _ (7430939385161322) (by norm_num) (by norm_num))) (by norm_num)
  rw [← afterTicks_succ] at h33
  have h34 := tick_chain 80 (((7205759403792794 : ℤ) : ℚ) / 2 ^ 52) (((7430939385161322 : ℤ) : ℚ) / 2 ^ 47) (((7656119366529847 : ℤ) : ℚ) / 2 ^ 47) _ h33.1
    increment_eighty (toDouble_eq_of_scaled _ 47 (7656119366529847) (by norm_num) (by norm_num) (by norm_num) (roundHalfEven_eq_of_lt _ (7656119366529847) (by norm_num) (by norm_num))) (by norm_num)
  rw [← afterTicks_succ] at h34
  have h35 := tick_chain 80 (((7205759403792794 : ℤ) : ℚ) / 2 ^ 52) (((7656119366529847 : ℤ) : ℚ) / 2 ^ 47) (((7881299347898372 : ℤ) : ℚ) / 2 ^ 47) _ h34.1
    increment_eighty (toDouble_eq_of_scaled _ 47 (7881299347898372) (by norm_num) (by norm_num) (by norm_num) (roundHalfEven_eq_of_lt _ (7881299347898372) (by norm_num) (by norm_num))) (by norm_num)
  rw [← afterTicks_succ] at h35
  have h36 := tick_chain 80 (((7205759403792794 : ℤ) : ℚ) / 2 ^ 52) (((7881299347898372 : ℤ) : ℚ) / 2 ^ 47) (((8106479329266897 : ℤ) : ℚ) / 2 ^ 47) _ h35.1
    increment_eighty (toDouble_eq_of_scaled _ 47 (8106479329266897) (by norm_num) (by norm_num) (by norm_num) (roundHalfEven_eq_of_lt _ (8106479329266897) (by norm_num) (by norm_num))) (by norm_num)
  rw [← afterTicks_succ] at h36
  have h37 := tick_chain 80 (((7205759403792794 : ℤ) : ℚ) / 2 ^ 52) (((8106479329266897 : ℤ) : ℚ) / 2 ^ 47) (((8331659310635422 : ℤ) : ℚ) / 2 ^ 47) _ h36.1
    increment_eighty (toDouble_eq_of_scaled _ 47 (8331659310635422) (by norm_num) (by norm_num) (by norm_num) (roundHalfEven_eq_of_lt _ (8331659310635422) (by norm_num) (by norm_num))) (by norm_num)
  rw [← afterTicks_succ] at h37
  have h38 := tick_chain 80 (((7205759403792794 : ℤ) : ℚ) / 2 ^ 52) (((8331659310635422 : ℤ) : ℚ) / 2 ^ 47) (((8556839292003947 : ℤ) : ℚ) / 2 ^ 47) _ h37.1
    increment_eighty (toDouble_eq_of_scaled _ 47 (8556839292003947) (by norm_num) (by norm_num) (by norm_num) (roundHalfEven_eq_of_lt _ (8556839292003947) (by norm_num) (by norm_num))) (by norm_num)
  rw [← afterTicks_succ] at h38
  have h39 := tick_chain 80 (((7205759403792794 : ℤ) : ℚ) / 2 ^ 52) (((8556839292003947 : ℤ) : ℚ) / 2 ^ 47) (((8782019273372472 : ℤ) : ℚ) / 2 ^ 47) _ h38.1
    increment_eighty (toDouble_eq_of_scaled _ 47 (8782019273372472) (by norm_num) (by norm_num) (by norm_num) (roundHalfEven_eq_of_lt _ (8782019273372472) (by norm_num) (by norm_num))) (by norm_num)
  rw [← afterTicks_succ] at h39
  have h40 := tick_chain 80 (((7205759403792794 : ℤ) : ℚ) / 2 ^ 52) (((8782019273372472 : ℤ) : ℚ) / 2 ^ 47) (((4503599627370498 : ℤ) : ℚ) / 2 ^ 46) _ h39.1
    increment_eighty (toDouble_eq_of_scaled _ 46 (4503599627370498) (by norm_num) (by norm_num) (by norm_num) (roundHalfEven_eq_of_lt _ (4503599627370498) (by norm_num) (by norm_num))) (by norm_num)
  rw [← afterTicks_succ] at h40
  have h41 := tick_chain 80 (((7205759403792794 : ℤ) : ℚ) / 2 ^ 52) (((4503599627370498 : ℤ) : ℚ) / 2 ^ 46) (((4616189618054760 : ℤ) : ℚ) / 2 ^ 46) _ h40.1
    increment_eighty (toDouble_eq_of_scaled _ 46 (4616189618054760) (by norm_num) (by norm_num) (by norm_num) (roundHalfEven_eq_of_lt _ (4616189618054760) (by norm_num) (by norm_num))) (by norm_num)
  rw [← afterTicks_succ] at h41
  have h42 := tick_chain 80 (((7205759403792794 : ℤ) : ℚ) / 2 ^ 52) (((4616189618054760 : ℤ) : ℚ) / 2 ^ 46) (((4728779608739022 : ℤ) : ℚ) / 2 ^ 46) _ h41.1
    increment_eighty (toDouble_eq_of_scaled _ 46 (4728779608739022) (by norm_num) (by norm_num) (by norm_num) (roundHalfEven_eq_of_lt _ (4728779608739022) (by norm_num) (by norm_num))) (by norm_num)
  rw [← afterTicks_succ] at h42
  have h43 := tick_chain 80 (((7205759403792794 : ℤ) : ℚ) / 2 ^ 52) (((4728779608739022 : ℤ) : ℚ) / 2 ^ 46) (((4841369599423284 : ℤ) : ℚ) / 2 ^ 46) _ h42.1
    increment_eighty (toDouble_eq_of_scaled _ 46 (4841369599423284) (by norm_num) (by norm_num) (by norm_num) (roundHalfEven_eq_of_lt _ (4841369599423284) (by norm_num) (by norm_num))) (by norm_num)
  rw [← afterTicks_succ] at h43
  have h44 := tick_chain 80 (((7205759403792794 : ℤ) : ℚ) / 2 ^ 52) (((4841369599423284 : ℤ) : ℚ) / 2 ^ 46) (((4953959590107546 : ℤ) : ℚ) / 2 ^ 46) _ h43.1
    increment_eighty (toDouble_eq_of_scaled _ 46 (4953959590107546) (by norm_num) (by norm_num) (by norm_num) (roundHalfEven_eq_of_lt _ (4953959590107546) (by norm_num) (by norm_num))) (by norm_num)
  rw [← afterTicks_succ] at h44
  have h45 := tick_chain 80 (((7205759403792794 : ℤ) : ℚ) / 2 ^ 52) (((4953959590107546 : ℤ) : ℚ) / 2 ^ 46) (((5066549580791808 : ℤ) : ℚ) / 2 ^ 46) _ h44.1
    increment_eighty (toDouble_eq_of_scaled _ 46 (5066549580791808) (by norm_num) (by norm_num) (by norm_num) (roundHalfEven_eq_of_lt _ (5066549580791808) (by norm_num) (by norm_num))) (by norm_num)
  rw [← afterTicks_succ] at h45
  have h46 := tick_chain 80 (((7205759403792794 : ℤ) : ℚ) / 2 ^ 52) (((5066549580791808 : ℤ) : ℚ) / 2 ^ 46) (((5179139571476070 : ℤ) : ℚ) / 2 ^ 46) _ h45.1
    increment_eighty (toDouble_eq_of_scaled _ 46 (5179139571476070) (by norm_num) (by norm_num) (by norm_num) (roundHalfEven_eq_of_lt _ (5179139571476070) (by norm_num) (by norm_num))) (by norm_num)
  rw [← afterTicks_succ] at h46
  have h47 := tick_chain 80 (((7205759403792794 : ℤ) : ℚ) / 2 ^ 52) (((5179139571476070 : ℤ) : ℚ) / 2 ^ 46) (((5291729562160332 : ℤ) : ℚ) / 2 ^ 46) _ h46.1
    increment_eighty (toDouble_eq_of_scaled _ 46 (5291729562160332) (by norm_num) (by norm_num) (by norm_num) (roundHalfEven_eq_of_lt _ (5291729562160332) (by norm_num) (by norm_num))) (by norm_num)
  rw [← afterTicks_succ] at h47
  have h48 := tick_chain 80 (((7205759403792794 : ℤ) : ℚ) / 2 ^ 52) (((5291729562160332 : ℤ) : ℚ) / 2 ^ 46) (((5404319552844594 : ℤ) : ℚ) / 2 ^ 46) _ h47.1
    increment_eighty (toDouble_eq_of_scaled _ 46 (5404319552844594) (by norm_num) (by norm_num) (by norm_num) (roundHalfEven_eq_of_lt _ (5404319552844594) (by norm_num) (by norm_num))) (by norm_num)
  rw [← afterTicks_succ] at h48
  have h49 := tick_chain 80 (((7205759403792794 : ℤ) : ℚ) / 2 ^ 52) (((5404319552844594 : ℤ) : ℚ) / 2 ^ 46) (((5516909543528856 : ℤ) : ℚ) / 2 ^ 46) _ h48.1
    increment_eighty (toDouble_eq_of_scaled _ 46 (5516909543528856) (by norm_num) (by norm_num) (by norm_num) (roundHalfEven_eq_of_lt _ (5516909543528856) (by norm_num) (by norm_num))) (by norm_num)
  rw [← afterTicks_succ] at h49
  have h50 := tick_chain 80 (((7205759403792794 : ℤ) : ℚ) / 2 ^ 52) (((5516909543528856 : ℤ) : ℚ) / 2 ^ 46) (((5629499534213118 : ℤ) : ℚ) / 2 ^ 46) _ h49.1
    increment_eighty (toDouble_eq_of_scaled _ 46 (5629499534213118) (by norm_num) (by norm_num) (by norm_num) (roundHalfEven_eq_of_lt _ (5629499534213118) (by norm_num) (by norm_num))) (by norm_num)
  rw [← afterTicks_succ] at h50
  exact ⟨h15.2, h50.1.1, h50.1.2⟩

/-- With target `NaN` the interval is never cleared. -/
theorem afterTicks_nan_active (k : Nat) :
    (afterTicks JSNum.nan k).timerActive = true ∧
    (afterTicks JSNum.nan k).start.ge JSNum.nan = false := by
  have hge : ∀ x : JSNum, x.ge JSNum.nan = false := by
    intro x; cases x <;> rfl
  have hadd : ∀ x : JSNum, x.add JSNum.nan = JSNum.nan := by
    intro x; cases x <;> rfl
  induction k with
  | zero => exact ⟨rfl, rfl⟩
  | succ k ih =>
    rw [afterTicks_succ]
    simp [tick, ih.1, JSNum.div50, hadd, hge]

/-- When the first sum already reaches the target, the first tick stops the
counter. -/
theorem stops_at_one (target : JSNum)
    (h : ((JSNum.fin 0).add target.div50).ge target = true) :
    (afterTicks target 1).start.ge target = true ∧
    (afterTicks target 1).timerActive = false ∧
    ∀ j, 1 ≤ j → afterTicks target j = afterTicks target 1 := by
  have h1 : afterTicks target 1
      = { start := (JSNum.fin 0).add target.div50, textContent := some target,
          timerActive := false } := by
    have h0 : afterTicks target 0 = animateCounter := rfl
    rw [afterTicks_succ, h0]
    simp [tick, animateCounter, h]
  refine ⟨by rw [h1]; exact h, by rw [h1], ?_⟩
  intro j hj
  exact afterTicks_stable target 1 (by rw [h1]) j hj

/-- A negative value of the normal range rounds to `-Infinity` or to a finite
value within `2 ^ -53` of it, relatively. -/
theorem toDouble_neg_cases (x : ℚ) (hx : x ≤ -(2 : ℚ) ^ (-1022 : ℤ)) :
    toDouble x = JSNum.negInf ∨
    ∃ q, toDouble x = JSNum.fin q ∧ -(2 : ℚ) ^ 1024 < q ∧
      x * (1 + 1 / 2 ^ 53) ≤ q ∧ q ≤ x * (1 - 1 / 2 ^ 53) := by
  have hp : (0 : ℚ) < 2 ^ (-1022 : ℤ) := zpow_pos (by norm_num) _
  have hneg : x < 0 := by linarith
  have habs : |x| = -x := abs_of_neg hneg
  have herr := roundToDouble_abs_sub_le x (by rw [habs]; linarith)
  rw [habs, abs_le] at herr
  obtain ⟨hlo, hhi⟩ := herr
  have hlo' : x * (1 + 1 / 2 ^ 53) ≤ roundToDouble x := by linarith
  have hhi' : roundToDouble x ≤ x * (1 - 1 / 2 ^ 53) := by linarith
  have hq0 : roundToDouble x ≤ 0 := by
    have : x * (1 - 1 / 2 ^ 53) ≤ 0 :=
      mul_nonpos_of_nonpos_of_nonneg hneg.le (by norm_num)
    linarith
  have h1 : ¬ ((2 : ℚ) ^ 1024 ≤ roundToDouble x) := by
    intro h
    have : (0 : ℚ) < 2 ^ 1024 := by positivity
    linarith
  unfold toDouble
  rw [if_neg h1]
  by_cases h2 : roundToDouble x ≤ -(2 : ℚ) ^ 1024
  · left
    rw [if_pos h2]
  · right
    rw [if_neg h2]
    exact ⟨_, rfl, not_le.1 h2, hlo', hhi'⟩

theorem neg_tiny_le : -((1 : ℚ) / 200) ≤ -(2 : ℚ) ^ (-1022 : ℤ) := by
  have := tiny_le
  linarith

/-- A finite negative target of magnitude at least `1/2` is reached by the
first sum. -/
theorem first_sum_reaches_of_neg (T : ℚ) (hT : T ≤ -(1 / 2)) (hT2 : -(2 : ℚ) ^ 1024 < T) :
    ((JSNum.fin 0).add (JSNum.fin T).div50).ge (JSNum.fin T) = true := by
  have hfac : ((1 : ℚ) + 1 / 2 ^ 53) * (1 + 1 / 2 ^ 53) / 50 ≤ 1 := by norm_num
  have hfac1 : ((1 : ℚ) + 1 / 2 ^ 53) / 50 ≤ 1 := by norm_num
  have hTneg : T < 0 := by linarith
  have hx : T / 50 ≤ -(2 : ℚ) ^ (-1022 : ℤ) := le_trans (by linarith) neg_tiny_le
  have hov : -(2 : ℚ) ^ 1024 < T / 50 * (1 + 1 / 2 ^ 53) := by
    have : T * 1 ≤ T * ((1 + 1 / 2 ^ 53) / 50) :=
      mul_le_mul_of_nonpos_left hfac1 hTneg.le
    have h2 : T * ((1 + 1 / 2 ^ 53) / 50) = T / 50 * (1 + 1 / 2 ^ 53) := by ring
    linarith
  obtain ⟨i, hi, hilo, hihi⟩ := toDouble_neg_fin (T / 50) hx hov
  have hi200 : i ≤ -((1 : ℚ) / 200) := by
    have h1 : T / 50 ≤ -(1 / 100) := by linarith
    have h2 : T / 50 * (1 - 1 / 2 ^ 53) ≤ -(1 / 100) * (1 - 1 / 2 ^ 53) :=
      mul_le_mul_of_nonneg_right h1 (by norm_num)
    have h3 : -((1 : ℚ) / 100) * (1 - 1 / 2 ^ 53) ≤ -(1 / 200) := by norm_num
    linarith
  have hreach : T ≤ i * (1 + 1 / 2 ^ 53) := by
    have h1 : T / 50 * (1 + 1 / 2 ^ 53) * (1 + 1 / 2 ^ 53) ≤ i * (1 + 1 / 2 ^ 53) :=
      mul_le_mul_of_nonneg_right hilo (by norm_num)
    have h2 : T * 1 ≤ T * ((1 + 1 / 2 ^ 53) * (1 + 1 / 2 ^ 53) / 50) :=
      mul_le_mul_of_nonpos_left hfac hTneg.le
    have h3 : T * ((1 + 1 / 2 ^ 53) * (1 + 1 / 2 ^ 53) / 50)
        = T / 50 * (1 + 1 / 2 ^ 53) * (1 + 1 / 2 ^ 53) := by ring
    linarith
  obtain ⟨s, hs, hslo, _⟩ := toDouble_neg_fin i (le_trans hi200 neg_tiny_le)
    (by linarith)
  have hsum : (JSNum.fin 0).add (JSNum.fin T).div50 = JSNum.fin s := by
    simp only [JSNum.div50, hi, JSNum.add, zero_add, hs]
  rw [hsum]
  have : T ≤ s := le_trans hreach hslo
  simp [JSNum.ge, this]

theorem toDouble_ne_nan (x : ℚ) : toDouble x ≠ JSNum.nan := by
  unfold toDouble
  split
  · intro h; cases h
  · split <;> intro h <;> cases h

/-- The counter stops within 51 ticks for every target that is the binary64
value of an integer. -/
theorem counter_terminates_of_int (n : ℤ) :
    ∃ K, 1 ≤ K ∧ K ≤ 51 ∧
      (afterTicks (toDouble (n : ℚ)) K).start.ge (toDouble (n : ℚ)) = true ∧
      (afterTicks (toDouble (n : ℚ)) K).timerActive = false ∧
      ∀ j, K ≤ j → afterTicks (toDouble (n : ℚ)) j = afterTicks (toDouble (n : ℚ)) K := by
  have hone : ∀ t : JSNum, ((JSNum.fin 0).add t.div50).ge t = true →
      ∃ K, 1 ≤ K ∧ K ≤ 51 ∧ (afterTicks t K).start.ge t = true ∧
        (afterTicks t K).timerActive = false ∧
        ∀ j, K ≤ j → afterTicks t j = afterTicks t K := by
    intro t h
    obtain ⟨h1, h2, h3⟩ := stops_at_one t h
    exact ⟨1, le_refl _, by norm_num, h1, h2, h3⟩
  rcases lt_trichotomy n 0 with hneg | hzero | hpos
  · have hn : (n : ℚ) ≤ -1 := by
      have : n ≤ -1 := by omega
      exact_mod_cast this
    rcases toDouble_neg_cases (n : ℚ) (le_trans (by linarith) neg_tiny_le) with
      hinf | ⟨q, hq, hq2, _, hqhi⟩
    · rw [hinf]
      exact hone _ rfl
    · rw [hq]
      apply hone
      apply first_sum_reaches_of_neg q _ hq2
      have h1 : (n : ℚ) * (1 - 1 / 2 ^ 53) ≤ -1 * (1 - 1 / 2 ^ 53) :=
        mul_le_mul_of_nonneg_right hn (by norm_num)
      have h2 : -(1 : ℚ) * (1 - 1 / 2 ^ 53) ≤ -(1 / 2) := by norm_num
      linarith
  · rw [hzero, Int.cast_zero, toDouble_zero]
    apply hone
    simp [JSNum.div50, JSNum.add, toDouble_zero, JSNum.ge]
  · have hn : (1 : ℚ) ≤ (n : ℚ) := by
      have : 1 ≤ n := by omega
      exact_mod_cast this
    rcases toDouble_pos_cases (n : ℚ) (le_trans tiny_le (by linarith)) with
      ⟨hinf, _⟩ | ⟨q, hq, hq2, hqlo, _⟩
    · rw [hinf]
      exact hone _ rfl
    · rw [hq]
      have hhalf : (1 : ℚ) / 2 ≤ q := by
        have h1 : 1 * (1 - 1 / 2 ^ 53) ≤ (n : ℚ) * (1 - 1 / 2 ^ 53) :=
          mul_le_mul_of_nonneg_right hn (by norm_num)
        have h2 : (1 : ℚ) / 2 ≤ 1 * (1 - 1 / 2 ^ 53) := by norm_num
        linarith
      obtain ⟨K, hK, _, hstop, hstable⟩ := counter_stops q hhalf hq2
      refine ⟨K, ?_, ?_, hstop.2.2, hstop.1, hstable⟩
      · rcases hK with h | h <;> omega
      · rcases hK with h | h <;> omega

/-- From one tick to the next the number shown does not decrease, for an
integer target. -/
theorem display_step (target : ℕ) (htarget : 0 < target) (hfinite : target < 2 ^ 1024)
    (k : Nat) (a b : ℚ)
    (ha : (afterTicks (JSNum.fin (target : ℚ)) k).textContent = some (JSNum.fin a))
    (hb : (afterTicks (JSNum.fin (target : ℚ)) (k + 1)).textContent = some (JSNum.fin b)) :
    a ≤ b := by
  have hT : (1 : ℚ) / 2 ≤ (target : ℚ) := by
    have : (1 : ℚ) ≤ (target : ℚ) := by exact_mod_cast htarget
    linarith
  have hT2 : (target : ℚ) < 2 ^ 1024 := by exact_mod_cast hfinite
  obtain ⟨i, hi, hilo, _⟩ := increment_bounds _ hT hT2
  rw [afterTicks_succ] at hb
  rcases counter_running_or_stopped _ hT hT2 k with hstop | ⟨s, hrun, _⟩
  · rw [tick_of_inactive _ _ hstop.1, ha] at hb
    simp only [Option.some.injEq, JSNum.fin.injEq] at hb
    exact hb.le
  · have has : a = ((⌈s⌉ : ℤ) : ℚ) := by
      rcases hrun.2.2.2.2 with hnone | hsome
      · rw [hnone] at ha; cases ha
      · rw [hsome] at ha
        simp only [Option.some.injEq, JSNum.fin.injEq] at ha
        exact ha.symm
    have hceil : ⌈s⌉ ≤ (target : ℤ) := by
      rw [Int.ceil_le]
      exact_mod_cast hrun.2.2.2.1.le
    rcases tick_of_running _ i s _ hT hi hilo hrun with ⟨h, _⟩ | ⟨q, _, _, hsq, h⟩
    · rw [h.2.1] at hb
      simp only [Option.some.injEq, JSNum.fin.injEq] at hb
      rw [has, ← hb]
      exact_mod_cast hceil
    · rcases h with ⟨_, h⟩ | ⟨_, _, htxt⟩
      · rw [h.2.1] at hb
        simp only [Option.some.injEq, JSNum.fin.injEq] at hb
        rw [has, ← hb]
        exact_mod_cast hceil
      · rw [htxt] at hb
        simp only [Option.some.injEq, JSNum.fin.injEq] at hb
        rw [has, ← hb]
        exact_mod_cast Int.ceil_le_ceil hsq

/-- After every tick the element shows an integer not greater than an integer
target. -/
theorem display_integer (target : ℕ) (htarget : 0 < target) (hfinite : target < 2 ^ 1024)
    (k : Nat) (hk : 1 ≤ k) :
    ∃ n : ℤ, (afterTicks (JSNum.fin (target : ℚ)) k).textContent
        = some (JSNum.fin (n : ℚ)) ∧ n ≤ (target : ℤ) := by
  have hT : (1 : ℚ) / 2 ≤ (target : ℚ) := by
    have : (1 : ℚ) ≤ (target : ℚ) := by exact_mod_cast htarget
    linarith
  have hT2 : (target : ℚ) < 2 ^ 1024 := by exact_mod_cast hfinite
  rcases counter_running_or_stopped _ hT hT2 k with hstop | ⟨s, hrun, htxt⟩
  · exact ⟨(target : ℤ), by rw [hstop.2.1, Int.cast_natCast], le_refl _⟩
  · refine ⟨⌈s⌉, htxt hk, ?_⟩
    rw [Int.ceil_le]
    exact_mod_cast hrun.2.2.2.1.le

/-! ### Claim C5: the ticks of `animateCounter` for a positive integer target -/

/-- C5 (amended): for a positive integer target in the range of finite
numbers, in the binary64 arithmetic of the script: every tick shows an
integer not greater than the target; the numbers shown are non-decreasing;
the running value first reaches the target at tick 50 or at tick 51, the
interval being registered and the running value below the target before
that; at that tick the element shows exactly the target and the interval is
cleared; and no later tick changes anything. -/
theorem animateCounter_ticks (target : ℕ) (htarget : 0 < target)
    (hfinite : target < 2 ^ 1024) :
    (∀ k, 1 ≤ k → ∃ n : ℤ,
      (afterTicks (JSNum.fin (target : ℚ)) k).textContent = some (JSNum.fin (n : ℚ)) ∧
        n ≤ (target : ℤ)) ∧
    (∀ j k, 1 ≤ j → j ≤ k → ∀ a b : ℚ,
      (afterTicks (JSNum.fin (target : ℚ)) j).textContent = some (JSNum.fin a) →
      (afterTicks (JSNum.fin (target : ℚ)) k).textContent = some (JSNum.fin b) → a ≤ b) ∧
    ∃ K, (K = 50 ∨ K = 51) ∧
      (∀ k, k < K →
        (afterTicks (JSNum.fin (target : ℚ)) k).timerActive = true ∧
        (afterTicks (JSNum.fin (target : ℚ)) k).start.ge (JSNum.fin (target : ℚ)) = false) ∧
      (afterTicks (JSNum.fin (target : ℚ)) K).start.ge (JSNum.fin (target : ℚ)) = true ∧
      (afterTicks (JSNum.fin (target : ℚ)) K).textContent
        = some (JSNum.fin (target : ℚ)) ∧
      (afterTicks (JSNum.fin (target : ℚ)) K).timerActive = false ∧
      (∀ k, K ≤ k →
        afterTicks (JSNum.fin (target : ℚ)) k = afterTicks (JSNum.fin (target : ℚ)) K) := by
  have hT : (1 : ℚ) / 2 ≤ (target : ℚ) := by
    have : (1 : ℚ) ≤ (target : ℚ) := by exact_mod_cast htarget
    linarith
  have hT2 : (target : ℚ) < 2 ^ 1024 := by exact_mod_cast hfinite
  refine ⟨display_integer target htarget hfinite, ?_, ?_⟩
  · intro j k hj hjk
    induction k with
    | zero => omega
    | succ k ih =>
      intro a b ha hb
      rcases Nat.eq_or_lt_of_le hjk with heq | hlt
      · rw [heq] at ha
        rw [ha] at hb
        simp only [Option.some.injEq, JSNum.fin.injEq] at hb
        exact hb.le
      · have hjk' : j ≤ k := by omega
        obtain ⟨n, hn, _⟩ := display_integer target htarget hfinite k (by omega)
        exact le_trans (ih hjk' a n ha hn)
          (display_step target htarget hfinite k n b hn hb)
  · obtain ⟨K, hK, hbefore, hstop, hstable⟩ := counter_stops _ hT hT2
    exact ⟨K, hK, hbefore, hstop.2.2, hstop.2.1, hstop.1, hstable⟩

/-- C5 (as stated, refuted): with target 80 the running value after tick 50 is
`5629499534213118 / 2 ^ 46`, below 80, so the interval is still registered
after tick 50 and is cleared by tick 51 only; and tick 15, whose exact running
value would be 24, shows 25. -/
theorem animateCounter_eighty_past_fifty :
    (afterTicks (JSNum.fin 80) 50).timerActive = true ∧
    (afterTicks (JSNum.fin 80) 50).start.ge (JSNum.fin 80) = false ∧
    (afterTicks (JSNum.fin 80) 51).timerActive = false ∧
    (afterTicks (JSNum.fin 80) 15).textContent = some (JSNum.fin 25) := by
  obtain ⟨h15, h50, hact⟩ := eighty_chain
  refine ⟨hact, ?_, ?_, ?_⟩
  · rw [h50]
    simp only [JSNum.ge, decide_eq_false_iff_not, ge_iff_le, not_le]
    norm_num
  · obtain ⟨K, hK, _, hstop, _⟩ := counter_stops 80 (by norm_num)
      (lt_of_lt_of_le (by norm_num : (80 : ℚ) < 2 ^ 7)
        (pow_le_pow_right₀ (by norm_num) (by norm_num)))
    rcases hK with h | h
    · subst h
      rw [hstop.1] at hact
      cases hact
    · subst h
      exact hstop.1
  · rw [h15]
    have hc : ⌈(((6755399441055745 : ℤ) : ℚ) / 2 ^ 48)⌉ = 25 := by
      rw [Int.ceil_eq_iff]
      constructor <;> norm_num
    rw [hc]
    norm_num

theorem animateCounter_ticks_witness :
    ∃ K, (K = 50 ∨ K = 51) ∧
      (∀ k, k < K →
        (afterTicks (JSNum.fin ((80 : ℕ) : ℚ)) k).timerActive = true ∧
        (afterTicks (JSNum.fin ((80 : ℕ) : ℚ)) k).start.ge (JSNum.fin ((80 : ℕ) : ℚ))
          = false) ∧
      (afterTicks (JSNum.fin ((80 : ℕ) : ℚ)) K).start.ge (JSNum.fin ((80 : ℕ) : ℚ)) = true ∧
      (afterTicks (JSNum.fin ((80 : ℕ) : ℚ)) K).textContent
        = some (JSNum.fin ((80 : ℕ) : ℚ)) ∧
      (afterTicks (JSNum.fin ((80 : ℕ) : ℚ)) K).timerActive = false ∧
      (∀ k, K ≤ k →
        afterTicks (JSNum.fin ((80 : ℕ) : ℚ)) k
          = afterTicks (JSNum.fin ((80 : ℕ) : ℚ)) K) :=
  (animateCounter_ticks 80 (by decide)
    (lt_of_lt_of_le (by decide : 80 < 2 ^ 7)
      (Nat.pow_le_pow_right (by decide) (by decide)))).2.2

theorem mem_animateSkillBars_of_mem (skillBars : List SkillBar) (bar : SkillBar)
    (hbar : bar ∈ skillBars) (progress : String)
    (hp : bar.dataProgress = some progress) (hne : progress ≠ "") :
    ∃ t ∈ animateSkillBars skillBars,
      t.width = progress ++ "%" ∧
      t.counterTarget = (if bar.hasPercentage then some (parseInt progress) else none) := by
  obtain ⟨i, hi⟩ := List.mem_iff_getElem?.1 hbar
  have hmem : (i, bar) ∈ skillBars.enum := List.mk_mem_enum_iff_getElem?.2 hi
  refine ⟨{ delay := i * 200, index := i, width := progress ++ "%",
            counterTarget := if bar.hasPercentage then some (parseInt progress) else none },
    ?_, rfl, rfl⟩
  unfold animateSkillBars
  rw [List.mem_filterMap]
  exact ⟨(i, bar), hmem, by simp [skillBarTimer, hp, hne]⟩

theorem parseInt_of_exact {s : String} {n : ℤ} (h : parseIntExact s = some n) :
    parseInt s = toDouble (n : ℚ) := by
  unfold parseInt
  rw [h]

/-! ### Claim C6: termination of the counters started by `animateSkillBars` -/

/-- C6 (as stated, refuted): the bar with `data-progress="abc"` is not skipped,
its timer starts the counter with target `parseInt("abc")`, which is `NaN`,
and after no number of ticks is the interval cleared or the target reached. -/
theorem animateSkillBars_nan_counter_never_stops :
    animateSkillBars [⟨some "abc", true⟩]
      = [{ delay := 0, index := 0, width := "abc%", counterTarget := some JSNum.nan }] ∧
    ¬ ∃ k, (afterTicks JSNum.nan k).timerActive = false ∨
      (afterTicks JSNum.nan k).start.ge JSNum.nan = true := by
  refine ⟨by decide, ?_⟩
  rintro ⟨k, h | h⟩
  · rw [(afterTicks_nan_active k).1] at h
    cases h
  · rw [(afterTicks_nan_active k).2] at h
    cases h

/-- C6 (amended): for every progress bar that `animateSkillBars` does not skip
(non-empty `data-progress`) and that has a percentage element, if
`parseInt(data-progress)` is a number (not `NaN`), a timer is registered
whose counter has that number as target, and the counter terminates: after
finitely many ticks, at most 51, the running value reaches or exceeds the
target, the interval is cleared, and no later tick changes the state. -/
theorem animateSkillBars_counter_terminates (skillBars : List SkillBar) (bar : SkillBar)
    (hbar : bar ∈ skillBars) (progress : String)
    (hprogress : bar.dataProgress = some progress) (hne : progress ≠ "")
    (hperc : bar.hasPercentage = true) (hnum : parseInt progress ≠ JSNum.nan) :
    (∃ t ∈ animateSkillBars skillBars,
      t.width = progress ++ "%" ∧ t.counterTarget = some (parseInt progress)) ∧
    ∃ k, 1 ≤ k ∧ k ≤ 51 ∧
      (afterTicks (parseInt progress) k).start.ge (parseInt progress) = true ∧
      (afterTicks (parseInt progress) k).timerActive = false ∧
      ∀ j, k ≤ j →
        afterTicks (parseInt progress) j = afterTicks (parseInt progress) k := by
  constructor
  · obtain ⟨t, ht, hw, hc⟩ := mem_animateSkillBars_of_mem skillBars bar hbar progress
      hprogress hne
    refine ⟨t, ht, hw, ?_⟩
    rw [hc, hperc]
    rfl
  · cases hexact : parseIntExact progress with
    | none =>
      exfalso
      apply hnum
      unfold parseInt
      rw [hexact]
    | some n =>
      rw [parseInt_of_exact hexact]
      exact counter_terminates_of_int n

theorem animateSkillBars_counter_terminates_witness :
    ∃ k, 1 ≤ k ∧ k ≤ 51 ∧
      (afterTicks (parseInt "80") k).start.ge (parseInt "80") = true ∧
      (afterTicks (parseInt "80") k).timerActive = false ∧
      ∀ j, k ≤ j → afterTicks (parseInt "80") j = afterTicks (parseInt "80") k :=
  (animateSkillBars_counter_terminates [⟨some "80", true⟩] ⟨some "80", true⟩
    (by decide) "80" rfl (by decide) rfl
    (by rw [parseInt_of_exact (show parseIntExact "80" = some 80 by decide)]
        exact toDouble_ne_nan _)).2

/-! ## The section observer -/

theorem handleEntry_observed (p : Page) (entry : Entry) :
    (handleEntry p entry).observed = p.observed := by
  unfold handleEntry
  split
  · split
    · rfl
    · dsimp only
      split <;> rfl
  · rfl

theorem sectionObserverCallback_observed (entries : List Entry) (p : Page) :
    (sectionObserverCallback entries p).observed = p.observed := by
  unfold sectionObserverCallback
  induction entries generalizing p with
  | nil => rfl
  | cons e es ih => rw [List.foldl_cons, ih, handleEntry_observed]

theorem handleLazyEntry_observed (p : Page) (entry : Entry) :
    (handleLazyEntry p entry).observed = p.observed := by
  unfold handleLazyEntry
  split
  · split <;> rfl
  · rfl

theorem foldl_handleLazyEntry_observed (entries : List Entry) (p : Page) :
    (entries.foldl handleLazyEntry p).observed = p.observed := by
  induction entries generalizing p with
  | nil => rfl
  | cons e es ih => rw [List.foldl_cons, ih, handleLazyEntry_observed]

theorem step_observed (p : Page) (event : PageEvent) :
    (step p event).observed = p.observed := by
  cases event with
  | intersections entries => exact sectionObserverCallback_observed _ _
  | lazyIntersections entries => exact foldl_handleLazyEntry_observed _ _
  | toggleClick =>
    simp only [step, toggleMobileMenu]
    split <;> rfl
  | menuClick b =>
    simp only [step]
    split <;> rfl
  | keydown key =>
    simp only [step]
    split <;> rfl
  | navLinkClick i found =>
    simp only [step, handleNavLinkClick]
    split
    · rfl
    · split
      · rfl
      · split <;> rfl
  | resizeTimer =>
    simp only [step, resizeAction]
    split <;> rfl
  | scroll _ => rfl
  | windowResize _ => rfl
  | closeClick => rfl
  | loadingComplete => rfl
  | other => rfl

/-! ### Claim C7: the section watcher is not one-shot -/

/-- C7 (the code at the failing input): no event ever changes the set of
targets of `sectionObserver`, which has no `unobserve`; and on a page whose
second section is `projects`, that section scrolling into view, out of view
and into view again calls `animateSkillBars` twice, the section still being
observed afterwards. -/
theorem sectionObserver_replays_animation :
    (∀ (p : Page) (events : List PageEvent), (runEvents p events).observed = p.observed) ∧
    (runEvents (initSectionAnimations twoSectionPage)
        [PageEvent.intersections [⟨1, true⟩], PageEvent.intersections [⟨1, false⟩],
          PageEvent.intersections [⟨1, true⟩]]).animationCalls
      = ["animateSkillBars", "animateSkillBars"] ∧
    (runEvents (initSectionAnimations twoSectionPage)
        [PageEvent.intersections [⟨1, true⟩], PageEvent.intersections [⟨1, false⟩],
          PageEvent.intersections [⟨1, true⟩]]).observed
      = [0, 1] := by
  refine ⟨?_, by decide, by decide⟩
  intro p events
  unfold runEvents
  induction events generalizing p with
  | nil => rfl
  | cons e es ih => rw [List.foldl_cons, ih, step_observed]

/-! ## The reveal class -/

theorem handleEntry_revealed (p : Page) (entry : Entry) (i : Nat) (h : Revealed p i) :
    Revealed (handleEntry p entry) i := by
  obtain ⟨s, hs, hc⟩ := h
  unfold handleEntry
  split
  · split
    · exact ⟨s, hs, hc⟩
    · rename_i target htarget
      have key : Revealed
          { p with
            sections := p.sections.set entry.target
              { target with classList := classAdd "fade-in-up" target.classList } } i := by
        unfold Revealed
        dsimp only
        by_cases hi : entry.target = i
        · subst hi
          have hlt : entry.target < p.sections.length := by
            rcases List.getElem?_eq_some_iff.1 htarget with ⟨hlt, _⟩
            exact hlt
          refine ⟨{ target with classList := classAdd "fade-in-up" target.classList }, ?_, ?_⟩
          · rw [List.getElem?_set_self hlt]
          · exact (mem_classAdd _ _ _).2 (Or.inl rfl)
        · refine ⟨s, ?_, hc⟩
          rw [List.getElem?_set_ne hi]
          exact hs
      dsimp only
      split
      · obtain ⟨s', hs', hc'⟩ := key
        exact ⟨s', hs', hc'⟩
      · exact key
  · exact ⟨s, hs, hc⟩

theorem sectionObserverCallback_revealed (entries : List Entry) (p : Page) (i : Nat)
    (h : Revealed p i) : Revealed (sectionObserverCallback entries p) i := by
  unfold sectionObserverCallback
  induction entries generalizing p with
  | nil => exact h
  | cons e es ih =>
    rw [List.foldl_cons]
    exact ih _ (handleEntry_revealed p e i h)

theorem revealed_of_sections_eq {p q : Page} (hq : q.sections = p.sections) (i : Nat)
    (h : Revealed p i) : Revealed q i := by
  unfold Revealed at *
  rw [hq]
  exact h

theorem handleLazyEntry_revealed (p : Page) (entry : Entry) (i : Nat) (h : Revealed p i) :
    Revealed (handleLazyEntry p entry) i := by
  obtain ⟨s, hs, hc⟩ := h
  unfold handleLazyEntry
  split
  · split
    · exact ⟨s, hs, hc⟩
    · rename_i element helement
      unfold Revealed
      dsimp only
      by_cases hi : entry.target = i
      · subst hi
        have hlt : entry.target < p.sections.length :=
          (List.getElem?_eq_some_iff.1 helement).1
        rw [hs] at helement
        cases helement
        refine ⟨{ s with classList := classAdd "loaded" s.classList }, ?_, ?_⟩
        · rw [List.getElem?_set_self hlt]
        · exact (mem_classAdd _ _ _).2 (Or.inr hc)
      · refine ⟨s, ?_, hc⟩
        rw [List.getElem?_set_ne hi]
        exact hs
  · exact ⟨s, hs, hc⟩

theorem foldl_handleLazyEntry_revealed (entries : List Entry) (p : Page) (i : Nat)
    (h : Revealed p i) : Revealed (entries.foldl handleLazyEntry p) i := by
  induction entries generalizing p with
  | nil => exact h
  | cons e es ih =>
    rw [List.foldl_cons]
    exact ih _ (handleLazyEntry_revealed p e i h)

theorem step_revealed (p : Page) (event : PageEvent) (i : Nat) (h : Revealed p i) :
    Revealed (step p event) i := by
  cases event with
  | intersections entries => exact sectionObserverCallback_revealed _ _ i h
  | lazyIntersections entries => exact foldl_handleLazyEntry_revealed _ _ i h
  | toggleClick =>
    refine revealed_of_sections_eq ?_ i h
    simp only [step, toggleMobileMenu]
    split <;> rfl
  | menuClick b =>
    refine revealed_of_sections_eq ?_ i h
    simp only [step]
    split <;> rfl
  | keydown key =>
    refine revealed_of_sections_eq ?_ i h
    simp only [step]
    split <;> rfl
  | navLinkClick j found =>
    refine revealed_of_sections_eq ?_ i h
    simp only [step, handleNavLinkClick]
    split
    · rfl
    · split
      · rfl
      · split <;> rfl
  | resizeTimer =>
    refine revealed_of_sections_eq ?_ i h
    simp only [step, resizeAction]
    split <;> rfl
  | scroll _ => exact revealed_of_sections_eq rfl i h
  | windowResize _ => exact revealed_of_sections_eq rfl i h
  | closeClick => exact revealed_of_sections_eq rfl i h
  | loadingComplete => exact revealed_of_sections_eq rfl i h
  | other => exact revealed_of_sections_eq rfl i h

/-! ### Claim C8: the reveal class is never removed -/

/-- C8: once the section at ordinal `i` carries `fade-in-up`, it still carries
it after any sequence of events handled by the script, intersection
notifications with either flag included. -/
theorem fadeInUp_never_removed (p : Page) (events : List PageEvent) (i : Nat)
    (h : Revealed p i) : Revealed (runEvents p events) i := by
  unfold runEvents
  induction events generalizing p with
  | nil => exact h
  | cons e es ih =>
    rw [List.foldl_cons]
    exact ih _ (step_revealed p e i h)

theorem fadeInUp_never_removed_witness :
    Revealed
      (runEvents
        (runEvents (initSectionAnimations twoSectionPage)
          [PageEvent.intersections [⟨1, true⟩]])
        [PageEvent.scroll 900, PageEvent.intersections [⟨1, false⟩], PageEvent.toggleClick,
          PageEvent.intersections [⟨1, true⟩], PageEvent.keydown "Escape"]) 1 :=
  fadeInUp_never_removed _ _ 1
    ⟨⟨some "projects", 800, 900, ["section", "fade-in-up"]⟩, by decide, by decide⟩

/-! ## The debounced resize listener -/

theorem debounceRun_burst (func : Page → Page) (p : Page) (calls : List Nat) (t0 : Nat)
    (events : List Nat)
    (hgap : List.Chain (fun a b => a ≤ b ∧ b < a + 250) t0 events) :
    debounceRun func 250 false events { timeout := some (t0 + 250), calls := calls, world := p }
      = { timeout := some ((t0 :: events).getLast (List.cons_ne_nil _ _) + 250),
          calls := calls, world := p } := by
  induction events generalizing t0 with
  | nil => rfl
  | cons t rest ih =>
    rw [List.chain_cons] at hgap
    obtain ⟨⟨_, hlt⟩, hrest⟩ := hgap
    have hnot : ¬ (t0 + 250 ≤ t) := by omega
    have hstep : debounceCall func 250 false t
        (debounceAdvance func false t
          { timeout := some (t0 + 250), calls := calls, world := p })
        = { timeout := some (t + 250), calls := calls, world := p } := by
      simp [debounceAdvance, debounceCall, hnot]
    unfold debounceRun
    rw [List.foldl_cons, hstep]
    have := ih t hrest
    unfold debounceRun at this
    rw [this, List.getLast_cons (List.cons_ne_nil _ _)]

theorem resizeAction_of_open (p : Page) (hopen : "show-menu" ∈ p.navMenu)
    (hwide : 768 ≤ p.window.innerWidth) : resizeAction p = closeMobileMenu p := by
  simp [resizeAction, classContains, hopen, hwide]

/-! ### Claim C9: a burst of resize events closes the menu once, 250 after the last -/

/-- C9: for a non-empty sequence of resize events, each less than 250 time
units after the previous one, with the menu open and the window at least 768
wide: while the burst lasts the debounced function has not run and the page
is untouched, a timer being registered for 250 after the last event; when
that timer runs, the action has run exactly once, at that time, its effect is
`closeMobileMenu`, the menu is closed and no timer is left. -/
theorem resize_burst_closes_once (p : Page) (events : List Nat) (hne : events ≠ [])
    (hgap : List.Chain' (fun a b => a ≤ b ∧ b < a + 250) events)
    (hopen : "show-menu" ∈ p.navMenu) (hwide : 768 ≤ p.window.innerWidth) :
    (resizeBurst events p).calls = [] ∧
    (resizeBurst events p).world = p ∧
    (resizeBurst events p).timeout = some (events.getLast hne + 250) ∧
    (debounceSettle resizeAction false (resizeBurst events p)).calls
      = [events.getLast hne + 250] ∧
    (debounceSettle resizeAction false (resizeBurst events p)).world = closeMobileMenu p ∧
    "show-menu" ∉ (debounceSettle resizeAction false (resizeBurst events p)).world.navMenu ∧
    (debounceSettle resizeAction false (resizeBurst events p)).timeout = none := by
  cases events with
  | nil => exact absurd rfl hne
  | cons t rest =>
    have hchain : List.Chain (fun a b => a ≤ b ∧ b < a + 250) t rest := hgap
    have hfirst : debounceCall resizeAction 250 false t
        (debounceAdvance resizeAction false t (handleResize p))
        = { timeout := some (t + 250), calls := [], world := p } := by
      simp [debounceAdvance, debounceCall, handleResize]
    have hburst : resizeBurst (t :: rest) p
        = { timeout := some ((t :: rest).getLast hne + 250), calls := [], world := p } := by
      unfold resizeBurst debounceRun
      rw [List.foldl_cons, hfirst]
      exact debounceRun_burst resizeAction p [] t rest hchain
    rw [hburst]
    refine ⟨rfl, rfl, rfl, ?_, ?_, ?_, ?_⟩
    · simp [debounceSettle, debounceLater]
    · simp [debounceSettle, debounceLater, resizeAction_of_open p hopen hwide]
    · simp [debounceSettle, debounceLater, resizeAction_of_open p hopen hwide,
        closeMobileMenu, mem_classRemove]
    · simp [debounceSettle, debounceLater]

theorem resize_burst_closes_once_witness :
    (debounceSettle resizeAction false
        (resizeBurst [1000, 1100, 1249, 1400]
          (toggleMobileMenu twoSectionPage))).calls = [1650] :=
  (resize_burst_closes_once (toggleMobileMenu twoSectionPage) [1000, 1100, 1249, 1400]
    (by decide) (by simp) (by decide) (by decide)).2.2.2.1

/-! ### Claim C11: which section wins when several match -/

/-- C11 (as stated, refuted): at scroll offset `50` the position `200` lies in
the ranges of both sections; `skills` is the first of them in document order,
yet after `handleNavLinkHighlight` the link of `skills` is not active and the
link of `projects`, the later section, is. -/
theorem handleNavLinkHighlight_first_match_loses :
    matchCount ((⟨50, 50, 1024⟩ : Window).scrollY + 150)
        [⟨some "skills", 0, 2000, []⟩, ⟨some "projects", 100, 400, []⟩] = 2 ∧
    firstMatching ((⟨50, 50, 1024⟩ : Window).scrollY + 150)
        [⟨some "skills", 0, 2000, []⟩, ⟨some "projects", 100, 400, []⟩]
      = some ⟨some "skills", 0, 2000, []⟩ ∧
    handleNavLinkHighlight ⟨50, 50, 1024⟩
        [⟨some "skills", 0, 2000, []⟩, ⟨some "projects", 100, 400, []⟩]
        [⟨some "#skills", ["nav__link"]⟩, ⟨some "#projects", ["nav__link"]⟩]
      = [⟨some "#skills", ["nav__link"]⟩, ⟨some "#projects", ["nav__link", "active"]⟩] := by
  decide

/-- C11 (amended): when more than one section's range contains `scrollY + 150`,
the links left active by `handleNavLinkHighlight` are exactly those whose href
is `'#' + id` of the last matching section in document order; a link for the
first matching section is left inactive unless both sections give the same
href. -/
theorem handleNavLinkHighlight_last_match_wins (w : Window) (sections : List Section)
    (navLinks : List NavLink) (first last : Section)
    (hmany : 1 < matchCount (w.scrollY + 150) sections)
    (hfirst : firstMatching (w.scrollY + 150) sections = some first)
    (hlast : lastMatching (w.scrollY + 150) sections = some last) :
    (∃ between : List Section,
      sections.filter (sectionMatches (w.scrollY + 150)) = first :: between ++ [last]) ∧
    (∀ link ∈ handleNavLinkHighlight w sections navLinks,
      link.isActive = true ↔ link.href = some (sectionHash last)) ∧
    (sectionHash first ≠ sectionHash last →
      ∀ link ∈ handleNavLinkHighlight w sections navLinks,
        link.href = some (sectionHash first) → link.isActive = false) := by
  have hshape : ∃ between : List Section,
      sections.filter (sectionMatches (w.scrollY + 150)) = first :: between ++ [last] := by
    unfold matchCount at hmany
    unfold firstMatching at hfirst
    unfold lastMatching at hlast
    generalize sections.filter (sectionMatches (w.scrollY + 150)) = l at hmany hfirst hlast
    match l, hmany, hfirst, hlast with
    | a :: b :: t, _, hf, hl =>
      simp only [List.head?_cons, Option.some.injEq] at hf
      subst hf
      rw [List.getLast?_cons_cons] at hl
      have := List.dropLast_append_getLast? last hl
      exact ⟨(b :: t).dropLast, by rw [List.cons_append, this]⟩
  have hiff : ∀ link ∈ handleNavLinkHighlight w sections navLinks,
      link.isActive = true ↔ link.href = some (sectionHash last) := by
    rw [handleNavLinkHighlight_eq, hlast]
    intro link hl
    obtain ⟨b, _, rfl⟩ := List.mem_map.1 hl
    rw [updateLink_isActive, updateLink_href]
  refine ⟨hshape, hiff, ?_⟩
  intro hne link hl hhref
  rw [Bool.eq_false_iff]
  intro hact
  have := (hiff link hl).1 hact
  rw [hhref] at this
  exact hne (Option.some.inj this)

theorem handleNavLinkHighlight_last_match_wins_witness :
    NavLink.isActive ⟨some "#skills", ["nav__link"]⟩ = false :=
  (handleNavLinkHighlight_last_match_wins ⟨50, 50, 1024⟩
    [⟨some "skills", 0, 2000, []⟩, ⟨some "projects", 100, 400, []⟩]
    [⟨some "#skills", ["nav__link", "active"]⟩, ⟨some "#projects", ["nav__link"]⟩]
    ⟨some "skills", 0, 2000, []⟩ ⟨some "projects", 100, 400, []⟩
    (by decide) (by decide) (by decide)).2.2 (by decide)
    ⟨some "#skills", ["nav__link"]⟩ (by decide) rfl

/-! ## The stagger timers -/

theorem enum_map_eq_range_map {α β : Type} (f : Nat → β) (l : List α) :
    l.enum.map (fun p => f p.1) = (List.range l.length).map f := by
  rw [← List.enum_map_fst l, List.map_map]
  rfl

theorem animateInterestCards_eq (cards : List Card) :
    animateInterestCards cards
      = (List.range cards.length).map (fun i => { delay := i * 100, index := i }) :=
  enum_map_eq_range_map (fun i => ({ delay := i * 100, index := i } : CardTimer)) cards

theorem animateExperienceCards_eq (cards : List Card) :
    animateExperienceCards cards
      = (List.range cards.length).map (fun i => { delay := i * 150, index := i }) :=
  enum_map_eq_range_map (fun i => ({ delay := i * 150, index := i } : CardTimer)) cards

/-- A timer of `animateSkillBars` comes from a bar at its ordinal, with a
non-empty attribute. -/
theorem mem_animateSkillBars (skillBars : List SkillBar) (t : SkillTimer) :
    t ∈ animateSkillBars skillBars ↔
      ∃ bar progress, skillBars[t.index]? = some bar ∧ bar.dataProgress = some progress ∧
        progress ≠ "" ∧
        t = { delay := t.index * 200, index := t.index, width := progress ++ "%",
              counterTarget :=
                if bar.hasPercentage then some (parseInt progress) else none } := by
  unfold animateSkillBars
  rw [List.mem_filterMap]
  constructor
  · rintro ⟨⟨i, bar⟩, hmem, ht⟩
    have hget := List.mk_mem_enum_iff_getElem?.1 hmem
    unfold skillBarTimer at ht
    dsimp only at ht
    cases hp : bar.dataProgress with
    | none => rw [hp] at ht; cases ht
    | some progress =>
      rw [hp] at ht
      dsimp only at ht
      by_cases he : progress = ""
      · rw [if_pos he] at ht; cases ht
      · rw [if_neg he] at ht
        cases ht
        exact ⟨bar, progress, hget, hp, he, rfl⟩
  · rintro ⟨bar, progress, hget, hp, he, ht⟩
    refine ⟨(t.index, bar), List.mk_mem_enum_iff_getElem?.2 hget, ?_⟩
    rw [ht]
    simp [skillBarTimer, hp, he]

theorem skillBarTimer_eq_none {i : Nat} {bar : SkillBar}
    (h : bar.dataProgress = none ∨ bar.dataProgress = some "") :
    skillBarTimer i bar = none := by
  rcases h with h | h <;> simp [skillBarTimer, h]

theorem skillTimer_indices_sublist (n : Nat) (skillBars : List SkillBar) :
    (((skillBars.enumFrom n).filterMap (fun p => skillBarTimer p.1 p.2)).map
        SkillTimer.index).Sublist
      ((skillBars.enumFrom n).map Prod.fst) := by
  induction skillBars generalizing n with
  | nil => exact List.Sublist.slnil
  | cons bar rest ih =>
    rw [List.enumFrom_cons, List.map_cons, List.filterMap_cons]
    cases ht : skillBarTimer n bar with
    | none => exact List.Sublist.cons _ (ih (n + 1))
    | some t =>
      have hidx : t.index = n := by
        unfold skillBarTimer at ht
        cases hp : bar.dataProgress with
        | none => rw [hp] at ht; cases ht
        | some progress =>
          rw [hp] at ht
          dsimp only at ht
          by_cases he : progress = ""
          · rw [if_pos he] at ht; cases ht
          · rw [if_neg he] at ht
            cases ht
            rfl
      dsimp only
      rw [List.map_cons, hidx]
      exact List.Sublist.cons₂ _ (ih (n + 1))

theorem animateSkillBars_indices_nodup (skillBars : List SkillBar) :
    ((animateSkillBars skillBars).map SkillTimer.index).Nodup := by
  have h := skillTimer_indices_sublist 0 skillBars
  have hr : (skillBars.enumFrom 0).map Prod.fst = List.range skillBars.length :=
    List.enum_map_fst skillBars
  rw [hr] at h
  exact List.Nodup.sublist h (List.nodup_range _)

/-! ### Claim C12: the delay of the element at ordinal `i` -/

/-- C12 (as stated, refuted): of two progress bars the first has no
`data-progress` attribute; `animateSkillBars` registers one timer only, for
the bar at ordinal 1, and none for the bar at ordinal 0. -/
theorem animateSkillBars_unscheduled_ordinal :
    animateSkillBars [⟨none, true⟩, ⟨some "80", false⟩]
      = [{ delay := 200, index := 1, width := "80%", counterTarget := none }] ∧
    ¬ ∃ t ∈ animateSkillBars [⟨none, true⟩, ⟨some "80", false⟩], t.index = 0 := by
  decide

/-- C12 (amended): when a group is triggered, every interest card at ordinal
`i` gets exactly one timer, with delay `i * 100`, and every experience card
one with delay `i * 150`; every progress bar at ordinal `i` whose
`data-progress` attribute is present and non-empty gets a timer with delay
`i * 200` that sets its width, no bar gets two timers and every timer of the
bars has delay `200` times its ordinal.  So ordinal 0 has delay 0 and the
delays strictly increase with the ordinal. -/
theorem stagger_delay_of_ordinal (interestCards experienceCards : List Card)
    (skillBars : List SkillBar) :
    ((animateInterestCards interestCards).length = interestCards.length ∧
      ∀ i, i < interestCards.length →
        (animateInterestCards interestCards)[i]? = some { delay := i * 100, index := i }) ∧
    ((animateExperienceCards experienceCards).length = experienceCards.length ∧
      ∀ i, i < experienceCards.length →
        (animateExperienceCards experienceCards)[i]?
          = some { delay := i * 150, index := i }) ∧
    (∀ i bar progress, skillBars[i]? = some bar → bar.dataProgress = some progress →
      progress ≠ "" →
        ∃ t ∈ animateSkillBars skillBars,
          t.index = i ∧ t.delay = i * 200 ∧ t.width = progress ++ "%") ∧
    ((animateSkillBars skillBars).map SkillTimer.index).Nodup ∧
    (∀ t ∈ animateSkillBars skillBars, t.delay = t.index * 200) ∧
    (∀ t ∈ animateSkillBars skillBars, t.index = 0 → t.delay = 0) ∧
    (∀ t ∈ animateSkillBars skillBars, ∀ u ∈ animateSkillBars skillBars,
      t.index < u.index → t.delay < u.delay) ∧
    (∀ i j : Nat, i < j → i * 100 < j * 100 ∧ i * 150 < j * 150 ∧ i * 200 < j * 200) := by
  have hdelay : ∀ t ∈ animateSkillBars skillBars, t.delay = t.index * 200 := by
    intro t ht
    obtain ⟨bar, progress, _, _, _, heq⟩ := (mem_animateSkillBars skillBars t).1 ht
    rw [heq]
  refine ⟨⟨?_, ?_⟩, ⟨?_, ?_⟩, ?_, animateSkillBars_indices_nodup skillBars, hdelay, ?_, ?_, ?_⟩
  · rw [animateInterestCards_eq]; simp
  · intro i hi
    rw [animateInterestCards_eq]
    simp [List.getElem?_map, List.getElem?_range hi]
  · rw [animateExperienceCards_eq]; simp
  · intro i hi
    rw [animateExperienceCards_eq]
    simp [List.getElem?_map, List.getElem?_range hi]
  · intro i bar progress hget hp hne
    refine ⟨{ delay := i * 200, index := i, width := progress ++ "%",
              counterTarget := if bar.hasPercentage then some (parseInt progress) else none },
      ?_, rfl, rfl, rfl⟩
    rw [mem_animateSkillBars]
    exact ⟨bar, progress, hget, hp, hne, rfl⟩
  · intro t ht h0
    rw [hdelay t ht, h0]
  · intro t ht u hu hlt
    rw [hdelay t ht, hdelay u hu]
    omega
  · intro i j hij
    omega

theorem stagger_delay_of_ordinal_witness :
    (animateInterestCards [⟨"0", ""⟩, ⟨"0", ""⟩, ⟨"0", ""⟩])[2]?
      = some { delay := 2 * 100, index := 2 } ∧
    ∃ t ∈ animateSkillBars [⟨none, true⟩, ⟨some "80", false⟩],
      t.index = 1 ∧ t.delay = 1 * 200 ∧ t.width = "80" ++ "%" :=
  ⟨(stagger_delay_of_ordinal [⟨"0", ""⟩, ⟨"0", ""⟩, ⟨"0", ""⟩] []
      [⟨none, true⟩, ⟨some "80", false⟩]).1.2 2 (by decide),
   (stagger_delay_of_ordinal [] [] [⟨none, true⟩, ⟨some "80", false⟩]).2.2.1 1
      ⟨some "80", false⟩ "80" (by decide) rfl (by decide)⟩

theorem runSkillTimers_getElem?_of_not_index (timers : List SkillTimer)
    (widths : List String) (i : Nat) (h : ∀ t ∈ timers, t.index ≠ i) :
    (runSkillTimers timers widths)[i]? = widths[i]? := by
  unfold runSkillTimers
  induction timers generalizing widths with
  | nil => rfl
  | cons t rest ih =>
    rw [List.foldl_cons, ih _ (fun u hu => h u (List.mem_cons_of_mem _ hu))]
    unfold applySkillTimer
    exact List.getElem?_set_ne (h t (List.mem_cons_self _ _))

theorem animateSkillBars_append_cons (pre post : List SkillBar) (bar : SkillBar) :
    animateSkillBars (pre ++ bar :: post)
      = pre.enum.filterMap (fun p => skillBarTimer p.1 p.2)
        ++ (skillBarTimer pre.length bar).toList
        ++ (post.enumFrom (pre.length + 1)).filterMap (fun p => skillBarTimer p.1 p.2) := by
  unfold animateSkillBars
  rw [List.enum_append, List.enumFrom_cons, List.filterMap_append, List.filterMap_cons]
  cases skillBarTimer pre.length bar <;> simp

/-! ### Claim C13: a bar without `data-progress` is skipped silently -/

/-- C13: for a bar whose `data-progress` attribute is absent or empty, placed
anywhere in the list: `animateSkillBars` registers no timer for its ordinal,
so its inline width is the same after all timers have run; and the timers of
the other bars are those registered when the bar carries an attribute, with
the same ordinals and delays, in the same order, that bar's own timer left
out.  The function is total: no case raises an error. -/
theorem animateSkillBars_skips_bar (pre post : List SkillBar) (bar : SkillBar)
    (hskip : bar.dataProgress = none ∨ bar.dataProgress = some "") :
    (∀ t ∈ animateSkillBars (pre ++ bar :: post), t.index ≠ pre.length) ∧
    (∀ widths : List String,
      (runSkillTimers (animateSkillBars (pre ++ bar :: post)) widths)[pre.length]?
        = widths[pre.length]?) ∧
    ∃ before after : List SkillTimer,
      animateSkillBars (pre ++ bar :: post) = before ++ after ∧
      ∀ other : SkillBar,
        animateSkillBars (pre ++ other :: post)
          = before ++ (skillBarTimer pre.length other).toList ++ after := by
  have hnone : ∀ t ∈ animateSkillBars (pre ++ bar :: post), t.index ≠ pre.length := by
    intro t ht hidx
    obtain ⟨b, progress, hget, hp, hne, _⟩ := (mem_animateSkillBars _ t).1 ht
    rw [hidx] at hget
    have hb : b = bar := by
      rw [List.getElem?_append_right (le_refl _), Nat.sub_self] at hget
      have h0 : (bar :: post)[0]? = some bar := by simp
      rw [h0] at hget
      exact (Option.some.inj hget).symm
    subst hb
    rcases hskip with h | h
    · rw [h] at hp; cases hp
    · rw [h] at hp
      exact hne (Option.some.inj hp).symm
  refine ⟨hnone, fun widths => runSkillTimers_getElem?_of_not_index _ _ _ hnone, ?_⟩
  refine ⟨pre.enum.filterMap (fun p => skillBarTimer p.1 p.2),
    (post.enumFrom (pre.length + 1)).filterMap (fun p => skillBarTimer p.1 p.2), ?_, ?_⟩
  · rw [animateSkillBars_append_cons, skillBarTimer_eq_none hskip]
    simp
  · intro other
    exact animateSkillBars_append_cons pre post other

theorem animateSkillBars_skips_bar_witness :
    (runSkillTimers
        (animateSkillBars ([⟨some "90", false⟩] ++ ⟨none, true⟩ :: [⟨some "70", false⟩]))
        ["0%", "0%", "0%"])[[(⟨some "90", false⟩ : SkillBar)].length]?
      = ["0%", "0%", "0%"][[(⟨some "90", false⟩ : SkillBar)].length]? :=
  (animateSkillBars_skips_bar [⟨some "90", false⟩] [⟨some "70", false⟩] ⟨none, true⟩
    (Or.inl rfl)).2.1 ["0%", "0%", "0%"]

/-! ## The throttled scroll listener -/

theorem scrollStep_cases (d : Throttled Page) (e : ScrollEvent) :
    ((throttleAdvance e.time d).inThrottle = none ∧
      (scrollStep d e).calls = d.calls ++ [e.time] ∧
      (scrollStep d e).inThrottle = some (e.time + 16)) ∨
    ((throttleAdvance e.time d).inThrottle ≠ none ∧
      (scrollStep d e).calls = d.calls ∧
      (scrollStep d e).inThrottle = d.inThrottle ∧
      ∃ deadline, d.inThrottle = some deadline ∧ e.time < deadline) := by
  unfold scrollStep throttleCall throttleAdvance
  cases hd : d.inThrottle with
  | none => left; simp [hd]
  | some deadline =>
    by_cases hdue : deadline ≤ e.time
    · left; simp [hdue, hd]
    · right
      simp [hdue, hd]
      omega

theorem scrollStep_inv (d : Throttled Page) (now : Nat) (e : ScrollEvent)
    (hnow : now ≤ e.time) (h : ThrottleInv d now) : ThrottleInv (scrollStep d e) e.time := by
  obtain ⟨hchain, hlast, hempty⟩ := h
  rcases scrollStep_cases d e with ⟨hnone, hcalls, hflag⟩ | ⟨_, hcalls, hflag, deadline, hd, hlt⟩
  · refine ⟨?_, ?_, ?_⟩
    · rw [hcalls, List.chain'_append]
      refine ⟨hchain, List.chain'_singleton _, ?_⟩
      intro c hc y hy
      simp only [List.head?_cons, Option.mem_def, Option.some.injEq] at hy
      subst hy
      rcases hlast c hc with hsome | ⟨_, hle⟩
      · unfold throttleAdvance at hnone
        rw [hsome] at hnone
        dsimp only at hnone
        by_cases hdue : c + 16 ≤ e.time
        · exact hdue
        · rw [if_neg hdue] at hnone
          rw [hsome] at hnone
          cases hnone
      · omega
    · intro c hc
      have hl : (d.calls ++ [e.time]).getLast? = some e.time := by simp
      rw [hcalls, hl] at hc
      simp only [Option.mem_def, Option.some.injEq] at hc
      subst hc
      exact Or.inl hflag
    · intro hnil
      rw [hcalls] at hnil
      simp at hnil
  · refine ⟨by rw [hcalls]; exact hchain, ?_, ?_⟩
    · intro c hc
      rw [hcalls] at hc
      rw [hflag]
      rcases hlast c hc with hsome | ⟨hn, _⟩
      · exact Or.inl hsome
      · rw [hd] at hn; cases hn
    · intro hnil
      rw [hcalls] at hnil
      have := hempty hnil
      rw [hd] at this
      cases this

theorem scrollBurst_inv (events : List ScrollEvent) (d : Throttled Page) (now : Nat)
    (hsorted : List.Chain (fun a b => a ≤ b) now (events.map ScrollEvent.time))
    (h : ThrottleInv d now) :
    List.Chain' (fun a b => a + 16 ≤ b) (scrollBurst events d).calls := by
  unfold scrollBurst
  induction events generalizing d now with
  | nil => exact h.1
  | cons e rest ih =>
    rw [List.map_cons, List.chain_cons] at hsorted
    rw [List.foldl_cons]
    exact ih _ e.time hsorted.2 (scrollStep_inv d now e hsorted.1 h)

theorem scrollBurst_calls_sublist (events : List ScrollEvent) (d : Throttled Page) :
    ∃ extra : List Nat, (scrollBurst events d).calls = d.calls ++ extra ∧
      extra.Sublist (events.map ScrollEvent.time) := by
  unfold scrollBurst
  induction events generalizing d with
  | nil => exact ⟨[], by simp, List.Sublist.slnil⟩
  | cons e rest ih =>
    rw [List.foldl_cons]
    obtain ⟨extra, hx, hsub⟩ := ih (scrollStep d e)
    rcases scrollStep_cases d e with ⟨_, hcalls, _⟩ | ⟨_, hcalls, _, _⟩
    · refine ⟨e.time :: extra, ?_, ?_⟩
      · rw [hx, hcalls, List.append_assoc]; rfl
      · rw [List.map_cons]
        exact List.Sublist.cons₂ _ hsub
    · refine ⟨extra, ?_, ?_⟩
      · rw [hx, hcalls]
      · rw [List.map_cons]
        exact List.Sublist.cons _ hsub

theorem throttleAdvance_calls_world {σ : Type} (now : Nat) (d : Throttled σ) :
    (throttleAdvance now d).calls = d.calls ∧ (throttleAdvance now d).world = d.world := by
  unfold throttleAdvance
  split
  · split <;> exact ⟨rfl, rfl⟩
  · exact ⟨rfl, rfl⟩

theorem ThrottleInv_mono (d : Throttled Page) (now later : Nat) (hle : now ≤ later)
    (h : ThrottleInv d now) : ThrottleInv d later := by
  obtain ⟨hchain, hlast, hempty⟩ := h
  refine ⟨hchain, ?_, hempty⟩
  intro c hc
  rcases hlast c hc with hsome | ⟨hn, hdue⟩
  · exact Or.inl hsome
  · exact Or.inr ⟨hn, le_trans hdue hle⟩

theorem scrollBurst_throttleInv (events : List ScrollEvent) (d : Throttled Page)
    (now bound : Nat)
    (hsorted : List.Chain (fun a b => a ≤ b) now (events.map ScrollEvent.time))
    (hbound : ∀ t ∈ events.map ScrollEvent.time, t ≤ bound) (hnow : now ≤ bound)
    (h : ThrottleInv d now) : ThrottleInv (scrollBurst events d) bound := by
  unfold scrollBurst
  induction events generalizing d now with
  | nil => exact ThrottleInv_mono d now bound hnow h
  | cons e rest ih =>
    rw [List.map_cons, List.chain_cons] at hsorted
    rw [List.foldl_cons]
    refine ih _ e.time hsorted.2 ?_ ?_ (scrollStep_inv d now e hsorted.1 h)
    · intro t ht
      exact hbound t (by rw [List.map_cons]; exact List.mem_cons_of_mem _ ht)
    · exact hbound e.time (by rw [List.map_cons]; exact List.mem_cons_self _ _)

theorem scrollEffectsInit_inv (p : Page) : ThrottleInv (scrollEffectsInit p) 0 := by
  refine ⟨List.chain'_nil, ?_, fun _ => rfl⟩
  intro c hc
  simp [scrollEffectsInit] at hc

theorem scrollBurst_prefix_inv (p : Page) (pre post : List ScrollEvent) (e : ScrollEvent)
    (hsorted : List.Chain' (fun a b => a ≤ b)
      ((pre ++ e :: post).map ScrollEvent.time)) :
    ThrottleInv (scrollBurst pre (scrollEffectsInit p)) e.time := by
  have hpair : List.Pairwise (fun a b : Nat => a ≤ b)
      ((pre ++ e :: post).map ScrollEvent.time) := List.chain'_iff_pairwise.1 hsorted
  rw [List.map_append, List.pairwise_append] at hpair
  obtain ⟨hpre, _, hcross⟩ := hpair
  have hbound : ∀ t ∈ pre.map ScrollEvent.time, t ≤ e.time := by
    intro t ht
    exact hcross t ht e.time (by rw [List.map_cons]; exact List.mem_cons_self _ _)
  cases pre with
  | nil => exact ThrottleInv_mono _ 0 _ (Nat.zero_le _) (scrollEffectsInit_inv p)
  | cons a rest =>
    refine scrollBurst_throttleInv (a :: rest) (scrollEffectsInit p) 0 e.time ?_ hbound
      (Nat.zero_le _) (scrollEffectsInit_inv p)
    rw [List.map_cons, List.chain_cons]
    exact ⟨Nat.zero_le _, List.chain'_iff_pairwise.2 hpre⟩

theorem scrollBurst_snoc (pre : List ScrollEvent) (e : ScrollEvent) (d : Throttled Page) :
    scrollBurst (pre ++ [e]) d = scrollStep (scrollBurst pre d) e := by
  unfold scrollBurst
  rw [List.foldl_append]
  rfl

theorem scrollStep_of_due (d : Throttled Page) (e : ScrollEvent)
    (hdue : ∀ deadline, d.inThrottle = some deadline → deadline ≤ e.time) :
    (scrollStep d e).calls = d.calls ++ [e.time] ∧
    (scrollStep d e).world = handleScroll (setScrollOffset e.scrollY d.world) ∧
    (scrollStep d e).inThrottle = some (e.time + 16) := by
  unfold scrollStep throttleCall throttleAdvance
  cases hd : d.inThrottle with
  | none => simp [hd]
  | some deadline => simp [hd, hdue deadline hd]

theorem scrollStep_of_pending (d : Throttled Page) (e : ScrollEvent) (deadline : Nat)
    (hd : d.inThrottle = some deadline) (hlt : e.time < deadline) :
    (scrollStep d e).calls = d.calls ∧
    (scrollStep d e).world = setScrollOffset e.scrollY d.world ∧
    (scrollStep d e).inThrottle = some deadline := by
  unfold scrollStep throttleCall throttleAdvance
  simp [hd, Nat.not_le.2 hlt]

/-! ### Claim C15: the throttle is leading, not trailing -/

/-- C15 (as stated, refuted): three scroll events 5 time units apart, the last
at offset 300.  The throttled function runs once, at the first event, at
offset 0; the later events are dropped, and however long one waits after the
burst it does not run again: the header is left without `scrolled` although
the final offset exceeds 50. -/
theorem throttle_drops_last_event :
    (scrollBurst [⟨0, 0⟩, ⟨5, 40⟩, ⟨10, 300⟩] (scrollEffectsInit twoSectionPage)).calls
      = [0] ∧
    (throttleAdvance 100000
      (scrollBurst [⟨0, 0⟩, ⟨5, 40⟩, ⟨10, 300⟩] (scrollEffectsInit twoSectionPage))).calls
      = [0] ∧
    (throttleAdvance 100000
      (scrollBurst [⟨0, 0⟩, ⟨5, 40⟩, ⟨10, 300⟩]
        (scrollEffectsInit twoSectionPage))).world.window.scrollY = 300 ∧
    "scrolled" ∉ (throttleAdvance 100000
      (scrollBurst [⟨0, 0⟩, ⟨5, 40⟩, ⟨10, 300⟩]
        (scrollEffectsInit twoSectionPage))).world.header := by
  decide

/-- C15 (amended): the scroll handler built by `utils.throttle(f, 16)` is a
leading rate limiter.  For scroll events in time order: two runs of `f` are
at least 16 time units apart; every run of `f` happens at a scroll event, in
order; the first event of the sequence runs `f` at once; an event that comes
16 time units or more after the latest run of `f`, or before any run, runs
`f` at once, on the page at that event's offset; an event that comes less
than 16 time units after the latest run is dropped, only the offset changing;
and the timer only clears the flag, so waiting after the sequence runs `f` no
further. -/
theorem throttle_is_leading (p : Page) (events : List ScrollEvent)
    (hsorted : List.Chain' (fun a b => a ≤ b) (events.map ScrollEvent.time)) :
    List.Chain' (fun a b => a + 16 ≤ b) (scrollBurst events (scrollEffectsInit p)).calls ∧
    (scrollBurst events (scrollEffectsInit p)).calls.Sublist
      (events.map ScrollEvent.time) ∧
    (scrollBurst events (scrollEffectsInit p)).calls.head?
      = (events.map ScrollEvent.time).head? ∧
    (∀ (pre : List ScrollEvent) (e : ScrollEvent) (post : List ScrollEvent),
      events = pre ++ e :: post →
      ((∀ c ∈ (scrollBurst pre (scrollEffectsInit p)).calls.getLast?, c + 16 ≤ e.time) →
        (scrollBurst (pre ++ [e]) (scrollEffectsInit p)).calls
          = (scrollBurst pre (scrollEffectsInit p)).calls ++ [e.time] ∧
        (scrollBurst (pre ++ [e]) (scrollEffectsInit p)).world
          = handleScroll
              (setScrollOffset e.scrollY (scrollBurst pre (scrollEffectsInit p)).world)) ∧
      (∀ c ∈ (scrollBurst pre (scrollEffectsInit p)).calls.getLast?, e.time < c + 16 →
        (scrollBurst (pre ++ [e]) (scrollEffectsInit p)).calls
          = (scrollBurst pre (scrollEffectsInit p)).calls ∧
        (scrollBurst (pre ++ [e]) (scrollEffectsInit p)).world
          = setScrollOffset e.scrollY (scrollBurst pre (scrollEffectsInit p)).world)) ∧
    ∀ later : Nat,
      (throttleAdvance later (scrollBurst events (scrollEffectsInit p))).calls
        = (scrollBurst events (scrollEffectsInit p)).calls ∧
      (throttleAdvance later (scrollBurst events (scrollEffectsInit p))).world
        = (scrollBurst events (scrollEffectsInit p)).world := by
  refine ⟨?_, ?_, ?_, ?_, fun later => throttleAdvance_calls_world later _⟩
  · cases events with
    | nil => exact List.chain'_nil
    | cons e rest =>
      apply scrollBurst_inv (e :: rest) (scrollEffectsInit p) 0 _ (scrollEffectsInit_inv p)
      rw [List.map_cons, List.chain_cons]
      exact ⟨Nat.zero_le _, hsorted⟩
  · obtain ⟨extra, hx, hsub⟩ := scrollBurst_calls_sublist events (scrollEffectsInit p)
    rw [hx]
    exact hsub
  · cases events with
    | nil => rfl
    | cons e rest =>
      obtain ⟨extra, hx, _⟩ := scrollBurst_calls_sublist rest (scrollStep (scrollEffectsInit p) e)
      have hstep : (scrollStep (scrollEffectsInit p) e).calls = [e.time] := by
        simp [scrollStep, throttleAdvance, throttleCall, scrollEffectsInit]
      have hburst : scrollBurst (e :: rest) (scrollEffectsInit p)
          = scrollBurst rest (scrollStep (scrollEffectsInit p) e) := rfl
      rw [hburst, hx, hstep]
      rfl
  · intro pre e post hev
    subst hev
    obtain ⟨_, hlast, hempty⟩ := scrollBurst_prefix_inv p pre post e hsorted
    rw [scrollBurst_snoc]
    constructor
    · intro hserved
      have hdue : ∀ deadline,
          (scrollBurst pre (scrollEffectsInit p)).inThrottle = some deadline →
          deadline ≤ e.time := by
        intro deadline hd
        cases hl : (scrollBurst pre (scrollEffectsInit p)).calls.getLast? with
        | none =>
          rw [List.getLast?_eq_none_iff] at hl
          rw [hempty hl] at hd
          cases hd
        | some c =>
          rcases hlast c hl with hsome | ⟨hn, _⟩
          · rw [hsome] at hd
            cases hd
            exact hserved c hl
          · rw [hn] at hd
            cases hd
      obtain ⟨hc, hw, _⟩ := scrollStep_of_due _ e hdue
      exact ⟨hc, hw⟩
    · intro c hc hlt
      rcases hlast c hc with hsome | ⟨_, hle⟩
      · obtain ⟨hcalls, hw, _⟩ := scrollStep_of_pending _ e (c + 16) hsome hlt
        exact ⟨hcalls, hw⟩
      · omega

theorem throttle_is_leading_witness :
    (scrollBurst ([⟨0, 0⟩, ⟨10, 40⟩] ++ [⟨20, 300⟩]) (scrollEffectsInit twoSectionPage)).calls
      = (scrollBurst [⟨0, 0⟩, ⟨10, 40⟩] (scrollEffectsInit twoSectionPage)).calls ++ [20] ∧
    (scrollBurst ([⟨0, 0⟩, ⟨10, 40⟩] ++ [⟨20, 300⟩]) (scrollEffectsInit twoSectionPage)).world
      = handleScroll (setScrollOffset 300
          (scrollBurst [⟨0, 0⟩, ⟨10, 40⟩] (scrollEffectsInit twoSectionPage)).world) :=
  (throttle_is_leading twoSectionPage [⟨0, 0⟩, ⟨10, 40⟩, ⟨20, 300⟩, ⟨30, 10⟩]
    (by simp)).2.2.2.1 [⟨0, 0⟩, ⟨10, 40⟩] ⟨20, 300⟩ [⟨30, 10⟩] rfl |>.1 (by decide)

/-! ## The frame gate -/

theorem gateStep_calls (g : FrameGate) (event : TimelineEvent) :
    ∃ extra : List Nat, (gateStep g event).calls = g.calls ++ extra ∧
      extra.Sublist (frameTimes [event]) := by
  cases event with
  | scroll e =>
    refine ⟨[], ?_, List.Sublist.slnil⟩
    simp only [gateStep, requestScrollUpdate]
    split <;> simp
  | frame t =>
    simp only [gateStep, frameTimes]
    by_cases ht : g.ticking = true
    · exact ⟨[t], by simp [ht, updateScrollElements], List.Sublist.refl _⟩
    · exact ⟨[], by simp [ht], List.nil_sublist _⟩

theorem frameTimes_cons (event : TimelineEvent) (timeline : List TimelineEvent) :
    frameTimes (event :: timeline) = frameTimes [event] ++ frameTimes timeline := by
  cases event <;> rfl

theorem gate_calls_sublist (timeline : List TimelineEvent) (g : FrameGate) :
    ∃ extra : List Nat, (timeline.foldl gateStep g).calls = g.calls ++ extra ∧
      extra.Sublist (frameTimes timeline) := by
  induction timeline generalizing g with
  | nil => exact ⟨[], by simp, List.Sublist.slnil⟩
  | cons event rest ih =>
    rw [List.foldl_cons, frameTimes_cons]
    obtain ⟨x1, h1, s1⟩ := gateStep_calls g event
    obtain ⟨x2, h2, s2⟩ := ih (gateStep g event)
    exact ⟨x1 ++ x2, by rw [h2, h1, List.append_assoc], List.Sublist.append s1 s2⟩

/-! ### Claim C14: the frame gate is never installed -/

/-- C14 (the code at the failing input): `app.init` registers the throttled
listener only, `performance.init` not calling `optimizeScrolling`; with two
scroll events at times 1 and 18 between the frames at 0 and 20 the
recomputation runs twice within that one frame; whereas the gate of
`optimizeScrolling`, were it registered, would recompute only in frame
callbacks, at most once in each. -/
theorem scroll_recomputes_twice_in_frame :
    appInitListeners = [ScrollListener.throttledHandleScroll] ∧
    ScrollListener.requestScrollUpdate ∉ appInitListeners ∧
    recomputationsBetween 0 20
      ([TimelineEvent.frame 0, TimelineEvent.scroll ⟨1, 10⟩, TimelineEvent.scroll ⟨18, 300⟩,
          TimelineEvent.frame 20].foldl appStep (scrollEffectsInit twoSectionPage)).calls
      = [1, 18] ∧
    (∀ (timeline : List TimelineEvent) (p : Page),
      (timeline.foldl gateStep { ticking := false, calls := [], world := p }).calls.Sublist
        (frameTimes timeline)) := by
  refine ⟨by decide, by decide, by decide, ?_⟩
  intro timeline p
  obtain ⟨extra, hx, hsub⟩ := gate_calls_sublist timeline
    { ticking := false, calls := [], world := p }
  rw [hx]
  exact hsub

/-! ## The toggle button -/

theorem afterClicks_succ (a : App) (n : Nat) :
    afterClicks a (n + 1) = toggleButtonClick (afterClicks a n) := by
  unfold afterClicks
  exact Function.iterate_succ_apply' _ _ _

theorem afterClicks_appInit (p : Page) (n : Nat) :
    (afterClicks (appInit p) n).toggleClickListeners = [ToggleFn.original] ∧
    (afterClicks (appInit p) n).ariaExpanded = some "false" := by
  induction n with
  | zero => exact ⟨rfl, rfl⟩
  | succ n ih =>
    rw [afterClicks_succ]
    unfold toggleButtonClick
    rw [ih.1]
    exact ⟨ih.1, ih.2⟩

theorem afterClicks_aria_first (p : Page) (n : Nat) :
    (afterClicks (navigationInit (initARIA (appBeforeInit p))) n).toggleClickListeners
        = [ToggleFn.ariaWrapper] ∧
    (1 ≤ n →
      ((afterClicks (navigationInit (initARIA (appBeforeInit p))) n).ariaExpanded
          = some "true" ↔
        "show-menu" ∈
          (afterClicks (navigationInit (initARIA (appBeforeInit p))) n).page.navMenu)) := by
  induction n with
  | zero => exact ⟨rfl, fun h => absurd h (by decide)⟩
  | succ n ih =>
    rw [afterClicks_succ]
    unfold toggleButtonClick
    rw [ih.1]
    refine ⟨ih.1, fun _ => ?_⟩
    simp only [List.foldl_cons, List.foldl_nil, ToggleFn.call, boolToString, classContains]
    by_cases hm : "show-menu" ∈ (toggleMobileMenu
        (afterClicks (navigationInit (initARIA (appBeforeInit p))) n).page).navMenu
    · simp [hm]
    · simp [hm]

/-! ### Claim C17: `aria-expanded` after a click on the toggle button -/

/-- C17 (the code at the failing input): after `app.init` the click listener
of the toggle button is the function of lines 98-111, registered before
`initARIA` replaced the property; so after any number of clicks
`aria-expanded` is still `false`, and after the first click the menu carries
`show-menu` while `aria-expanded` is `false`.  Had `initARIA` run before
`navigation.init`, the attribute would be `true` exactly when the menu
carries `show-menu` after every click. -/
theorem aria_expanded_not_updated :
    (∀ p : Page, (appInit p).toggleClickListeners = [ToggleFn.original]) ∧
    (∀ (p : Page) (n : Nat), (afterClicks (appInit p) n).ariaExpanded = some "false") ∧
    ("show-menu" ∈ (afterClicks (appInit twoSectionPage) 1).page.navMenu ∧
      (afterClicks (appInit twoSectionPage) 1).ariaExpanded = some "false") ∧
    (∀ (p : Page) (n : Nat), 1 ≤ n →
      ((afterClicks (navigationInit (initARIA (appBeforeInit p))) n).ariaExpanded
          = some "true" ↔
        "show-menu" ∈
          (afterClicks (navigationInit (initARIA (appBeforeInit p))) n).page.navMenu)) := by
  refine ⟨fun _ => rfl, fun p n => (afterClicks_appInit p n).2, by decide, ?_⟩
  intro p n hn
  exact (afterClicks_aria_first p n).2 hn

/-! ## The characters written by `encodeURIComponent` -/

theorem char_toNat_lt (c : Char) : c.toNat < 0x110000 := by
  have h := c.valid
  unfold UInt32.isValidChar Nat.isValidChar at h
  unfold Char.toNat
  omega

theorem utf8Bytes_lt (n : Nat) (hn : n < 0x110000) : ∀ b ∈ utf8Bytes n, b < 256 := by
  intro b hb
  unfold utf8Bytes at hb
  split at hb
  · simp only [List.mem_singleton] at hb
    omega
  · split at hb
    · simp only [List.mem_cons, List.mem_singleton, List.not_mem_nil, or_false] at hb
      omega
    · split at hb
      · simp only [List.mem_cons, List.mem_singleton, List.not_mem_nil, or_false] at hb
        omega
      · simp only [List.mem_cons, List.mem_singleton, List.not_mem_nil, or_false] at hb
        omega

theorem hexDigit_unescaped : ∀ d, d < 16 → isUriUnescaped (hexDigit d) = true := by
  decide

/-- Every character of an encoded string is an unescaped character or `%`. -/
theorem encodeChar_chars (c : Char) :
    ∀ x ∈ encodeChar c, isUriUnescaped x = true ∨ x = '%' := by
  intro x hx
  unfold encodeChar at hx
  split at hx
  · rename_i hc
    simp only [List.mem_singleton] at hx
    rw [hx]
    exact Or.inl hc
  · rw [List.mem_flatMap] at hx
    obtain ⟨b, hb, hxb⟩ := hx
    have hlt := utf8Bytes_lt c.toNat (char_toNat_lt c) b hb
    unfold percentByte at hxb
    simp only [List.mem_cons, List.mem_singleton, List.not_mem_nil, or_false] at hxb
    rcases hxb with h | h | h
    · exact Or.inr h
    · rw [h]
      exact Or.inl (hexDigit_unescaped _ (by omega))
    · rw [h]
      exact Or.inl (hexDigit_unescaped _ (Nat.mod_lt _ (by decide)))

theorem encodeURIComponent_chars (s : String) :
    ∀ x ∈ (encodeURIComponent s).data, isUriUnescaped x = true ∨ x = '%' := by
  intro x hx
  unfold encodeURIComponent at hx
  rw [List.mem_flatMap] at hx
  obtain ⟨c, _, hxc⟩ := hx
  exact encodeChar_chars c x hxc

theorem encodeURIComponent_count_zero (s : String) (x : Char)
    (hx : isUriUnescaped x = false) (hp : x ≠ '%') :
    (encodeURIComponent s).data.count x = 0 := by
  rw [List.count_eq_zero]
  intro hmem
  rcases encodeURIComponent_chars s x hmem with h | h
  · rw [hx] at h; cases h
  · exact hp h

/-- The link is the fixed prefix, the encoded subject, `&body=` and the
encoded body. -/
theorem createMailtoLink_data (formData : FormData) (now : String) :
    ∃ subject body : String,
      createMailtoLink formData now
        = "mailto:akshaymuthushankar@gmail.com?subject=" ++ encodeURIComponent subject
          ++ "&body=" ++ encodeURIComponent body :=
  ⟨_, _, rfl⟩

/-! ### Claim C18: the separators of the mailto link -/

/-- C18: whatever the fields and the timestamp are, the link returned by
`createMailtoLink` contains exactly one `?` and exactly one `&`, those of the
fixed `?subject=` and `&body=`: it is the prefix
`mailto:akshaymuthushankar@gmail.com?subject=`, an encoded subject, `&body=`
and an encoded body, and neither encoded part contains `?`, `&`, `=` or `#`. -/
theorem createMailtoLink_separators (formData : FormData) (now : String) :
    (createMailtoLink formData now).data.count '?' = 1 ∧
    (createMailtoLink formData now).data.count '&' = 1 ∧
    ∃ subject body : String,
      createMailtoLink formData now
        = "mailto:akshaymuthushankar@gmail.com?subject=" ++ subject ++ "&body=" ++ body ∧
      (∀ x ∈ ['?', '&', '=', '#'], x ∉ subject.data ∧ x ∉ body.data) := by
  obtain ⟨subject, body, hlink⟩ := createMailtoLink_data formData now
  have hq : ∀ s : String, (encodeURIComponent s).data.count '?' = 0 :=
    fun s => encodeURIComponent_count_zero s '?' (by decide) (by decide)
  have ha : ∀ s : String, (encodeURIComponent s).data.count '&' = 0 :=
    fun s => encodeURIComponent_count_zero s '&' (by decide) (by decide)
  refine ⟨?_, ?_, encodeURIComponent subject, encodeURIComponent body, hlink, ?_⟩
  · rw [hlink]
    simp only [String.data_append, List.count_append, hq]
    decide
  · rw [hlink]
    simp only [String.data_append, List.count_append, ha]
    decide
  · intro x hx
    have hcount : ∀ s : String, (encodeURIComponent s).data.count x = 0 := by
      intro s
      simp only [List.mem_cons, List.mem_singleton, List.not_mem_nil, or_false] at hx
      rcases hx with h | h | h | h <;> subst h <;>
        exact encodeURIComponent_count_zero s _ (by decide) (by decide)
    exact ⟨List.count_eq_zero.1 (hcount subject), List.count_eq_zero.1 (hcount body)⟩

/-! ### Claim C16: a submission with validation errors -/

/-- C16 (as stated, refuted): the form has an empty name, which the browser
marks invalid, and the focus is on the message field.  `handleSubmit` reports
the error and moves the focus to the name field: something besides the banner
has changed. -/
theorem handleSubmit_moves_focus :
    validateForm emptyNameForm.formData = ["Name is required"] ∧
    emptyNameForm.focused = some "message" ∧
    (handleSubmit emptyNameForm).focused = some "name" := by
  decide

/-- C16 (amended): when `validateForm` returns a non-empty list, `handleSubmit`
leaves exactly one banner, the error banner listing those errors, and sets its
dismiss timer; the focus goes to the first field the browser marks invalid,
if there is one; and nothing else changes: no send is scheduled, so no mailto
link is built, the location, the field values and the submit button are as
before.  A further submission with valid fields is then accepted. -/
theorem handleSubmit_with_errors (f : ContactForm)
    (herrors : validateForm f.formData ≠ []) :
    handleSubmit f =
      { f with
        banners := [{ variant := "error", message := errorMessage (validateForm f.formData) }]
        dismissTimers := f.dismissTimers ++ [5000]
        focused := (f.invalidFields.head?).orElse (fun _ => f.focused) } ∧
    (handleSubmit f).pendingSends = f.pendingSends ∧
    (handleSubmit f).locationHref = f.locationHref ∧
    (handleSubmit f).formData = f.formData ∧
    (handleSubmit f).submitInnerHTML = f.submitInnerHTML ∧
    (handleSubmit f).submitDisabled = f.submitDisabled ∧
    (∀ corrected : FormData, validateForm corrected = [] →
      (handleSubmit { handleSubmit f with formData := corrected }).pendingSends
        = f.pendingSends ++
          [{ formData := corrected, originalText := f.submitInnerHTML }]) := by
  have hlen : (validateForm f.formData).length > 0 := List.length_pos.2 herrors
  have hmain : handleSubmit f =
      { f with
        banners := [{ variant := "error", message := errorMessage (validateForm f.formData) }]
        dismissTimers := f.dismissTimers ++ [5000]
        focused := (f.invalidFields.head?).orElse (fun _ => f.focused) } := by
    unfold handleSubmit
    simp only [hlen, if_true, showMessage]
    cases f.invalidFields.head? <;> rfl
  refine ⟨hmain, ?_, ?_, ?_, ?_, ?_, ?_⟩
  · rw [hmain]
  · rw [hmain]
  · rw [hmain]
  · rw [hmain]
  · rw [hmain]
  · intro corrected hvalid
    rw [hmain]
    unfold handleSubmit
    simp [hvalid]

theorem handleSubmit_with_errors_witness :
    (handleSubmit emptyNameForm).pendingSends = emptyNameForm.pendingSends ∧
    (handleSubmit emptyNameForm).locationHref = emptyNameForm.locationHref :=
  ⟨(handleSubmit_with_errors emptyNameForm (by decide)).2.1,
   (handleSubmit_with_errors emptyNameForm (by decide)).2.2.1⟩

end Portfolio
